import Mathlib

/-!
# Socket.cpp: fetch a web page and show it on the LED array

A shallow embedding of `src/socket/Socket.cpp` (the byte display of
`gpio_class` is textually the same in `src/DisplayPost/Displaypost.cpp`).

The program never reads a pin back, so it is modelled as a function that
threads a `World` (the chronological list of calls it made to the outside,
plus the one data member `file_descriptor`).  What the hardware shows is
obtained by replaying that list (`levels_after`).  Answers of the operating
system (resolver, socket, connect, send, recv) and the values of the flag
`running`, which `SIGINT_handler` clears asynchronously, are inputs.
-/

namespace Socket

/-! ## Constants -/

/-- Number of LEDs, `#define LEDs 20`. -/
def LEDs : Nat := 20

/-- Pause after each character, `#define delaymils 100`. -/
def delaymils : Nat := 100

/-- Size of the receive buffer, `#define buffer_length 150`. -/
def buffer_length : Nat := 150

/-- wiringPi output levels: `LOW` lights a LED of the array, `HIGH` switches it off. -/
inductive Level where
  | LOW
  | HIGH
  deriving DecidableEq, Repr

/-- wiringPi pin modes. -/
inductive PinMode where
  | INPUT
  | OUTPUT
  deriving DecidableEq, Repr

/-- One call the program makes to the outside world, with the arguments it
passed and, where the program looks at it, the value the call returned. -/
inductive Event where
  | wiringPiSetup
  | signal
  | pinMode (pin : Nat) (mode : PinMode)
  | digitalWrite (pin : Nat) (value : Level)
  | delay (ms : Nat)
  | cout (text : List Char)
  | getaddrinfo (node service : List Char) (ret : Int)
  | getnameinfo (addr : Nat)
  | socket (family : Int) (ret : Int)
  | connect (fd : Int) (addr : Nat) (ret : Int)
  | close (fd : Int)
  | freeaddrinfo
  | send (fd : Int) (text : List Char) (ret : Int)
  | recv (fd : Int) (len : Nat) (ret : Int)
  deriving DecidableEq, Repr

/-- Program state: the calls made so far, oldest first, and the data member
`socket_class::file_descriptor`. -/
structure World where
  trace : List Event
  file_descriptor : Int

/-- State at the start of `main`: nothing done yet, `int file_descriptor=0`. -/
def World.start : World := ⟨[], 0⟩

/-- Record one call. -/
def emit (e : Event) (w : World) : World :=
  { w with trace := w.trace ++ [e] }

/-! ## gpio_class -/

/-- The channel map, `int pins[LEDs]={2,3,4,14,15,18,17,27,22,23,24,10,9,11,25,8,7,1,0,5};`. -/
def pins : List Nat := [2,3,4,14,15,18,17,27,22,23,24,10,9,11,25,8,7,1,0,5]

/-- The array read `pins[i]`. -/
def pin (i : Nat) : Nat := pins.getD i 0

/-- The wiringPi call `pinMode(pin,mode)`. -/
def pinMode (p : Nat) (m : PinMode) (w : World) : World := emit (.pinMode p m) w

/-- The wiringPi call `digitalWrite(pin,value)`. -/
def digitalWrite (p : Nat) (v : Level) (w : World) : World := emit (.digitalWrite p v) w

/-- The wiringPi call `delay(ms)`. -/
def delay (ms : Nat) (w : World) : World := emit (.delay ms) w

/-- One `cout<<...;` statement; `endl` is the newline at the end of `text`. -/
def cout (text : List Char) (w : World) : World := emit (.cout text) w

/-- Body of the loop of `clear_pins` for one value of `c`. -/
def clear_pins_step (w : World) (c : Nat) : World :=
  digitalWrite (pin c) .HIGH (pinMode (pin c) .OUTPUT w)

/-- Method `gpio_class::clear_pins`: `for (int c=0;c<LEDs;c++)`. -/
def clear_pins (w : World) : World :=
  (List.range LEDs).foldl clear_pins_step w

/-- Body of the loop of `gpio_write` for one value of `c`:
`mask=(uint8_t)pow(2.0,(float)c); if (data & mask) digitalWrite(pins[8-c],LOW);`
(`pow(2.0,c)` is the exact power of two for `c` from 0 to 7, and `8-c` stays
within 1..8, inside the array). -/
def gpio_write_step (data : Nat) (w : World) (c : Nat) : World :=
  let mask := (2 ^ c) % 256
  if data &&& mask ≠ 0 then digitalWrite (pin (8 - c)) .LOW w else w

/-- Method `gpio_class::gpio_write(uint8_t data)`: `clear_pins()` and then
`for (int c=0;c<8;c++)`. -/
def gpio_write (data : Nat) (w : World) : World :=
  (List.range 8).foldl (gpio_write_step data) (clear_pins w)

/-- The loop of `gpio_write_string` from index `c` on, the characters from
`the_string.at(c)` to the end being `rest`.  `running c` is the value of the
flag `running` seen by the test at the top of the iteration with index `c`. -/
def gpio_write_string_from (running : Nat → Bool) : Nat → List Char → World → World
  | _, [], w => w
  | c, ch :: rest, w =>
    if !running c then w
    else
      let w1 := cout ("C is: ".toList ++ (toString c).toList ++ " Character is: ".toList
                  ++ [ch] ++ "\n".toList) w
      let w2 := gpio_write (ch.toNat % 256) w1
      let w3 := delay delaymils w2
      gpio_write_string_from running (c + 1) rest w3

/-- Method `gpio_class::gpio_write_string(string the_string)`; `running c` is the
value of the flag seen by `if (!running) return;` in the iteration with index `c`. -/
def gpio_write_string (running : Nat → Bool) (the_string : List Char) (w : World) : World :=
  gpio_write_string_from running 0 the_string
    (cout ("Writing this string: ".toList ++ the_string ++ "\n".toList) w)

/-! ## socket_class -/

/-- Outcome of a piece of the program: either it came back with a value, or
the process was ended by `exit(status)`. -/
inductive Run (α : Type) where
  | done (value : α) (w : World)
  | exit (status : Int) (w : World)

/-- One entry of the list `getaddrinfo` returns, together with what the
operating system answers when the entry is tried (each entry is tried at most
once, so this covers every behaviour of `socket` and `connect`). -/
structure addrinfo where
  ai_family : Int
  ai_addr : Nat
  host : List Char
  socket_ret : Int
  connect_ret : Int
  deriving DecidableEq, Repr

/-- The constant `AF_INET6` of `<sys/socket.h>` on Linux. -/
def AF_INET6 : Int := 10

/-- Everything the outside world decides during one run. -/
structure Env where
  /-- status returned by `getaddrinfo` -/
  getaddrinfo_ret : Int
  /-- the list `getaddrinfo` stores in `server_info_ptr` -/
  server_info : List addrinfo
  /-- value returned by the `k`-th call of `send` -/
  send_ret : Nat → Int
  /-- answer to the `recv` of loop iteration `c` of `main`: `none` is a failed
  receive (`-1`), `some d` delivers the bytes `d` -/
  recv_data : Nat → Option (List Char)
  /-- value of `running` seen at the top of iteration `c` of the loop of `main` -/
  running_main : Nat → Bool
  /-- value of `running` seen inside the `gpio_write_string` of iteration `c`
  of `main`, at the top of its iteration `k` -/
  running_sink : Nat → Nat → Bool

/-- Method `socket_class::exit_error`: `cout <<msg<<endl; exit(1);` -/
def exit_error {α : Type} (msg : List Char) (w : World) : Run α :=
  .exit 1 (cout (msg ++ "\n".toList) w)

/-- The debug loop of `dns_lookup` over the resolved list. -/
def dns_lookup_show : List addrinfo → World → World
  | [], w => w
  | temp_addr :: rest, w =>
    let w1 := emit (.getnameinfo temp_addr.ai_addr) w
    let w2 := cout ("Found SOCK_STREAM address: ".toList ++ temp_addr.host) w1
    let w3 := if temp_addr.ai_family = AF_INET6 then cout " IPv6".toList w2
              else cout " IPv4".toList w2
    let w4 := cout ".\n".toList w3
    dns_lookup_show rest w4

/-- Method `socket_class::dns_lookup(string text_address,int port)`. -/
def dns_lookup (env : Env) (text_address : List Char) (port : Int) (w : World) :
    Run (List addrinfo) :=
  let text_port := (toString port).toList
  let w1 := cout ("Using port# ".toList ++ text_port ++ "\n".toList) w
  let w2 := emit (.getaddrinfo text_address text_port env.getaddrinfo_ret) w1
  if env.getaddrinfo_ret = 0 then
    .done env.server_info (dns_lookup_show env.server_info w2)
  else
    exit_error "DNS Failed.".toList w2

/-- The candidate loop of `connect_socket`,
`for (addrinfo *ptr=dns_results_ptr;ptr!=NULL;ptr=(*ptr).ai_next)`;
`break` and the end of the list both come back with `done`. -/
def connect_loop : List addrinfo → World → Run Unit
  | [], w => .done () w
  | temp_addr :: rest, w =>
    let w1 := emit (.getnameinfo temp_addr.ai_addr) w
    let w2 := cout ("Trying: ".toList ++ temp_addr.host ++ "\n".toList) w1
    let w3 : World := { emit (.socket temp_addr.ai_family temp_addr.socket_ret) w2 with
                file_descriptor := temp_addr.socket_ret }
    if w3.file_descriptor = -1 then
      exit_error "Unable to create socket.".toList w3
    else
      let w4 := emit (.connect w3.file_descriptor temp_addr.ai_addr temp_addr.connect_ret) w3
      if temp_addr.connect_ret = 0 then
        .done () (cout "Connected!\n".toList w4)
      else
        connect_loop rest (emit (.close w4.file_descriptor) w4)

/-- Method `socket_class::connect_socket(string address,int port)`. -/
def connect_socket (env : Env) (address : List Char) (port : Int) (w : World) : Run Unit :=
  match dns_lookup env address port w with
  | .exit status w1 => .exit status w1
  | .done dns_results w1 =>
    match connect_loop dns_results w1 with
    | .exit status w2 => .exit status w2
    | .done () w2 => .done () (emit .freeaddrinfo w2)

/-- The system call `recv(fd,buf,len,0)`: the count it returns and the bytes
it stores; at most `len` bytes are delivered. -/
def recv (answer : Option (List Char)) (len : Nat) : Int × List Char :=
  match answer with
  | none => (-1, [])
  | some d => (((d.take len).length : Int), d.take len)

/-- The constructor `string(from_server)`: the characters of the buffer up to
its first zero byte.  The buffer has `buffer_length` bytes, all zero before
`recv` stores at most `buffer_length-1` of them, so a zero byte is always there. -/
def c_string (from_server : List Char) : List Char :=
  from_server.takeWhile (fun ch => ch.toNat ≠ 0)

/-- Method `socket_class::read_socket()`; `answer` is what the system does on
this `recv`. -/
def read_socket (answer : Option (List Char)) (w : World) : Run (List Char) :=
  let r := recv answer (buffer_length - 1)
  let bytes := r.1
  let from_server := r.2
  let w1 := emit (.recv w.file_descriptor (buffer_length - 1) bytes) w
  if bytes < 0 then
    exit_error "Error on Receive.".toList w1
  else
    .done (c_string from_server)
      (cout ("Received ".toList ++ (toString bytes).toList
              ++ " bytes from server.\n".toList) w1)

/-- Method `socket_class::write_socket(string text)`; `ret` is what `send` returns. -/
def write_socket (ret : Int) (text : List Char) (w : World) : Run Unit :=
  let bytes := ret
  let w1 := emit (.send w.file_descriptor text bytes) w
  if bytes < 0 then
    exit_error "Error on Send.".toList w1
  else
    .done () (cout ("Sent ".toList ++ (toString bytes).toList
                  ++ " bytes to server.\n".toList) w1)

/-- Method `socket_class::close_socket()`. -/
def close_socket (w : World) : World := emit (.close w.file_descriptor) w

/-! ## main -/

/-- The read loop of `main`, `for (int c=0;c<number_of_lines;c++)`, from
index `c` on with `todo` iterations left (`todo = number_of_lines - c`). -/
def main_loop (env : Env) : Nat → Nat → World → Run Unit
  | 0, _, w => .done () w
  | todo + 1, c, w =>
    if !env.running_main c then .done () w
    else
      match read_socket (env.recv_data c) w with
      | .exit status w1 => .exit status w1
      | .done message w1 =>
        let w2 := cout ("Received: ".toList ++ message ++ ".\n".toList) w1
        let w3 := gpio_write_string (env.running_sink c) message w2
        main_loop env todo (c + 1) w3

/-- The text `main` builds in `http_request`. -/
def http_request (target_address : List Char) : List Char :=
  ("GET http://".toList ++ target_address ++ "/index.html".toList)
    ++ (" HTTP/1.1\r\nhost:".toList ++ target_address ++ "\r\n\r\n".toList)

/-- The part of `main` after the connection is made: the two writes, the read
loop, `close_socket`, `clear_pins`, `return 0`. -/
def main_connected (env : Env) (target_address : List Char) (number_of_lines : Int)
    (w : World) : Run Unit :=
  let w1 := cout ("Sending HTTP request: ".toList ++ http_request target_address
                ++ "\n".toList) w
  match write_socket (env.send_ret 0) (http_request target_address) w1 with
  | .exit status w2 => .exit status w2
  | .done () w2 =>
    match write_socket (env.send_ret 1) "\r\n".toList w2 with
    | .exit status w3 => .exit status w3
    | .done () w3 =>
      match main_loop env number_of_lines.toNat 0 w3 with
      | .exit status w4 => .exit status w4
      | .done () w4 => .exit 0 (clear_pins (close_socket w4))

/-- The function `main`, with the two values read from standard input as arguments.  The
result is always `Run.exit`: `return 0` from `main` ends the process with
status 0. -/
def main (env : Env) (target_address : List Char) (number_of_lines : Int) : Run Unit :=
  let w1 := emit .signal (emit .wiringPiSetup World.start)
  let w2 := cout "What address should I connect to?\n".toList w1
  let w3 := cout "How many lines should I read?\n".toList w2
  let w4 := cout "Building HTTP request.\n".toList w3
  let w5 := cout "Setting up GPIO bus object.\n".toList w4
  let w6 := cout "Clearing GPIO pins.\n".toList w5
  let w7 := clear_pins w6
  let w8 := cout "Setting up socket object.\n".toList w7
  let w9 := cout ("Connecting socket to ".toList ++ target_address
                ++ "on port 80.\n".toList) w8
  match connect_socket env target_address 80 w9 with
  | .exit status w10 => .exit status w10
  | .done () w10 => main_connected env target_address number_of_lines w10

/-! ## What the LED array shows -/

/-- Effect of one call on the output levels, by GPIO number: `digitalWrite`
latches the value, nothing else changes a level. -/
def apply_event (lv : Nat → Level) : Event → Nat → Level
  | .digitalWrite p v => fun q => if q = p then v else lv q
  | _ => lv

/-- Output levels after the calls `tr`, starting from the levels `lv`. -/
def levels_after (lv : Nat → Level) (tr : List Event) : Nat → Level :=
  tr.foldl apply_event lv

/-- The 20 channels of the map in map order; `true` is on (driven `LOW`). -/
def pattern (lv : Nat → Level) : List Bool :=
  (List.range LEDs).map (fun j => decide (lv (pin j) = .LOW))

/-- The calls `clear_pins` makes. -/
def clear_events : List Event :=
  (List.range LEDs).flatMap (fun c => [Event.pinMode (pin c) .OUTPUT, Event.digitalWrite (pin c) .HIGH])

/-- The calls of the bit loop of `gpio_write`. -/
def bit_events (data : Nat) : List Event :=
  (List.range 8).flatMap (fun c =>
    if data &&& ((2 ^ c) % 256) ≠ 0 then [Event.digitalWrite (pin (8 - c)) .LOW] else [])

/-- What an observer sees: the pattern shown during each `delay`, in order,
when the calls `tr` are made starting from the levels `lv`. -/
def frames_from (lv : Nat → Level) : List Event → List (List Bool)
  | [] => []
  | .delay _ :: tr => pattern lv :: frames_from lv tr
  | e :: tr => frames_from (apply_event lv e) tr

/-- Decoder of a pattern under the bit mapping of `gpio_write`: channel
`8 - c` of the map carries bit `c`. -/
def decode (p : List Bool) : Nat :=
  (List.range 8).foldl (fun acc c => acc + if p.getD (8 - c) false then 2 ^ c else 0) 0

/-- World an outcome ends in. -/
def Run.world {α : Type} : Run α → World
  | .done _ w => w
  | .exit _ w => w

/-- Exit status of an outcome, if the process was ended. -/
def Run.status {α : Type} : Run α → Option Int
  | .done _ _ => none
  | .exit status _ => some status

/-- The calls of `connect` in a list of calls: descriptor, address, result. -/
def connect_calls (tr : List Event) : List (Int × Nat × Int) :=
  tr.filterMap (fun e => match e with
    | .connect fd addr ret => some (fd, addr, ret)
    | _ => none)

/-- The calls of `socket` in a list of calls: family and result. -/
def socket_calls (tr : List Event) : List (Int × Int) :=
  tr.filterMap (fun e => match e with
    | .socket family ret => some (family, ret)
    | _ => none)

/-- The descriptors passed to `close`, in order. -/
def close_calls (tr : List Event) : List Int :=
  tr.filterMap (fun e => match e with
    | .close fd => some fd
    | _ => none)

/-- Effect of one call on the descriptors this process holds open: a
successful `socket` adds its result, `close` removes its argument. -/
def open_step (fds : List Int) : Event → List Int
  | .socket _ ret => if ret = -1 then fds else ret :: fds
  | .close fd => fds.erase fd
  | _ => fds

/-- Socket descriptors open after the calls `tr`, none being open before. -/
def open_fds (tr : List Event) : List Int :=
  tr.foldl open_step []

/-- How a candidate shows in `connect_calls` when it is tried. -/
def addrinfo.attempt (a : addrinfo) : Int × Nat × Int :=
  (a.socket_ret, a.ai_addr, a.connect_ret)

/-- The candidates up to and including the first one whose `connect` answers 0
(all of them when there is none). -/
def through_first_success (l : List addrinfo) : List addrinfo :=
  l.takeWhile (fun a => decide (a.connect_ret ≠ 0))
    ++ (l.dropWhile (fun a => decide (a.connect_ret ≠ 0))).take 1

/-- The calls `connect_loop` makes for a candidate whose socket is created
and whose `connect` fails. -/
def failed_events (a : addrinfo) : List Event :=
  [.getnameinfo a.ai_addr, .cout ("Trying: ".toList ++ a.host ++ "\n".toList),
   .socket a.ai_family a.socket_ret, .connect a.socket_ret a.ai_addr a.connect_ret,
   .close a.socket_ret]

/-- State after `connect_loop` went through the candidates `pre`, each of
them created and failing to connect. -/
def after_failed (pre : List addrinfo) (w : World) : World :=
  { trace := w.trace ++ pre.flatMap failed_events,
    file_descriptor := (pre.getLast?.map (fun a => a.socket_ret)).getD w.file_descriptor }

/-- The calls the debug loop of `dns_lookup` makes for the resolved list. -/
def dns_show_events (l : List addrinfo) : List Event :=
  l.flatMap (fun a =>
    [.getnameinfo a.ai_addr, .cout ("Found SOCK_STREAM address: ".toList ++ a.host),
     .cout (if a.ai_family = AF_INET6 then " IPv6".toList else " IPv4".toList),
     .cout ".\n".toList])

/-- The calls `dns_lookup` makes up to and including `getaddrinfo`. -/
def dns_call_events (env : Env) (text_address : List Char) (port : Int) : List Event :=
  [.cout ("Using port# ".toList ++ (toString port).toList ++ "\n".toList),
   .getaddrinfo text_address (toString port).toList env.getaddrinfo_ret]

/-- The socket operations among the calls. -/
def Event.net : Event → Bool
  | .socket _ _ => true
  | .connect _ _ _ => true
  | .close _ => true
  | .send _ _ _ => true
  | .recv _ _ _ => true
  | _ => false

/-- The counts returned by the calls of `recv`, in order. -/
def recv_calls (tr : List Event) : List Int :=
  tr.filterMap (fun e => match e with
    | .recv _ _ ret => some ret
    | _ => none)

/-- The calls `connect_loop` makes for a candidate whose socket is created
and whose `connect` answers 0. -/
def success_events (a : addrinfo) : List Event :=
  [.getnameinfo a.ai_addr, .cout ("Trying: ".toList ++ a.host ++ "\n".toList),
   .socket a.ai_family a.socket_ret, .connect a.socket_ret a.ai_addr a.connect_ret,
   .cout "Connected!\n".toList]

/-- The calls `connect_loop` makes for a candidate whose socket is not created. -/
def no_socket_events (a : addrinfo) : List Event :=
  [.getnameinfo a.ai_addr, .cout ("Trying: ".toList ++ a.host ++ "\n".toList),
   .socket a.ai_family a.socket_ret, .cout "Unable to create socket.\n".toList]

/-- The calls `main` makes before `connect_socket`. -/
def main_setup_events (target_address : List Char) : List Event :=
  [.wiringPiSetup, .signal,
   .cout "What address should I connect to?\n".toList,
   .cout "How many lines should I read?\n".toList,
   .cout "Building HTTP request.\n".toList,
   .cout "Setting up GPIO bus object.\n".toList,
   .cout "Clearing GPIO pins.\n".toList]
  ++ clear_events ++
  [.cout "Setting up socket object.\n".toList,
   .cout ("Connecting socket to ".toList ++ target_address ++ "on port 80.\n".toList)]

/-! ## Sample environments -/

/-- A candidate whose socket is created (descriptor 3) and whose `connect` fails. -/
def cand_A : addrinfo := ⟨2, 1, "192.0.2.1".toList, 3, -1⟩

/-- A candidate whose socket is created and whose `connect` answers 0. -/
def cand_B : addrinfo := ⟨10, 2, "2001:db8::2".toList, 3, 0⟩

/-- A third candidate, which would connect as well. -/
def cand_C : addrinfo := ⟨2, 3, "192.0.2.3".toList, 4, 0⟩

/-- A candidate for which `socket` answers -1. -/
def cand_X : addrinfo := ⟨10, 4, "2001:db8::4".toList, -1, 0⟩

/-- A run in which nothing fails and the flag stays set: the resolver answers
`cands`, each receive delivers `"Hi"`. -/
def env_of (status : Int) (cands : List addrinfo) : Env :=
  { getaddrinfo_ret := status
    server_info := cands
    send_ret := fun _ => 2
    recv_data := fun _ => some "Hi".toList
    running_main := fun _ => true
    running_sink := fun _ _ => true }

/-- A run that connects to `cand_B`, receives `"Hi"` once, and whose second
receive fails. -/
def env_recv_fails : Env :=
  { env_of 0 [cand_B] with
    recv_data := fun c => if c = 0 then some "Hi".toList else none }

/-- A run that connects at the second candidate and in which the flag is seen
cleared at the top of the third iteration of the read loop. -/
def env_interrupted : Env :=
  { env_of 0 [cand_A, cand_B] with
    running_main := fun c => decide (c < 2) }

/-- The calls of one iteration of the loop of `gpio_write_string`, for the
character `ch` at index `c`. -/
def render_events (c : Nat) (ch : Char) : List Event :=
  [.cout ("C is: ".toList ++ (toString c).toList ++ " Character is: ".toList
            ++ [ch] ++ "\n".toList)]
    ++ (clear_events ++ bit_events (ch.toNat % 256)) ++ [.delay delaymils]

/-- The calls of the loop of `gpio_write_string` for the characters `l`, the
first of them at index `c`. -/
def rendered : Nat → List Char → List Event
  | _, [] => []
  | c, ch :: rest => render_events c ch ++ rendered (c + 1) rest

/-- Level of GPIO `p` after `gpio_write b`, its level having been `before`. -/
def level_after_write (b : Nat) (before : Level) (p : Nat) : Level :=
  if (List.range 8).any (fun c => b.testBit c && decide (p = pin (8 - c))) then .LOW
  else if (List.range LEDs).any (fun j => decide (p = pin j)) then .HIGH
  else before

/-- A `recv` that reported a negative count. -/
def Event.bad_recv : Event → Bool
  | .recv _ _ ret => decide (ret < 0)
  | _ => false

/-- The calls made after the first failed `recv`, if there is one. -/
def after_bad_recv : List Event → Option (List Event)
  | [] => none
  | e :: tr => if e.bad_recv then some tr else after_bad_recv tr

/-- The calls `main` makes between `connect_socket` and the read loop when
both writes succeed, the descriptor being `fd`. -/
def send_events (env : Env) (target_address : List Char) (fd : Int) : List Event :=
  [.cout ("Sending HTTP request: ".toList ++ http_request target_address ++ "\n".toList),
   .send fd (http_request target_address) (env.send_ret 0),
   .cout ("Sent ".toList ++ (toString (env.send_ret 0)).toList
            ++ " bytes to server.\n".toList),
   .send fd "\r\n".toList (env.send_ret 1),
   .cout ("Sent ".toList ++ (toString (env.send_ret 1)).toList
            ++ " bytes to server.\n".toList)]

/-- The calls `connect_socket` makes when the resolver succeeds, the
candidates `pre` are created and fail to connect, and `a` connects. -/
def connected_events (env : Env) (address : List Char) (port : Int)
    (pre : List addrinfo) (a : addrinfo) : List Event :=
  (dns_call_events env address port ++ dns_show_events env.server_info)
    ++ pre.flatMap failed_events ++ success_events a ++ [.freeaddrinfo]

/-! ## Further observations on the calls -/

/-- The calls of `send` in a list of calls: descriptor, text, result. -/
def send_calls (tr : List Event) : List (Int × List Char × Int) :=
  tr.filterMap (fun e => match e with
    | .send fd text ret => some (fd, text, ret)
    | _ => none)

/-- A `send` or `recv` that reported a negative result. -/
def Event.failed_transfer : Event → Bool
  | .send _ _ ret => decide (ret < 0)
  | .recv _ _ ret => decide (ret < 0)
  | _ => false

/-- The arguments of the calls of `delay`, in order. -/
def delay_calls (tr : List Event) : List Nat :=
  tr.filterMap (fun e => match e with
    | .delay ms => some ms
    | _ => none)

/-- Effect of one call on the pin modes, by GPIO number. -/
def apply_mode (md : Nat → PinMode) : Event → Nat → PinMode
  | .pinMode p m => fun q => if q = p then m else md q
  | _ => md

/-- Pin modes after the calls `tr`, starting from the modes `md`. -/
def modes_after (md : Nat → PinMode) (tr : List Event) : Nat → PinMode :=
  tr.foldl apply_mode md

/-- Check, call by call, that with the descriptors `fds` open before the calls
`tr` there is never more than one descriptor open and that `socket` is only
called when none is. -/
def tidy_from (fds : List Int) : List Event → Bool
  | [] => decide (fds.length ≤ 1)
  | e :: tr =>
    decide (fds.length ≤ 1)
      && (match e with
          | .socket _ _ => fds.isEmpty
          | _ => true)
      && tidy_from (open_step fds e) tr

/-- At every point of the calls `tr` at most one of the sockets they created
is open, and each `socket` call is made when none is. -/
def one_at_a_time (tr : List Event) : Prop :=
  ∀ i, (open_fds (tr.take i)).length ≤ 1 ∧
    ∀ family ret, tr[i]? = some (Event.socket family ret) → open_fds (tr.take i) = []

/-- Number of the bits 0..7 set in `b`. -/
def set_bits (b : Nat) : Nat :=
  (List.range 8).countP (fun c => b.testBit c)

/-- Value an outcome came back with, if it did. -/
def Run.value {α : Type} : Run α → Option α
  | .done a _ => some a
  | .exit _ _ => none

end Socket

/-!
# Displaypost.cpp: the CGI text cleaner

A shallow embedding of `parse_cgi` of `src/DisplayPost/Displaypost.cpp`.
A `std::string` is a list of characters; `std::string::npos` and the
`std::out_of_range` exception thrown by `replace` are `none`.
-/

namespace DisplayPost

/-- Whether the characters of `needle` stand at the start of `s`. -/
def starts_with : List Char → List Char → Bool
  | _, [] => true
  | [], _ :: _ => false
  | x :: s, y :: needle => x == y && starts_with s needle

/-- The call `s.find(needle)`: position of the first place where `needle`
stands in `s`, `none` for `npos` (the empty `needle` is found at 0). -/
def find : List Char → List Char → Option Nat
  | [], needle => if starts_with [] needle then some 0 else none
  | x :: s, needle =>
    if starts_with (x :: s) needle then some 0 else (find s needle).map (· + 1)

/-- The call `s.replace(pos,len,"")`: the characters from `pos` on, at most
`len` of them, are removed; a `pos` beyond the length of `s`, as `npos` is,
throws `std::out_of_range` (`none`). -/
def replace_with_nothing (s : List Char) (pos : Option Nat) (len : Nat) : Option (List Char) :=
  match pos with
  | none => none
  | some p => if p > s.length then none else some (s.take p ++ s.drop (p + len))

/-- One pass of `if(*c=='+'){*c=' ';}` over the characters of a buffer. -/
def plus_to_space : List Char → List Char
  | [] => []
  | ch :: rest => (if ch = '+' then ' ' else ch) :: plus_to_space rest

/-- The function `parse_cgi(string instring,string field_name)`; `none` is
the uncaught `std::out_of_range`.  The loop
`for (c=temp.begin();c<=temp.end();c++)` also visits the position of
`temp.end()`, which holds the terminating zero byte of the buffer; the zero
byte is not part of the string that is returned. -/
def parse_cgi (instring field_name : List Char) : Option (List Char) :=
  let temp := instring
  let replaced :=
    if find temp field_name ≠ none then
      replace_with_nothing temp (find temp (field_name ++ "=".toList)) (field_name.length + 1)
    else some temp
  match replaced with
  | none => none
  | some temp1 => some (plus_to_space (temp1 ++ [Char.ofNat 0])).dropLast

/-- The text `t` with every `'+'` turned into a space. -/
def spaces_for_plus (t : List Char) : List Char :=
  t.map (fun ch => if ch = '+' then ' ' else ch)

end DisplayPost

/-!
# tictac.cpp: the win check

A shallow embedding of `board::win_check` and the three line checks of
`src/tictac/tictac.cpp`.
-/

namespace TicTac

/-- The member `char board_data[3][3]`, read as `board_data[row][col]`. -/
abbrev Board := Int → Int → Char

/-- State of `board_data` after the constructor `board()`. -/
def empty_board : Board := fun _ _ => Char.ofNat 0

/-- The loop of `check_across` from column `c` on, `fuel` iterations left. -/
def check_across_loop (b : Board) (row : Int) (player : Char) : Nat → Int → Bool
  | 0, _ => true
  | fuel + 1, c =>
    if b row c ≠ player then false else check_across_loop b row player fuel (c + 1)

/-- The method `check_across(int row, char player)`: `for (int c=0;c<=2;c++)`. -/
def check_across (b : Board) (row : Int) (player : Char) : Bool :=
  check_across_loop b row player 3 0

/-- The loop of `check_vert` from row `c` on, `fuel` iterations left. -/
def check_vert_loop (b : Board) (col : Int) (player : Char) : Nat → Int → Bool
  | 0, _ => true
  | fuel + 1, c =>
    if b c col ≠ player then false else check_vert_loop b col player fuel (c + 1)

/-- The method `check_vert(int col, char player)`: `for (int c=0;c<=2;c++)`. -/
def check_vert (b : Board) (col : Int) (player : Char) : Bool :=
  check_vert_loop b col player 3 0

/-- The loop of the `!up` branch of `check_diag`. -/
def check_diag_down_loop (b : Board) (player : Char) : Nat → Int → Bool
  | 0, _ => true
  | fuel + 1, c =>
    if b c c ≠ player then false else check_diag_down_loop b player fuel (c + 1)

/-- The loop of the `up` branch of `check_diag`, with its counter `d`. -/
def check_diag_up_loop (b : Board) (player : Char) : Nat → Int → Int → Bool
  | 0, _, _ => true
  | fuel + 1, c, d =>
    if b d c ≠ player then false else check_diag_up_loop b player fuel (c + 1) (d - 1)

/-- The method `check_diag(bool up,char player)`. -/
def check_diag (b : Board) (up : Bool) (player : Char) : Bool :=
  if !up then check_diag_down_loop b player 3 0
  else check_diag_up_loop b player 3 0 2

/-- The statement `won+=x;` on a `bool won`: both are promoted to `int`,
added, and the sum is converted back to `bool` (non-zero is `true`). -/
def bool_add (won x : Bool) : Bool :=
  decide (won.toNat + x.toNat ≠ 0)

/-- The loop of `win_check` from `c` on, `fuel` iterations left. -/
def win_check_loop (b : Board) (player : Char) : Nat → Int → Bool → Bool
  | 0, _, won => won
  | fuel + 1, c, won =>
    let won1 := bool_add won (check_across b c player)
    let won2 := bool_add won1 (check_vert b c player)
    win_check_loop b player fuel (c + 1) won2

/-- What `win_check` leaves behind: its result, the board, the text printed. -/
structure WinCheck where
  won : Bool
  board : Board
  printed : List Char

/-- The method `win_check(char player)`. -/
def win_check (b : Board) (player : Char) : WinCheck :=
  let won0 := win_check_loop b player 3 0 false
  let won1 := bool_add won0 (check_diag b false player)
  let won2 := bool_add won1 (check_diag b true player)
  { won := won2
    board := b
    printed := if won2 then "Player ".toList ++ [player] ++ " Won.\n".toList else [] }

/-- A board whose middle row holds three `X`. -/
def board_middle_row : Board := fun r _ => if r = 1 then 'X' else Char.ofNat 0

end TicTac

/-!
# tictac.cpp: moves and the game loop

A shallow embedding of `board::player_move` and of the loop of `main` of
`src/tictac/tictac.cpp`.  The pairs typed by the players are an input list;
`display` only prints and is left out.

`char board_data[3][3]` is the only data member of `board`: nine bytes, the
element `board_data[row][col]` standing `3*row+col` bytes after
`board_data[0][0]`.  `player_move` subscripts the array with the numbers as
they are typed, before it compares them with 3, so a pair with an entry
outside 0..2 addresses the byte at that distance all the same: one of the
nine cells when the distance is in 0..8, and memory that is not part of the
board otherwise, where the program has no defined behaviour.
-/

namespace TicTac

/-- The assignment `board_data[row][col]=player;` for a cell of the board. -/
def set_cell (b : Board) (row col : Int) (player : Char) : Board :=
  fun r c => if r = row ∧ c = col then player else b r c

/-- Distance in bytes of `board_data[row][col]` from `board_data[0][0]`. -/
def cell_offset (row col : Int) : Int := 3 * row + col

/-- The value of `board_data[row][col]` with the subscripts as typed: the
cell that lies `cell_offset row col` bytes into the array, `none` when that
byte is not one of the nine. -/
def read_board (b : Board) (row col : Int) : Option Char :=
  if 0 ≤ cell_offset row col ∧ cell_offset row col < 9 then
    some (b (cell_offset row col / 3) (cell_offset row col % 3))
  else none

/-- The assignment `board_data[row][col]=player;` with the subscripts as
typed, the byte written being one of the nine. -/
def write_board (b : Board) (row col : Int) (player : Char) : Board :=
  set_cell b (cell_offset row col / 3) (cell_offset row col % 3) player

/-- What `player_move` leaves behind: the board, the pairs not yet read,
whether a pair was accepted (`valid`), the text printed, and whether the
method subscripted `board_data` outside its nine bytes (`out_of_bounds`),
after which nothing is known of the program. -/
structure PlayerMove where
  board : Board
  rest : List (Int × Int)
  valid : Bool
  printed : List (List Char)
  out_of_bounds : Bool

/-- The loop `while (!valid)` of `player_move`, the pairs still to be typed
being the list; with no pair left the loop waits at `std::cin>>row`.  The
test reads `board_data[row][col]` first and compares `row` and `col` with 3
afterwards. -/
def player_move_loop (player : Char) :
    List (Int × Int) → Board → List (List Char) → PlayerMove
  | [], b, out => ⟨b, [], false, out ++ ["Row: ".toList], false⟩
  | (row, col) :: rest, b, out =>
    let out1 := out ++ ["Row: ".toList, "Column: ".toList]
    match read_board b row col with
    | none => ⟨b, rest, false, out1, true⟩
    | some cell =>
      if cell = Char.ofNat 0 ∧ row < 3 ∧ col < 3 then
        ⟨write_board b row col player, rest, true, out1 ++ ["Thank You.\n".toList], false⟩
      else
        player_move_loop player rest b
          (out1 ++ ["Invalid Coordinates. Please try again.\n".toList])

/-- The method `player_move(char player)`. -/
def player_move (b : Board) (player : Char) (inputs : List (Int × Int)) : PlayerMove :=
  player_move_loop player inputs b
    ["Player ".toList ++ [player] ++ ", it's your move.\n".toList, "Enter Coordinates\n".toList]

/-- The variables of `main` at the top of its loop, and the pairs not yet read. -/
structure Game where
  board : Board
  player : Char
  we_have_a_winner : Bool
  inputs : List (Int × Int)

/-- State at the first test of `while(!we_have_a_winner)`: the empty board,
`char player='X'`. -/
def Game.start (inputs : List (Int × Int)) : Game :=
  ⟨empty_board, 'X', false, inputs⟩

/-- One pass through the body of the loop of `main`: `player_move`,
`win_check`, then the other player; `none` when `player_move` does not
return: it is still waiting for an acceptable pair at the end of the input,
or it has subscripted `board_data` outside its nine bytes. -/
def main_iteration (g : Game) : Option Game :=
  let m := player_move g.board g.player g.inputs
  if m.valid then
    let wc := win_check m.board g.player
    some { board := wc.board
           player := if g.player = 'X' then 'O' else 'X'
           we_have_a_winner := wc.won
           inputs := m.rest }
  else none

/-- The loop `while(!we_have_a_winner)` of `main`, at most `fuel` passes. -/
def main_loop : Nat → Game → Game
  | 0, g => g
  | fuel + 1, g =>
    if !g.we_have_a_winner then
      match main_iteration g with
      | some g1 => main_loop fuel g1
      | none => g
    else g

/-- The nine cells of the board. -/
def cells : List (Int × Int) :=
  [(0,0), (0,1), (0,2), (1,0), (1,1), (1,2), (2,0), (2,1), (2,2)]

/-- Number of cells of the board holding the mark `ch`. -/
def count_marks (b : Board) (ch : Char) : Nat :=
  cells.countP (fun rc => b rc.1 rc.2 == ch)

/-- The property of the states of the game loop: the player to move is `X`
with as many `X` as `O` on the board, or `O` with one `X` more. -/
def turn_invariant (g : Game) : Prop :=
  (g.player = 'X' ∧ count_marks g.board 'X' = count_marks g.board 'O') ∨
  (g.player = 'O' ∧ count_marks g.board 'X' = count_marks g.board 'O' + 1)

instance (g : Game) : Decidable (turn_invariant g) := by
  unfold turn_invariant
  infer_instance

/-- A game in which `X` takes the centre, `O` a corner, `X` asks for the
centre again and then takes the opposite corner. -/
def sample_inputs : List (Int × Int) := [(1, 1), (0, 0), (1, 1), (2, 2)]

end TicTac

/-!
# Displaypost.cpp: main

The function `main` of `src/DisplayPost/Displaypost.cpp`, over the calls and
the byte display of the `Socket` model (the `gpio_class` code is the same,
but `debug_messages` is not defined here, so `gpio_write_string` prints
nothing).
-/

namespace DisplayPost

/-- How a run of `main` ends: `return` with a status, or the abort that
follows an exception nobody catches. -/
inductive Outcome where
  | returned (status : Int) (w : Socket.World)
  | aborted (w : Socket.World)

/-- The loop of `gpio_write_string` without the debug output. -/
def gpio_write_string_from (running : Nat → Bool) : Nat → List Char → Socket.World → Socket.World
  | _, [], w => w
  | c, ch :: rest, w =>
    if !running c then w
    else
      gpio_write_string_from running (c + 1) rest
        (Socket.delay Socket.delaymils (Socket.gpio_write (ch.toNat % 256) w))

/-- The method `gpio_write_string(string the_string)` of this program. -/
def gpio_write_string (running : Nat → Bool) (the_string : List Char) (w : Socket.World) :
    Socket.World :=
  gpio_write_string_from running 0 the_string w

/-- The function `main`; `line` is what `getline(cin,message)` reads. -/
def main (running : Nat → Bool) (line : List Char) : Outcome :=
  let w1 := Socket.emit .signal (Socket.emit .wiringPiSetup Socket.World.start)
  let w2 := Socket.clear_pins w1
  match parse_cgi line "in_text".toList with
  | none => .aborted w2
  | some message =>
    let w3 := Socket.cout "Content-type:text/html\n\n\n".toList w2
    let w4 := Socket.cout ("<p>Wrote: \"".toList ++ message ++ "\" to GPIO.</p>\n".toList) w3
    let w5 := gpio_write_string running message w4
    .returned 0 (Socket.clear_pins w5)

end DisplayPost

/-!
# The Larson scanners and the button demos

A shallow embedding of `scan` of `src/Larson_Multiprocess/Larson.multiprocess.cpp`
(the two sweeps are the same text in `src/Larson_Threads/Larson_pthread.cpp`
and `Larson_wiringPithread.cpp`), of the sweeps of `main` of
`src/button/button_polled.cpp` and `button_interrupt.cpp`, and of `button_ISR`.
The calls are recorded with the subscript used on `pins`.
-/

namespace Larson

/-- Number of LEDs, `#define LEDs 20`. -/
def LEDs : Int := 20

/-- Pause between LEDs, `#define delaymils 40`. -/
def delaymils : Nat := 40

/-- The array `int pins[LEDs]`. -/
def pins : List Nat := [2,3,4,14,15,18,17,27,22,23,24,10,9,11,25,8,7,1,0,5]

/-- The array read `pins[i]`: `none` when `i` is not a subscript of the array. -/
def pins_at (i : Int) : Option Nat :=
  if 0 ≤ i then pins[i.toNat]? else none

/-- A call made by the sweeps: `digitalWrite(pins[index],value)` or
`delay(ms)`. -/
inductive Call where
  | write (index : Int) (value : Socket.Level)
  | delay (ms : Nat)
  deriving DecidableEq, Repr

/-- The loop `for (c=localzero;c<localLEDs;c++)` from `c` on. -/
def up_sweep_loop (localzero localLEDs : Int) : Nat → Int → List Call
  | 0, _ => []
  | fuel + 1, c =>
    if c < localLEDs then
      [Call.write c .LOW, Call.delay delaymils]
        ++ (if c > localzero then [Call.write (c - 1) .HIGH] else [])
        ++ up_sweep_loop localzero localLEDs fuel (c + 1)
    else []

/-- The low-to-high sweep. -/
def up_sweep (localzero localLEDs : Int) : List Call :=
  up_sweep_loop localzero localLEDs (localLEDs - localzero).toNat localzero

/-- The loop `for (c=localLEDs-1;c>=localzero;c--)` from `c` on. -/
def down_sweep_loop (localzero localLEDs : Int) : Nat → Int → List Call
  | 0, _ => []
  | fuel + 1, c =>
    if c ≥ localzero then
      [Call.write c .LOW, Call.delay delaymils]
        ++ (if c < localLEDs then [Call.write (c + 1) .HIGH] else [])
        ++ down_sweep_loop localzero localLEDs fuel (c - 1)
    else []

/-- The high-to-low sweep. -/
def down_sweep (localzero localLEDs : Int) : List Call :=
  down_sweep_loop localzero localLEDs (localLEDs - localzero).toNat (localLEDs - 1)

/-- The loop `while(running)` of `scan`: `running k` is the value of the
flag at the test before pass `k`; the result is the calls made and whether
the loop was left within `fuel` tests. -/
def scan_loop (running : Nat → Bool) (localzero localLEDs : Int) :
    Nat → Nat → Bool → List Call × Bool
  | 0, _, _ => ([], false)
  | fuel + 1, k, localstart_low =>
    if !running k then ([], true)
    else
      let first := if localstart_low then up_sweep localzero localLEDs else []
      let later := scan_loop running localzero localLEDs fuel (k + 1) true
      (first ++ down_sweep localzero localLEDs ++ later.1, later.2)

/-- The value of `localzero` in `scan`. -/
def localzero_of (low_order_LEDs : Bool) : Int :=
  if low_order_LEDs then 0 else LEDs / 2

/-- The value of `localLEDs` in `scan`. -/
def localLEDs_of (low_order_LEDs : Bool) : Int :=
  if low_order_LEDs then LEDs / 2 else LEDs

/-- The function `scan(bool low_order_LEDs,bool start_low)` of the
multiprocess demo. -/
def scan (low_order_LEDs start_low : Bool) (running : Nat → Bool) (fuel : Nat) :
    List Call × Bool :=
  scan_loop running (localzero_of low_order_LEDs) (localLEDs_of low_order_LEDs)
    fuel 0 start_low

/-- The loop `while(local_running)` of `scan` in the two thread demos:
`seen k` is what pass `k` copies into `local_running` (`none` when
`pthread_mutex_trylock` does not get the lock). -/
def scan_thread_loop (seen : Nat → Option Bool) (localzero localLEDs : Int) :
    Nat → Nat → Bool → Bool → List Call × Bool
  | 0, _, _, _ => ([], false)
  | fuel + 1, k, localstart_low, local_running =>
    if !local_running then ([], true)
    else
      let local_running1 := (seen k).getD local_running
      let first := if localstart_low then up_sweep localzero localLEDs else []
      let later := scan_thread_loop seen localzero localLEDs fuel (k + 1) true local_running1
      (first ++ down_sweep localzero localLEDs ++ later.1, later.2)

/-- The function `scan` of the thread demos. -/
def scan_thread (low_order_LEDs start_low : Bool) (seen : Nat → Option Bool) (fuel : Nat) :
    List Call × Bool :=
  scan_thread_loop seen (localzero_of low_order_LEDs) (localLEDs_of low_order_LEDs)
    fuel 0 start_low true

/-- The two sweeps of one pass of `while(true)` in `main` of the button demos. -/
def button_pass : List Call :=
  up_sweep 0 LEDs ++ down_sweep 0 LEDs

/-- The subscripts used on `pins` by the calls, in order. -/
def subscripts (calls : List Call) : List Int :=
  calls.filterMap (fun e => match e with
    | .write i _ => some i
    | .delay _ => none)

/-- The calls of pass `k` of `scan`, as its doc comment describes them. -/
def pass_calls (low_order_LEDs start_low : Bool) (k : Nat) : List Call :=
  (if k = 0 ∧ start_low = false then []
    else up_sweep (localzero_of low_order_LEDs) (localLEDs_of low_order_LEDs))
  ++ down_sweep (localzero_of low_order_LEDs) (localLEDs_of low_order_LEDs)

end Larson

namespace Button

/-- The macro `#define button_debounce_delay 100`. -/
def button_debounce_delay : Int := 100

/-- The globals `button_presses` and `last_time_interrupt_fired`, and the
text printed. -/
structure State where
  button_presses : Int
  last_time_interrupt_fired : Int
  printed : List (List Char)

/-- Conversion to `uint32_t`. -/
def to_uint32 (x : Int) : Int := x % 4294967296

/-- Conversion to a 32-bit `int` (two's complement). -/
def to_int32 (x : Int) : Int := (x + 2147483648) % 4294967296 - 2147483648

/-- The function `button_ISR`; `millis1` and `millis2` are what its two
calls of `millis()` return. -/
def button_ISR (millis1 millis2 : Int) (s : State) : State :=
  let time_since_last_interrupt := to_uint32 (millis1 - s.last_time_interrupt_fired)
  let s1 := { s with last_time_interrupt_fired := to_uint32 millis2 }
  if time_since_last_interrupt > button_debounce_delay then
    let presses := to_int32 (s1.button_presses + 1)
    { s1 with
      button_presses := presses
      printed := s1.printed ++
        ["Time Since Last Interrupt:".toList ++ (toString time_since_last_interrupt).toList
            ++ "\n".toList,
         "Button Pressed ".toList ++ (toString presses).toList ++ " Times.\n".toList] }
  else s1

end Button

namespace Socket

/-! ## Lemmas -/

theorem foldl_emits (step : World → Nat → World) (f : Nat → List Event)
    (h : ∀ w c, step w c = { w with trace := w.trace ++ f c }) (cs : List Nat) (w : World) :
    cs.foldl step w = { w with trace := w.trace ++ cs.flatMap f } := by
  induction cs generalizing w with
  | nil => simp
  | cons c cs ih => simp [List.foldl_cons, ih, h, List.append_assoc]

theorem clear_pins_eq (w : World) :
    clear_pins w = { w with trace := w.trace ++ clear_events } := by
  unfold clear_pins clear_events
  apply foldl_emits
  intro w c
  simp [clear_pins_step, digitalWrite, pinMode, emit, List.append_assoc]

theorem gpio_write_eq (data : Nat) (w : World) :
    gpio_write data w = { w with trace := w.trace ++ (clear_events ++ bit_events data) } := by
  have hstep : ∀ (w : World) (c : Nat), gpio_write_step data w c =
      { w with trace := w.trace ++
          (if data &&& ((2 ^ c) % 256) ≠ 0 then [Event.digitalWrite (pin (8 - c)) .LOW] else []) } := by
    intro w c
    unfold gpio_write_step
    by_cases hc : data &&& ((2 ^ c) % 256) ≠ 0
    · simp [hc, digitalWrite, emit]
    · simp [hc]
  unfold gpio_write bit_events
  rw [foldl_emits (gpio_write_step data) _ hstep (List.range 8) (clear_pins w), clear_pins_eq]
  simp [List.append_assoc]

theorem levels_after_append (lv : Nat → Level) (a b : List Event) :
    levels_after lv (a ++ b) = levels_after (levels_after lv a) b := by
  simp [levels_after, List.foldl_append]

theorem levels_after_clear (lv : Nat → Level) (j : Nat) (hj : j < LEDs) :
    levels_after lv clear_events (pin j) = .HIGH := by
  unfold LEDs at hj
  interval_cases j <;> rfl

theorem levels_after_lows (evs : List Event)
    (h : ∀ e ∈ evs, ∃ q, e = Event.digitalWrite q .LOW) (lv : Nat → Level) (p : Nat) :
    levels_after lv evs p = if Event.digitalWrite p .LOW ∈ evs then .LOW else lv p := by
  induction evs generalizing lv with
  | nil => simp [levels_after]
  | cons e evs ih =>
    have he := h e (List.mem_cons_self _ _)
    obtain ⟨q, rfl⟩ := he
    have ih2 := ih (fun e he => h e (List.mem_cons_of_mem _ he)) (apply_event lv (.digitalWrite q .LOW))
    simp only [levels_after, List.foldl_cons] at ih2 ⊢
    rw [ih2]
    by_cases hm : Event.digitalWrite p .LOW ∈ evs
    · simp [hm]
    · by_cases hpq : p = q
      · subst hpq; simp [apply_event]
      · simp [hm, apply_event, hpq]

theorem mask_test (data c : Nat) (hc : c < 8) :
    data &&& ((2 ^ c) % 256) ≠ 0 ↔ data.testBit c = true := by
  have h2 : (2:Nat) ^ c < 256 := by
    calc (2:Nat) ^ c < 2 ^ 8 := Nat.pow_lt_pow_right (by norm_num) hc
      _ = 256 := by norm_num
  rw [Nat.mod_eq_of_lt h2, Nat.and_two_pow]
  cases h : data.testBit c <;> simp

theorem pin_injective : ∀ i < 20, ∀ j < 20, pin i = pin j → i = j := by decide

theorem mem_bit_events (data p : Nat) :
    Event.digitalWrite p .LOW ∈ bit_events data ↔
      ∃ c, c < 8 ∧ data.testBit c = true ∧ p = pin (8 - c) := by
  unfold bit_events
  simp only [List.mem_flatMap, List.mem_range]
  constructor
  · rintro ⟨c, hc, hm⟩
    by_cases hb : data &&& ((2 ^ c) % 256) ≠ 0
    · rw [if_pos hb] at hm
      simp only [List.mem_singleton, Event.digitalWrite.injEq, and_true] at hm
      exact ⟨c, hc, (mask_test data c hc).1 hb, hm⟩
    · rw [if_neg hb] at hm
      simp at hm
  · rintro ⟨c, hc, hb, hp⟩
    refine ⟨c, hc, ?_⟩
    rw [if_pos ((mask_test data c hc).2 hb), hp]
    simp

theorem bit_events_lows (data : Nat) :
    ∀ e ∈ bit_events data, ∃ q, e = Event.digitalWrite q .LOW := by
  intro e he
  unfold bit_events at he
  simp only [List.mem_flatMap, List.mem_range] at he
  obtain ⟨c, _, hm⟩ := he
  by_cases hb : data &&& ((2 ^ c) % 256) ≠ 0
  · rw [if_pos hb] at hm
    exact ⟨pin (8 - c), by simpa using hm⟩
  · rw [if_neg hb] at hm
    simp at hm

/-- Level of GPIO `p` after `gpio_write data`, whatever came before. -/
theorem level_after_gpio_write (lv : Nat → Level) (w : World) (data p : Nat) :
    levels_after lv (gpio_write data w).trace p =
      if ∃ c, c < 8 ∧ data.testBit c = true ∧ p = pin (8 - c) then .LOW
      else levels_after lv (w.trace ++ clear_events) p := by
  rw [gpio_write_eq]
  simp only []
  rw [← List.append_assoc, levels_after_append, levels_after_lows _ (bit_events_lows data)]
  simp only [mem_bit_events]

theorem gpio_write_level_iff (lv : Nat → Level) (w : World) (b j : Nat) (hj : j < LEDs) :
    (levels_after lv (gpio_write b w).trace (pin j) = .LOW ↔
        (1 ≤ j ∧ j ≤ 8 ∧ b.testBit (8 - j) = true)) ∧
    (levels_after lv (gpio_write b w).trace (pin j) = .HIGH ↔
        ¬ (1 ≤ j ∧ j ≤ 8 ∧ b.testBit (8 - j) = true)) := by
  have hclear : levels_after lv (w.trace ++ clear_events) (pin j) = .HIGH := by
    rw [levels_after_append]; exact levels_after_clear _ j hj
  have hiff : (∃ c, c < 8 ∧ b.testBit c = true ∧ pin j = pin (8 - c)) ↔
      (1 ≤ j ∧ j ≤ 8 ∧ b.testBit (8 - j) = true) := by
    constructor
    · rintro ⟨c, hc, hb, hp⟩
      have hjc : j = 8 - c := pin_injective j hj (8 - c) (by omega) hp
      have hcj : c = 8 - j := by omega
      subst hcj
      exact ⟨by omega, by omega, hb⟩
    · rintro ⟨h1, h8, hb⟩
      exact ⟨8 - j, by omega, hb, by congr 1; omega⟩
  have hlevel := level_after_gpio_write lv w b (pin j)
  rw [hclear] at hlevel
  refine ⟨?_, ?_⟩
  · rw [hlevel, ← hiff]
    by_cases h : ∃ c, c < 8 ∧ b.testBit c = true ∧ pin j = pin (8 - c) <;> simp [h]
  · rw [hlevel, ← hiff]
    by_cases h : ∃ c, c < 8 ∧ b.testBit c = true ∧ pin j = pin (8 - c) <;> simp [h]

theorem gpio_write_clears_first (lv : Nat → Level) (w : World) (b j : Nat) (hj : j < LEDs) :
    (gpio_write b w).trace = (clear_pins w).trace ++ bit_events b ∧
      levels_after lv (clear_pins w).trace (pin j) = .HIGH := by
  constructor
  · rw [gpio_write_eq, clear_pins_eq]; simp [List.append_assoc]
  · rw [clear_pins_eq, levels_after_append]; exact levels_after_clear _ j hj

theorem frames_from_append (a b : List Event) (lv : Nat → Level) :
    frames_from lv (a ++ b) = frames_from lv a ++ frames_from (levels_after lv a) b := by
  induction a generalizing lv with
  | nil => simp [frames_from, levels_after]
  | cons e a ih =>
    cases e <;> simp [frames_from, levels_after, apply_event, ih]

theorem frames_from_no_delay (tr : List Event) (h : ∀ e ∈ tr, ∀ ms, e ≠ Event.delay ms)
    (lv : Nat → Level) : frames_from lv tr = [] := by
  induction tr generalizing lv with
  | nil => simp [frames_from]
  | cons e tr ih =>
    have he := h e (List.mem_cons_self _ _)
    have ht := fun lv => ih (fun e he => h e (List.mem_cons_of_mem _ he)) lv
    cases e <;> simp_all [frames_from]

theorem clear_events_no_delay : ∀ e ∈ clear_events, ∀ ms, e ≠ Event.delay ms := by
  intro e he ms
  unfold clear_events at he
  simp only [List.mem_flatMap, List.mem_range] at he
  obtain ⟨c, _, hm⟩ := he
  simp at hm
  rcases hm with rfl | rfl <;> simp

theorem bit_events_no_delay (data : Nat) : ∀ e ∈ bit_events data, ∀ ms, e ≠ Event.delay ms := by
  intro e he ms
  obtain ⟨q, rfl⟩ := bit_events_lows data e he
  simp

theorem pattern_getD (lv : Nat → Level) (i : Nat) (hi : i < LEDs) :
    (pattern lv).getD i false = decide (lv (pin i) = .LOW) := by
  unfold pattern
  simp [List.getD_eq_getElem?_getD, List.getElem?_map, List.getElem?_range hi]

theorem bits_sum : ∀ b < 256,
    (List.range 8).foldl (fun acc c => acc + if b.testBit c = true then 2 ^ c else 0) 0 = b := by
  intro b hb
  interval_cases b <;> rfl

theorem decode_gpio_write (lv : Nat → Level) (w : World) (b : Nat) (hb : b < 256) :
    decode (pattern (levels_after lv (gpio_write b w).trace)) = b := by
  unfold decode
  rw [List.foldl_ext _ (fun acc c => acc + if b.testBit c = true then 2 ^ c else 0)]
  · exact bits_sum b hb
  · intro acc c hc
    have hc8 : c < 8 := List.mem_range.1 hc
    have h20 : 8 - c < LEDs := by unfold LEDs; omega
    rw [pattern_getD _ _ h20]
    have h := (gpio_write_level_iff lv w b (8 - c) h20).1
    have h8 : 8 - (8 - c) = c := by omega
    rw [h8] at h
    by_cases ht : b.testBit c = true
    · have : levels_after lv (gpio_write b w).trace (pin (8 - c)) = .LOW :=
        h.2 ⟨by omega, by omega, ht⟩
      simp [this, ht]
    · have : ¬ levels_after lv (gpio_write b w).trace (pin (8 - c)) = .LOW :=
        fun hl => ht (h.1 hl).2.2
      simp [this, ht]

theorem frames_render_one (lv : Nat → Level) (w : World) (text : List Char) (b ms : Nat) :
    frames_from lv (delay ms (gpio_write b (cout text w))).trace =
      frames_from lv w.trace ++
        [pattern (levels_after lv (gpio_write b (cout text w)).trace)] := by
  have hnd : ∀ e ∈ [Event.cout text] ++ (clear_events ++ bit_events b),
      ∀ ms, e ≠ Event.delay ms := by
    intro e he ms
    simp only [List.mem_append, List.mem_singleton] at he
    rcases he with rfl | he | he
    · simp
    · exact clear_events_no_delay e he ms
    · exact bit_events_no_delay b e he ms
  have htr : (gpio_write b (cout text w)).trace =
      w.trace ++ ([Event.cout text] ++ (clear_events ++ bit_events b)) := by
    rw [gpio_write_eq]; simp [cout, emit, List.append_assoc]
  have hd : (delay ms (gpio_write b (cout text w))).trace =
      (gpio_write b (cout text w)).trace ++ [Event.delay ms] := by
    simp [delay, emit]
  rw [hd, frames_from_append, htr, frames_from_append, frames_from_no_delay _ hnd]
  simp [frames_from]

theorem frames_gpio_write_string_from (running : Nat → Bool) (hrun : ∀ c, running c = true)
    (lv : Nat → Level) (s : List Char) (hs : ∀ ch ∈ s, ch.toNat < 256) (c : Nat) (w : World) :
    (frames_from lv (gpio_write_string_from running c s w).trace).map decode =
      (frames_from lv w.trace).map decode ++ s.map Char.toNat := by
  induction s generalizing c w with
  | nil => simp [gpio_write_string_from]
  | cons ch rest ih =>
    have hch : ch.toNat < 256 := hs ch (List.mem_cons_self _ _)
    simp only [gpio_write_string_from, hrun, Bool.not_true, Bool.false_eq_true, if_false]
    rw [ih (fun x hx => hs x (List.mem_cons_of_mem _ hx)), frames_render_one]
    rw [Nat.mod_eq_of_lt hch]
    simp [decode_gpio_write _ _ _ hch]

theorem connect_loop_failed (pre rest : List addrinfo)
    (hpre : ∀ a ∈ pre, a.socket_ret ≠ -1 ∧ a.connect_ret ≠ 0) (w : World) :
    connect_loop (pre ++ rest) w = connect_loop rest (after_failed pre w) := by
  induction pre generalizing w with
  | nil => simp [after_failed]
  | cons a pre ih =>
    obtain ⟨hs, hc⟩ := hpre a (List.mem_cons_self _ _)
    have ih := ih (fun x hx => hpre x (List.mem_cons_of_mem _ hx))
    simp only [List.cons_append, connect_loop, hs, hc, if_false, List.append_eq]
    rw [ih]
    congr 1
    cases pre with
    | nil => simp [after_failed, failed_events, emit, cout]
    | cons b pre =>
      obtain ⟨x, hx⟩ : ∃ x, (b :: pre).getLast? = some x :=
        ⟨_, List.getLast?_eq_getLast _ (by simp)⟩
      simp [after_failed, failed_events, emit, cout, List.getLast?_cons_cons, hx]

theorem connect_loop_nil (w : World) : connect_loop [] w = .done () w := rfl

theorem connect_loop_success (a : addrinfo) (rest : List addrinfo)
    (hs : a.socket_ret ≠ -1) (hc : a.connect_ret = 0) (w : World) :
    connect_loop (a :: rest) w = .done ()
      { trace := w.trace ++ success_events a, file_descriptor := a.socket_ret } := by
  simp [connect_loop, hs, hc, emit, cout, success_events]

theorem connect_loop_no_socket (a : addrinfo) (rest : List addrinfo)
    (hs : a.socket_ret = -1) (w : World) :
    connect_loop (a :: rest) w = .exit 1
      { trace := w.trace ++ no_socket_events a, file_descriptor := a.socket_ret } := by
  simp [connect_loop, hs, emit, cout, exit_error, no_socket_events]

theorem dns_lookup_show_eq (l : List addrinfo) (w : World) :
    dns_lookup_show l w = { w with trace := w.trace ++ dns_show_events l } := by
  induction l generalizing w with
  | nil => simp [dns_lookup_show, dns_show_events]
  | cons a l ih =>
    simp only [dns_lookup_show, ih]
    by_cases h6 : a.ai_family = AF_INET6 <;>
      simp [dns_show_events, h6, emit, cout, List.append_assoc]

theorem dns_show_events_quiet (l : List addrinfo) : ∀ e ∈ dns_show_events l, e.net = false := by
  intro e he
  unfold dns_show_events at he
  simp only [List.mem_flatMap] at he
  obtain ⟨a, _, hm⟩ := he
  simp at hm
  rcases hm with rfl | rfl | rfl | rfl <;> rfl

theorem dns_lookup_ok (env : Env) (text_address : List Char) (port : Int) (w : World)
    (h : env.getaddrinfo_ret = 0) :
    dns_lookup env text_address port w = .done env.server_info
      { w with trace := w.trace ++ (dns_call_events env text_address port
                                      ++ dns_show_events env.server_info) } := by
  simp [dns_lookup, h, dns_lookup_show_eq, dns_call_events, emit, cout, List.append_assoc]

theorem dns_lookup_failed (env : Env) (text_address : List Char) (port : Int) (w : World)
    (h : env.getaddrinfo_ret ≠ 0) :
    dns_lookup env text_address port w = .exit 1
      { w with trace := w.trace ++ (dns_call_events env text_address port
                                      ++ [.cout "DNS Failed.\n".toList]) } := by
  simp [dns_lookup, h, exit_error, dns_call_events, emit, cout, List.append_assoc]

theorem connect_calls_append (a b : List Event) :
    connect_calls (a ++ b) = connect_calls a ++ connect_calls b := by
  simp [connect_calls, List.filterMap_append]

theorem socket_calls_append (a b : List Event) :
    socket_calls (a ++ b) = socket_calls a ++ socket_calls b := by
  simp [socket_calls, List.filterMap_append]

theorem close_calls_append (a b : List Event) :
    close_calls (a ++ b) = close_calls a ++ close_calls b := by
  simp [close_calls, List.filterMap_append]

theorem connect_calls_quiet (tr : List Event) (h : ∀ e ∈ tr, e.net = false) :
    connect_calls tr = [] := by
  unfold connect_calls
  rw [List.filterMap_eq_nil_iff]
  intro e he
  have := h e he
  cases e <;> simp_all [Event.net]

theorem socket_calls_quiet (tr : List Event) (h : ∀ e ∈ tr, e.net = false) :
    socket_calls tr = [] := by
  unfold socket_calls
  rw [List.filterMap_eq_nil_iff]
  intro e he
  have := h e he
  cases e <;> simp_all [Event.net]

theorem close_calls_quiet (tr : List Event) (h : ∀ e ∈ tr, e.net = false) :
    close_calls tr = [] := by
  unfold close_calls
  rw [List.filterMap_eq_nil_iff]
  intro e he
  have := h e he
  cases e <;> simp_all [Event.net]

theorem open_fds_append (a b : List Event) :
    open_fds (a ++ b) = b.foldl open_step (open_fds a) := by
  simp [open_fds, List.foldl_append]

theorem recv_calls_append (a b : List Event) :
    recv_calls (a ++ b) = recv_calls a ++ recv_calls b := by
  simp [recv_calls, List.filterMap_append]

theorem recv_calls_quiet (tr : List Event) (h : ∀ e ∈ tr, e.net = false) :
    recv_calls tr = [] := by
  unfold recv_calls
  rw [List.filterMap_eq_nil_iff]
  intro e he
  have := h e he
  cases e <;> simp_all [Event.net]

theorem open_step_quiet (tr : List Event) (h : ∀ e ∈ tr, e.net = false) (fds : List Int) :
    tr.foldl open_step fds = fds := by
  induction tr generalizing fds with
  | nil => rfl
  | cons e tr ih =>
    have he := h e (List.mem_cons_self _ _)
    have ih := ih (fun x hx => h x (List.mem_cons_of_mem _ hx))
    cases e <;> simp_all [Event.net, open_step]

theorem connect_calls_failed (pre : List addrinfo) :
    connect_calls (pre.flatMap failed_events) = pre.map addrinfo.attempt := by
  induction pre with
  | nil => rfl
  | cons a pre ih =>
    rw [List.flatMap_cons, connect_calls_append, ih]
    simp [connect_calls, failed_events, addrinfo.attempt]

theorem socket_calls_failed (pre : List addrinfo) :
    socket_calls (pre.flatMap failed_events) = pre.map (fun a => (a.ai_family, a.socket_ret)) := by
  induction pre with
  | nil => rfl
  | cons a pre ih =>
    rw [List.flatMap_cons, socket_calls_append, ih]
    simp [socket_calls, failed_events]

theorem close_calls_failed (pre : List addrinfo) :
    close_calls (pre.flatMap failed_events) = pre.map (fun a => a.socket_ret) := by
  induction pre with
  | nil => rfl
  | cons a pre ih =>
    rw [List.flatMap_cons, close_calls_append, ih]
    simp [close_calls, failed_events]

theorem open_step_failed (pre : List addrinfo) (hpre : ∀ a ∈ pre, a.socket_ret ≠ -1)
    (fds : List Int) : (pre.flatMap failed_events).foldl open_step fds = fds := by
  induction pre generalizing fds with
  | nil => rfl
  | cons a pre ih =>
    have ha := hpre a (List.mem_cons_self _ _)
    rw [List.flatMap_cons, List.foldl_append, ih (fun x hx => hpre x (List.mem_cons_of_mem _ hx))]
    simp [failed_events, open_step, ha]

theorem connect_socket_first_success (env : Env) (address : List Char) (port : Int) (w : World)
    (pre post : List addrinfo) (a : addrinfo)
    (hdns : env.getaddrinfo_ret = 0) (hl : env.server_info = pre ++ a :: post)
    (hpre : ∀ x ∈ pre, x.socket_ret ≠ -1 ∧ x.connect_ret ≠ 0)
    (hs : a.socket_ret ≠ -1) (hc : a.connect_ret = 0) :
    connect_socket env address port w = .done ()
      { trace := w.trace ++ (dns_call_events env address port ++ dns_show_events env.server_info)
                  ++ pre.flatMap failed_events ++ success_events a ++ [.freeaddrinfo],
        file_descriptor := a.socket_ret } := by
  unfold connect_socket
  rw [dns_lookup_ok env address port w hdns]
  simp only []
  rw [hl, connect_loop_failed pre (a :: post) hpre, connect_loop_success a post hs hc]
  simp [after_failed, emit, List.append_assoc]

theorem connect_socket_all_failed (env : Env) (address : List Char) (port : Int) (w : World)
    (hdns : env.getaddrinfo_ret = 0)
    (hall : ∀ x ∈ env.server_info, x.socket_ret ≠ -1 ∧ x.connect_ret ≠ 0) :
    connect_socket env address port w = .done ()
      { trace := w.trace ++ (dns_call_events env address port ++ dns_show_events env.server_info)
                  ++ env.server_info.flatMap failed_events ++ [.freeaddrinfo],
        file_descriptor :=
          (env.server_info.getLast?.map (fun a => a.socket_ret)).getD w.file_descriptor } := by
  unfold connect_socket
  rw [dns_lookup_ok env address port w hdns]
  simp only []
  have h := connect_loop_failed env.server_info [] hall
  rw [List.append_nil] at h
  rw [h, connect_loop_nil]
  simp [after_failed, emit, List.append_assoc]

theorem connect_socket_no_socket (env : Env) (address : List Char) (port : Int) (w : World)
    (pre post : List addrinfo) (a : addrinfo)
    (hdns : env.getaddrinfo_ret = 0) (hl : env.server_info = pre ++ a :: post)
    (hpre : ∀ x ∈ pre, x.socket_ret ≠ -1 ∧ x.connect_ret ≠ 0)
    (hs : a.socket_ret = -1) :
    connect_socket env address port w = .exit 1
      { trace := w.trace ++ (dns_call_events env address port ++ dns_show_events env.server_info)
                  ++ pre.flatMap failed_events ++ no_socket_events a,
        file_descriptor := a.socket_ret } := by
  unfold connect_socket
  rw [dns_lookup_ok env address port w hdns]
  simp only []
  rw [hl, connect_loop_failed pre (a :: post) hpre, connect_loop_no_socket a post hs]
  simp [after_failed, List.append_assoc]

theorem connect_socket_dns_failed (env : Env) (address : List Char) (port : Int) (w : World)
    (hdns : env.getaddrinfo_ret ≠ 0) :
    connect_socket env address port w = .exit 1
      { w with trace := w.trace ++ (dns_call_events env address port
                                      ++ [.cout "DNS Failed.\n".toList]) } := by
  unfold connect_socket
  rw [dns_lookup_failed env address port w hdns]

theorem dns_events_quiet (env : Env) (address : List Char) (port : Int) :
    ∀ e ∈ dns_call_events env address port ++ dns_show_events env.server_info,
      e.net = false := by
  intro e he
  rw [List.mem_append] at he
  rcases he with he | he
  · simp [dns_call_events] at he
    rcases he with rfl | rfl <;> rfl
  · exact dns_show_events_quiet _ e he

/-- Splitting a candidate list at its first successful `connect`. -/
theorem split_first_success (l : List addrinfo) :
    (∀ x ∈ l.takeWhile (fun a => decide (a.connect_ret ≠ 0)), x.connect_ret ≠ 0) ∧
    (l.dropWhile (fun a => decide (a.connect_ret ≠ 0)) = [] ∨
      ∃ a post, l.dropWhile (fun a => decide (a.connect_ret ≠ 0)) = a :: post ∧
        a.connect_ret = 0) := by
  constructor
  · intro x hx
    simpa using List.mem_takeWhile_imp hx
  · cases hd : l.dropWhile (fun a => decide (a.connect_ret ≠ 0)) with
    | nil => exact Or.inl rfl
    | cons a post =>
      refine Or.inr ⟨a, post, rfl, ?_⟩
      have h := List.head?_dropWhile_not (fun a => decide (a.connect_ret ≠ 0)) l
      rw [hd] at h
      simpa using h

theorem main_eq (env : Env) (target_address : List Char) (number_of_lines : Int) :
    main env target_address number_of_lines =
      match connect_socket env target_address 80 ⟨main_setup_events target_address, 0⟩ with
      | .exit status w10 => .exit status w10
      | .done () w10 => main_connected env target_address number_of_lines w10 := by
  unfold main
  simp only [clear_pins_eq]
  simp [main_setup_events, World.start, emit, cout, List.append_assoc]

theorem clear_events_quiet : ∀ e ∈ clear_events, e.net = false := by
  intro e he
  unfold clear_events at he
  simp only [List.mem_flatMap, List.mem_range] at he
  obtain ⟨c, _, hm⟩ := he
  simp at hm
  rcases hm with rfl | rfl <;> rfl

theorem bit_events_quiet (data : Nat) : ∀ e ∈ bit_events data, e.net = false := by
  intro e he
  obtain ⟨q, rfl⟩ := bit_events_lows data e he
  rfl

theorem main_setup_events_quiet (target_address : List Char) :
    ∀ e ∈ main_setup_events target_address, e.net = false := by
  intro e he
  unfold main_setup_events at he
  simp only [List.mem_append] at he
  rcases he with (he | he) | he
  · simp at he
    rcases he with rfl | rfl | rfl | rfl | rfl | rfl | rfl <;> rfl
  · exact clear_events_quiet e he
  · simp at he
    rcases he with rfl | rfl <;> rfl

theorem gpio_write_string_from_eq (running : Nat → Bool) (s : List Char) :
    ∀ (c : Nat) (w : World) (k : Nat), k ≤ s.length →
      (∀ i, i < k → running (c + i) = true) → (k < s.length → running (c + k) = false) →
      gpio_write_string_from running c s w =
        { w with trace := w.trace ++ rendered c (s.take k) } := by
  induction s with
  | nil =>
    intro c w k hk _ _
    simp [gpio_write_string_from, rendered]
  | cons ch rest ih =>
    intro c w k hk hset hclr
    cases k with
    | zero =>
      have h0 : running c = false := by simpa using hclr (by simp)
      simp [gpio_write_string_from, h0, rendered]
    | succ k =>
      have h0 : running c = true := by simpa using hset 0 (by omega)
      have hk2 : k ≤ rest.length := by simpa using hk
      simp only [gpio_write_string_from, h0, Bool.not_true, Bool.false_eq_true, if_false]
      rw [ih (c + 1) _ k hk2
        (fun i hi => by have := hset (i + 1) (by omega); rwa [Nat.add_assoc, Nat.add_comm 1 i])
        (fun hlt => by
          have := hclr (by simpa using hlt)
          rwa [Nat.add_assoc, Nat.add_comm 1 k])]
      rw [gpio_write_eq]
      simp [rendered, render_events, delay, cout, emit, List.append_assoc]

theorem gpio_write_string_eq (running : Nat → Bool) (s : List Char) (w : World) (k : Nat)
    (hk : k ≤ s.length) (hset : ∀ i, i < k → running i = true)
    (hclr : k < s.length → running k = false) :
    gpio_write_string running s w =
      { w with trace := w.trace ++
          ([.cout ("Writing this string: ".toList ++ s ++ "\n".toList)]
            ++ rendered 0 (s.take k)) } := by
  unfold gpio_write_string
  rw [gpio_write_string_from_eq running s 0 _ k hk (by simpa using hset) (by simpa using hclr)]
  simp [cout, emit, List.append_assoc]

/-- For every stream of flag values there is a first index at which the loop
of `gpio_write_string` stops. -/
theorem exists_stop (running : Nat → Bool) (n : Nat) (c : Nat) :
    ∃ k, k ≤ n ∧ (∀ i, i < k → running (c + i) = true) ∧ (k < n → running (c + k) = false) := by
  induction n generalizing c with
  | zero => exact ⟨0, le_refl _, fun i hi => absurd hi (Nat.not_lt_zero _), fun h => absurd h (Nat.lt_irrefl _)⟩
  | succ n ih =>
    cases h0 : running c with
    | false => exact ⟨0, Nat.zero_le _, fun i hi => absurd hi (Nat.not_lt_zero _), fun _ => by simpa using h0⟩
    | true =>
      obtain ⟨k, hk, hset, hclr⟩ := ih (c + 1)
      refine ⟨k + 1, by omega, ?_, ?_⟩
      · intro i hi
        cases i with
        | zero => simpa using h0
        | succ i =>
          have := hset i (by omega)
          rwa [Nat.add_assoc, Nat.add_comm 1 i] at this
      · intro hlt
        have := hclr (by omega)
        rwa [Nat.add_assoc, Nat.add_comm 1 k] at this

theorem levels_after_same_value (v : Level) (evs : List Event)
    (h : ∀ e ∈ evs, ∀ q u, e = Event.digitalWrite q u → u = v) (lv : Nat → Level) (p : Nat) :
    levels_after lv evs p = if Event.digitalWrite p v ∈ evs then v else lv p := by
  induction evs generalizing lv with
  | nil => simp [levels_after]
  | cons e evs ih =>
    have ih2 := ih (fun e he => h e (List.mem_cons_of_mem _ he)) (apply_event lv e)
    simp only [levels_after, List.foldl_cons] at ih2 ⊢
    rw [ih2]
    by_cases hm : Event.digitalWrite p v ∈ evs
    · simp [hm]
    · cases e with
      | digitalWrite q u =>
        have hu := h (.digitalWrite q u) (List.mem_cons_self _ _) q u rfl
        subst hu
        by_cases hpq : p = q
        · subst hpq; simp [apply_event]
        · simp [hm, apply_event, hpq]
      | _ => simp [hm, apply_event]

theorem mem_clear_events (p : Nat) :
    Event.digitalWrite p .HIGH ∈ clear_events ↔ ∃ j, j < LEDs ∧ p = pin j := by
  unfold clear_events
  simp only [List.mem_flatMap, List.mem_range]
  constructor
  · rintro ⟨c, hc, hm⟩
    simp at hm
    exact ⟨c, hc, hm⟩
  · rintro ⟨c, hc, hp⟩
    exact ⟨c, hc, by simp [hp]⟩

theorem clear_events_high :
    ∀ e ∈ clear_events, ∀ q u, e = Event.digitalWrite q u → u = Level.HIGH := by
  intro e he q u hq
  unfold clear_events at he
  simp only [List.mem_flatMap, List.mem_range] at he
  obtain ⟨c, _, hm⟩ := he
  subst hq
  simp at hm
  exact hm.2

theorem any_bit_iff (b p : Nat) :
    (List.range 8).any (fun c => b.testBit c && decide (p = pin (8 - c))) = true ↔
      ∃ c, c < 8 ∧ b.testBit c = true ∧ p = pin (8 - c) := by
  simp [List.any_eq_true]

theorem any_pin_iff (p : Nat) :
    (List.range LEDs).any (fun j => decide (p = pin j)) = true ↔ ∃ j, j < LEDs ∧ p = pin j := by
  simp [List.any_eq_true]

theorem levels_after_write_events (lv : Nat → Level) (b p : Nat) :
    levels_after lv (clear_events ++ bit_events b) p = level_after_write b (lv p) p := by
  rw [levels_after_append, levels_after_lows _ (bit_events_lows b),
    levels_after_same_value .HIGH _ clear_events_high]
  simp only [mem_bit_events, mem_clear_events, level_after_write, any_bit_iff, any_pin_iff]

theorem levels_after_gpio_write (lv : Nat → Level) (w : World) (b p : Nat) :
    levels_after lv (gpio_write b w).trace p =
      level_after_write b (levels_after lv w.trace p) p := by
  rw [gpio_write_eq]
  simp only []
  rw [levels_after_append, levels_after_write_events]

theorem levels_after_render_events (lv : Nat → Level) (c : Nat) (ch : Char) (p : Nat) :
    levels_after lv (render_events c ch) p = level_after_write (ch.toNat % 256) (lv p) p := by
  unfold render_events
  rw [levels_after_append, levels_after_append]
  have h1 : ∀ q, levels_after (levels_after (levels_after lv [Event.cout ("C is: ".toList
        ++ (toString c).toList ++ " Character is: ".toList ++ [ch] ++ "\n".toList)])
        (clear_events ++ bit_events (ch.toNat % 256))) [Event.delay delaymils] q =
      levels_after (levels_after lv [Event.cout ("C is: ".toList
        ++ (toString c).toList ++ " Character is: ".toList ++ [ch] ++ "\n".toList)])
        (clear_events ++ bit_events (ch.toNat % 256)) q := by
    intro q; simp [levels_after, apply_event]
  rw [h1, levels_after_write_events]
  simp [levels_after, apply_event]

theorem level_after_write_twice (b b2 : Nat) (e : Level) (p : Nat) :
    level_after_write b2 (level_after_write b e p) p = level_after_write b2 e p := by
  unfold level_after_write
  simp only [any_bit_iff, any_pin_iff]
  by_cases h1 : ∃ c, c < 8 ∧ b2.testBit c = true ∧ p = pin (8 - c)
  · simp only [h1, if_true]
  · by_cases h2 : ∃ j, j < LEDs ∧ p = pin j
    · simp only [h1, h2, if_true, if_false]
    · have h3 : ¬ ∃ c, c < 8 ∧ b.testBit c = true ∧ p = pin (8 - c) := by
        rintro ⟨c, hc, _, hp⟩
        exact h2 ⟨8 - c, by unfold LEDs; omega, hp⟩
      simp only [h1, h2, h3, if_false]

theorem levels_after_rendered (l : List Char) :
    ∀ (c : Nat) (lv : Nat → Level) (p : Nat),
      levels_after lv (rendered c l) p =
        match l.getLast? with
        | none => lv p
        | some ch => level_after_write (ch.toNat % 256) (lv p) p := by
  induction l with
  | nil => intro c lv p; simp [rendered, levels_after]
  | cons ch rest ih =>
    intro c lv p
    simp only [rendered]
    rw [levels_after_append, ih (c + 1)]
    cases rest with
    | nil => simp [levels_after_render_events]
    | cons ch2 rest2 =>
      obtain ⟨x, hx⟩ : ∃ x, (ch2 :: rest2).getLast? = some x :=
        ⟨_, List.getLast?_eq_getLast _ (by simp)⟩
      rw [List.getLast?_cons_cons, hx]
      simp only []
      rw [levels_after_render_events, level_after_write_twice]

theorem pattern_congr (lv1 lv2 : Nat → Level) (h : ∀ j, j < LEDs → lv1 (pin j) = lv2 (pin j)) :
    pattern lv1 = pattern lv2 := by
  unfold pattern
  apply List.map_congr_left
  intro j hj
  rw [h j (List.mem_range.1 hj)]

theorem level_after_write_map (b : Nat) (e1 e2 : Level) (j : Nat) (hj : j < LEDs) :
    level_after_write b e1 (pin j) = level_after_write b e2 (pin j) := by
  unfold level_after_write
  simp only [any_bit_iff, any_pin_iff]
  have h2 : ∃ i, i < LEDs ∧ pin j = pin i := ⟨j, hj, rfl⟩
  by_cases h1 : ∃ c, c < 8 ∧ b.testBit c = true ∧ pin j = pin (8 - c) <;>
    simp only [h1, h2, if_true, if_false]

theorem frames_from_render_events (lv : Nat → Level) (w : World) (c : Nat) (ch : Char) :
    frames_from lv (render_events c ch) =
      [pattern (levels_after lv (gpio_write (ch.toNat % 256) w).trace)] := by
  have hnd : ∀ e ∈ [Event.cout ("C is: ".toList ++ (toString c).toList
        ++ " Character is: ".toList ++ [ch] ++ "\n".toList)]
        ++ (clear_events ++ bit_events (ch.toNat % 256)), ∀ ms, e ≠ Event.delay ms := by
    intro e he ms
    simp only [List.mem_append, List.mem_singleton] at he
    rcases he with rfl | he | he
    · simp
    · exact clear_events_no_delay e he ms
    · exact bit_events_no_delay _ e he ms
  unfold render_events
  rw [frames_from_append, frames_from_no_delay _ hnd]
  simp only [frames_from, List.nil_append, List.cons.injEq, and_true]
  apply pattern_congr
  intro j hj
  rw [levels_after_append, levels_after_write_events, levels_after_gpio_write]
  exact level_after_write_map _ _ _ j hj

theorem frames_from_rendered (w : World) (lv0 : Nat → Level) (l : List Char) :
    ∀ (c : Nat) (lv : Nat → Level),
      frames_from lv (rendered c l) =
        l.map (fun ch => pattern (levels_after lv0 (gpio_write (ch.toNat % 256) w).trace)) := by
  induction l with
  | nil => intro c lv; simp [rendered, frames_from]
  | cons ch rest ih =>
    intro c lv
    simp only [rendered, List.map_cons]
    rw [frames_from_append, ih (c + 1), frames_from_render_events lv w c ch]
    simp only [List.singleton_append, List.cons.injEq, and_true]
    apply pattern_congr
    intro j hj
    rw [levels_after_gpio_write, levels_after_gpio_write]
    exact level_after_write_map _ _ _ j hj

theorem rendered_quiet (l : List Char) : ∀ c, ∀ e ∈ rendered c l, e.net = false := by
  induction l with
  | nil => intro c e he; simp [rendered] at he
  | cons ch rest ih =>
    intro c e he
    simp only [rendered, render_events, List.mem_append, List.mem_singleton] at he
    rcases he with ((rfl | he | he) | rfl) | he
    · rfl
    · exact clear_events_quiet e he
    · exact bit_events_quiet _ e he
    · rfl
    · exact ih (c + 1) e he

/-- Whatever the flag does, `gpio_write_string` only adds calls that are not
socket operations, and leaves `file_descriptor` alone. -/
theorem gpio_write_string_quiet (running : Nat → Bool) (s : List Char) (w : World) :
    ∃ new, gpio_write_string running s w = { w with trace := w.trace ++ new } ∧
      ∀ e ∈ new, e.net = false := by
  obtain ⟨k, hk, hset, hclr⟩ := exists_stop running s.length 0
  refine ⟨_, gpio_write_string_eq running s w k hk (by simpa using hset) (by simpa using hclr), ?_⟩
  intro e he
  simp only [List.mem_append, List.mem_singleton] at he
  rcases he with rfl | he
  · rfl
  · exact rendered_quiet _ 0 e he

theorem bad_recv_of_quiet (e : Event) (h : e.net = false) : e.bad_recv = false := by
  cases e <;> simp_all [Event.net, Event.bad_recv]

theorem after_bad_recv_quiet (tr : List Event) (h : ∀ e ∈ tr, e.bad_recv = false) :
    after_bad_recv tr = none := by
  induction tr with
  | nil => rfl
  | cons e tr ih =>
    simp [after_bad_recv, h e (List.mem_cons_self _ _),
      ih (fun x hx => h x (List.mem_cons_of_mem _ hx))]

theorem after_bad_recv_append (a b : List Event) (h : after_bad_recv a = none) :
    after_bad_recv (a ++ b) = after_bad_recv b := by
  induction a with
  | nil => rfl
  | cons e a ih =>
    simp only [after_bad_recv, List.cons_append] at h ⊢
    by_cases he : e.bad_recv = true
    · simp [he] at h
    · simp only [he, Bool.false_eq_true, if_false] at h ⊢
      exact ih h

theorem read_socket_failed (w : World) :
    read_socket none w = .exit 1
      ⟨w.trace ++ [.recv w.file_descriptor 149 (-1), .cout "Error on Receive.\n".toList],
        w.file_descriptor⟩ := by
  simp [read_socket, recv, exit_error, emit, cout, buffer_length]

theorem read_socket_ok (d : List Char) (w : World) :
    read_socket (some d) w = .done (c_string (d.take 149))
      ⟨w.trace ++ [.recv w.file_descriptor 149 ((d.take 149).length : Int),
        .cout ("Received ".toList ++ (toString ((d.take 149).length : Int)).toList
              ++ " bytes from server.\n".toList)],
        w.file_descriptor⟩ := by
  have h : ¬ (((d.take 149).length : Int) < 0) := by omega
  simp only [read_socket, recv, buffer_length, h, if_false]
  simp [emit, cout]

/-- The calls of one full iteration of the read loop of `main` are a `recv`
with a count that is not negative, followed by calls that are not socket
operations. -/
theorem main_loop_step (env : Env) (todo c : Nat) (w : World) (d : List Char)
    (hrun : env.running_main c = true) (hd : env.recv_data c = some d) :
    ∃ new, main_loop env (todo + 1) c w =
        main_loop env todo (c + 1)
          ⟨w.trace ++ (Event.recv w.file_descriptor 149 ((d.take 149).length : Int) :: new),
            w.file_descriptor⟩ ∧
      ∀ e ∈ new, e.net = false := by
  obtain ⟨new, hnew, hq⟩ := gpio_write_string_quiet (env.running_sink c) (c_string (d.take 149))
    (cout ("Received: ".toList ++ c_string (d.take 149) ++ ".\n".toList)
      ⟨w.trace ++ [.recv w.file_descriptor 149 ((d.take 149).length : Int),
        .cout ("Received ".toList ++ (toString ((d.take 149).length : Int)).toList
              ++ " bytes from server.\n".toList)],
        w.file_descriptor⟩)
  refine ⟨[.cout ("Received ".toList ++ (toString ((d.take 149).length : Int)).toList
              ++ " bytes from server.\n".toList),
           .cout ("Received: ".toList ++ c_string (d.take 149) ++ ".\n".toList)] ++ new, ?_, ?_⟩
  · simp only [main_loop, hrun, hd, read_socket_ok, Bool.not_true, Bool.false_eq_true, if_false]
    rw [hnew]
    simp [cout, emit, List.append_assoc]
  · intro e he
    simp only [List.mem_append, List.mem_cons, List.mem_singleton, List.not_mem_nil, or_false] at he
    rcases he with (rfl | rfl) | he
    · rfl
    · rfl
    · exact hq e he

/-- Shape of every run of the read loop: either it comes back, having made no
failed `recv`, or it ends the process with status 1 right after the
diagnostic that follows its first failed `recv`. -/
theorem main_loop_cases (env : Env) (todo : Nat) :
    ∀ (c : Nat) (w : World), ∃ new,
      (main_loop env todo c w).world.trace = w.trace ++ new ∧
      (((main_loop env todo c w).status = none ∧ after_bad_recv new = none) ∨
       ((main_loop env todo c w).status = some 1 ∧
          after_bad_recv new = some [.cout "Error on Receive.\n".toList])) := by
  induction todo with
  | zero => intro c w; exact ⟨[], by simp [main_loop, Run.world], Or.inl ⟨rfl, rfl⟩⟩
  | succ todo ih =>
    intro c w
    cases hrun : env.running_main c with
    | false =>
      exact ⟨[], by simp [main_loop, hrun, Run.world], Or.inl ⟨by simp [main_loop, hrun, Run.status], rfl⟩⟩
    | true =>
      cases hd : env.recv_data c with
      | none =>
        refine ⟨[.recv w.file_descriptor 149 (-1), .cout "Error on Receive.\n".toList], ?_,
          Or.inr ⟨?_, ?_⟩⟩
        · simp [main_loop, hrun, hd, read_socket_failed, Run.world]
        · simp [main_loop, hrun, hd, read_socket_failed, Run.status]
        · simp [after_bad_recv, Event.bad_recv]
      | some d =>
        obtain ⟨new, hstep, hq⟩ := main_loop_step env todo c w d hrun hd
        obtain ⟨new2, htr, hcases⟩ := ih (c + 1)
          ⟨w.trace ++ (Event.recv w.file_descriptor 149 ((d.take 149).length : Int) :: new),
            w.file_descriptor⟩
        have hgood : after_bad_recv
            (Event.recv w.file_descriptor 149 ((d.take 149).length : Int) :: new) = none := by
          apply after_bad_recv_quiet
          intro e he
          rcases List.mem_cons.1 he with rfl | he
          · have h : ¬ (((d.take 149).length : Int) < 0) := by omega
            simp [Event.bad_recv, h]
          · exact bad_recv_of_quiet e (hq e he)
        refine ⟨(Event.recv w.file_descriptor 149 ((d.take 149).length : Int) :: new) ++ new2,
          ?_, ?_⟩
        · rw [hstep, htr, List.append_assoc]
        · rw [hstep, after_bad_recv_append _ _ hgood]
          exact hcases

/-- No run of `connect_loop` calls `recv`. -/
theorem connect_loop_no_recv (l : List addrinfo) :
    ∀ w : World, ∃ new, (connect_loop l w).world.trace = w.trace ++ new ∧
      ∀ e ∈ new, e.bad_recv = false := by
  induction l with
  | nil => intro w; exact ⟨[], by simp [connect_loop, Run.world], by simp⟩
  | cons a rest ih =>
    intro w
    by_cases hs : a.socket_ret = -1
    · refine ⟨no_socket_events a, by rw [connect_loop_no_socket a rest hs]; rfl, ?_⟩
      intro e he
      simp [no_socket_events] at he
      rcases he with rfl | rfl | rfl | rfl <;> rfl
    · by_cases hc : a.connect_ret = 0
      · refine ⟨success_events a, by rw [connect_loop_success a rest hs hc]; rfl, ?_⟩
        intro e he
        simp [success_events] at he
        rcases he with rfl | rfl | rfl | rfl | rfl <;> rfl
      · have h := connect_loop_failed [a] rest
          (fun x hx => by rw [List.mem_singleton] at hx; subst hx; exact ⟨hs, hc⟩) w
        rw [List.singleton_append] at h
        obtain ⟨new, hnew, hq⟩ := ih (after_failed [a] w)
        refine ⟨failed_events a ++ new, ?_, ?_⟩
        · rw [h, hnew]
          simp [after_failed, List.append_assoc]
        · intro e he
          rcases List.mem_append.1 he with he | he
          · simp [failed_events] at he
            rcases he with rfl | rfl | rfl | rfl | rfl <;> rfl
          · exact hq e he

/-- No run of `connect_socket` calls `recv`. -/
theorem connect_socket_no_recv (env : Env) (address : List Char) (port : Int) (w : World) :
    ∃ new, (connect_socket env address port w).world.trace = w.trace ++ new ∧
      ∀ e ∈ new, e.bad_recv = false := by
  by_cases hdns : env.getaddrinfo_ret = 0
  · obtain ⟨new, hnew, hq⟩ := connect_loop_no_recv env.server_info
      { w with trace := w.trace ++ (dns_call_events env address port
                                      ++ dns_show_events env.server_info) }
    have hdq := dns_events_quiet env address port
    unfold connect_socket
    rw [dns_lookup_ok env address port w hdns]
    simp only []
    cases hloop : connect_loop env.server_info
        { w with trace := w.trace ++ (dns_call_events env address port
                                      ++ dns_show_events env.server_info) } with
    | exit status w2 =>
      rw [hloop] at hnew
      refine ⟨(dns_call_events env address port ++ dns_show_events env.server_info) ++ new,
        by simpa [Run.world, List.append_assoc] using hnew, ?_⟩
      intro e he
      rcases List.mem_append.1 he with he | he
      · exact bad_recv_of_quiet e (hdq e he)
      · exact hq e he
    | done u w2 =>
      rw [hloop] at hnew
      refine ⟨(dns_call_events env address port ++ dns_show_events env.server_info) ++ new
          ++ [.freeaddrinfo], ?_, ?_⟩
      · simp only [Run.world] at hnew
        simp [Run.world, emit, hnew, List.append_assoc]
      · intro e he
        simp only [List.mem_append, List.mem_singleton] at he
        rcases he with (he | he) | rfl
        · exact bad_recv_of_quiet e (hdq e (List.mem_append.2 he))
        · exact hq e he
        · rfl
  · refine ⟨dns_call_events env address port ++ [.cout "DNS Failed.\n".toList],
      by rw [connect_socket_dns_failed env address port w hdns]; rfl, ?_⟩
    intro e he
    simp [dns_call_events] at he
    rcases he with rfl | rfl | rfl <;> rfl

theorem write_socket_failed (ret : Int) (text : List Char) (w : World) (h : ret < 0) :
    write_socket ret text w = .exit 1
      ⟨w.trace ++ [.send w.file_descriptor text ret, .cout "Error on Send.\n".toList],
        w.file_descriptor⟩ := by
  simp [write_socket, h, exit_error, emit, cout]

theorem write_socket_ok (ret : Int) (text : List Char) (w : World) (h : ¬ ret < 0) :
    write_socket ret text w = .done ()
      ⟨w.trace ++ [.send w.file_descriptor text ret,
          .cout ("Sent ".toList ++ (toString ret).toList ++ " bytes to server.\n".toList)],
        w.file_descriptor⟩ := by
  simp [write_socket, h, emit, cout]

theorem close_clear_eq (w : World) :
    clear_pins (close_socket w) =
      ⟨w.trace ++ (Event.close w.file_descriptor :: clear_events), w.file_descriptor⟩ := by
  rw [clear_pins_eq]
  simp [close_socket, emit, List.append_assoc]

/-- The calls of `main_connected` before the read loop, when both sends work. -/
theorem main_connected_eq (env : Env) (target_address : List Char) (number_of_lines : Int)
    (w : World) (h0 : ¬ env.send_ret 0 < 0) (h1 : ¬ env.send_ret 1 < 0) :
    main_connected env target_address number_of_lines w =
      match main_loop env number_of_lines.toNat 0
          ⟨w.trace ++ send_events env target_address w.file_descriptor, w.file_descriptor⟩ with
      | .exit status w4 => .exit status w4
      | .done () w4 => .exit 0 (clear_pins (close_socket w4)) := by
  unfold main_connected
  simp only [write_socket_ok _ _ _ h0, write_socket_ok _ _ _ h1]
  simp [send_events, cout, emit, List.append_assoc]

theorem send_events_no_recv (env : Env) (target_address : List Char) (fd : Int) :
    ∀ e ∈ send_events env target_address fd, e.bad_recv = false := by
  intro e he
  simp [send_events] at he
  rcases he with rfl | rfl | rfl | rfl | rfl <;> rfl

/-- Shape of every run of `main_connected` with respect to failed receives. -/
theorem main_connected_cases (env : Env) (target_address : List Char) (number_of_lines : Int)
    (w : World) :
    ∃ new, (main_connected env target_address number_of_lines w).world.trace = w.trace ++ new ∧
      (after_bad_recv new = none ∨
       ((main_connected env target_address number_of_lines w).status = some 1 ∧
          after_bad_recv new = some [.cout "Error on Receive.\n".toList])) := by
  by_cases h0 : env.send_ret 0 < 0
  · refine ⟨[.cout ("Sending HTTP request: ".toList ++ http_request target_address
        ++ "\n".toList), .send w.file_descriptor (http_request target_address) (env.send_ret 0),
        .cout "Error on Send.\n".toList], ?_, Or.inl ?_⟩
    · unfold main_connected
      simp only [write_socket_failed _ _ _ h0]
      simp [Run.world, cout, emit, List.append_assoc]
    · simp [after_bad_recv, Event.bad_recv]
  · by_cases h1 : env.send_ret 1 < 0
    · refine ⟨[.cout ("Sending HTTP request: ".toList ++ http_request target_address
          ++ "\n".toList), .send w.file_descriptor (http_request target_address) (env.send_ret 0),
          .cout ("Sent ".toList ++ (toString (env.send_ret 0)).toList
              ++ " bytes to server.\n".toList),
          .send w.file_descriptor "\r\n".toList (env.send_ret 1),
          .cout "Error on Send.\n".toList], ?_, Or.inl ?_⟩
      · unfold main_connected
        simp only [write_socket_ok _ _ _ h0, write_socket_failed _ _ _ h1]
        simp [Run.world, cout, emit, List.append_assoc]
      · simp [after_bad_recv, Event.bad_recv]
    · rw [main_connected_eq env target_address number_of_lines w h0 h1]
      obtain ⟨new, hnew, hcases⟩ := main_loop_cases env number_of_lines.toNat 0
        ⟨w.trace ++ send_events env target_address w.file_descriptor, w.file_descriptor⟩
      have hsq := after_bad_recv_quiet _ (send_events_no_recv env target_address w.file_descriptor)
      cases hloop : main_loop env number_of_lines.toNat 0
          ⟨w.trace ++ send_events env target_address w.file_descriptor, w.file_descriptor⟩ with
      | exit status w4 =>
        rw [hloop] at hnew hcases
        refine ⟨send_events env target_address w.file_descriptor ++ new,
          by simpa [Run.world, List.append_assoc] using hnew, ?_⟩
        rw [after_bad_recv_append _ _ hsq]
        rcases hcases with ⟨hst, _⟩ | ⟨hst, hab⟩
        · simp [Run.status] at hst
        · exact Or.inr ⟨hst, hab⟩
      | done u w4 =>
        rw [hloop] at hnew hcases
        simp only [Run.world] at hnew
        refine ⟨send_events env target_address w.file_descriptor ++ new
            ++ (Event.close w4.file_descriptor :: clear_events), ?_, Or.inl ?_⟩
        · simp only [close_clear_eq, Run.world, hnew, List.append_assoc]
        · rcases hcases with ⟨_, hab⟩ | ⟨hst, _⟩
          · rw [List.append_assoc, after_bad_recv_append _ _ hsq, after_bad_recv_append _ _ hab]
            apply after_bad_recv_quiet
            intro e he
            rcases List.mem_cons.1 he with rfl | he
            · rfl
            · exact bad_recv_of_quiet e (clear_events_quiet e he)
          · simp [Run.status] at hst

/-- Shape of every run of `main` with respect to failed receives. -/
theorem main_cases (env : Env) (target_address : List Char) (number_of_lines : Int) :
    after_bad_recv (main env target_address number_of_lines).world.trace = none ∨
      ((main env target_address number_of_lines).status = some 1 ∧
        after_bad_recv (main env target_address number_of_lines).world.trace
          = some [.cout "Error on Receive.\n".toList]) := by
  rw [main_eq]
  obtain ⟨new, hnew, hq⟩ := connect_socket_no_recv env target_address 80
    ⟨main_setup_events target_address, 0⟩
  have hsetup : ∀ e ∈ main_setup_events target_address ++ new, e.bad_recv = false := by
    intro e he
    rcases List.mem_append.1 he with he | he
    · exact bad_recv_of_quiet e (main_setup_events_quiet target_address e he)
    · exact hq e he
  cases hconn : connect_socket env target_address 80 ⟨main_setup_events target_address, 0⟩ with
  | exit status w10 =>
    rw [hconn] at hnew
    simp only [Run.world] at hnew ⊢
    rw [hnew]
    exact Or.inl (after_bad_recv_quiet _ hsetup)
  | done u w10 =>
    rw [hconn] at hnew
    simp only [Run.world] at hnew
    obtain ⟨new2, hnew2, hcases⟩ := main_connected_cases env target_address number_of_lines w10
    simp only []
    rw [hnew2, hnew, after_bad_recv_append _ _ (after_bad_recv_quiet _ hsetup)]
    exact hcases

/-- The read loop when no receive fails: it comes back after `k` reads, `k`
being the index of the first iteration at whose top the flag is seen cleared
(`k = todo` when there is none); its calls open or close no socket. -/
theorem main_loop_ok (env : Env) (hrecv : ∀ i, env.recv_data i ≠ none) (todo : Nat) :
    ∀ (c : Nat) (w : World) (k : Nat), k ≤ todo →
      (∀ i, i < k → env.running_main (c + i) = true) →
      (k < todo → env.running_main (c + k) = false) →
      ∃ new, main_loop env todo c w = .done () ⟨w.trace ++ new, w.file_descriptor⟩ ∧
        (recv_calls new).length = k ∧ close_calls new = [] ∧ socket_calls new = [] ∧
        connect_calls new = [] ∧ (∀ fds, new.foldl open_step fds = fds) ∧
        (∀ j, j < LEDs → ∀ lv, levels_after lv (new ++ clear_events) (pin j) = .HIGH) := by
  induction todo with
  | zero =>
    intro c w k hk _ _
    have hk0 : k = 0 := by omega
    subst hk0
    refine ⟨[], by simp [main_loop], rfl, rfl, rfl, rfl, fun _ => rfl, ?_⟩
    intro j hj lv
    exact levels_after_clear lv j hj
  | succ todo ih =>
    intro c w k hk hset hclr
    cases k with
    | zero =>
      have h0 : env.running_main c = false := by simpa using hclr (by omega)
      refine ⟨[], by simp [main_loop, h0], rfl, rfl, rfl, rfl, fun _ => rfl, ?_⟩
      intro j hj lv
      exact levels_after_clear lv j hj
    | succ k =>
      have h0 : env.running_main c = true := by simpa using hset 0 (by omega)
      obtain ⟨d, hd⟩ := Option.ne_none_iff_exists'.1 (hrecv c)
      obtain ⟨new, hstep, hq⟩ := main_loop_step env todo c w d h0 hd
      obtain ⟨new2, hloop, hcount, hclose, hsock, hconn, hopen, hlev⟩ := ih (c + 1)
        ⟨w.trace ++ (Event.recv w.file_descriptor 149 ((d.take 149).length : Int) :: new),
          w.file_descriptor⟩ k (by omega)
        (fun i hi => by have := hset (i + 1) (by omega); rwa [Nat.add_assoc, Nat.add_comm 1 i])
        (fun hlt => by
          have := hclr (by omega)
          rwa [Nat.add_assoc, Nat.add_comm 1 k])
      refine ⟨(Event.recv w.file_descriptor 149 ((d.take 149).length : Int) :: new) ++ new2,
        by rw [hstep, hloop, List.append_assoc], ?_, ?_, ?_, ?_, ?_, ?_⟩
      · rw [recv_calls_append, List.length_append, hcount]
        have : recv_calls (Event.recv w.file_descriptor 149 ((d.take 149).length : Int) :: new)
            = ((d.take 149).length : Int) :: recv_calls new := by simp [recv_calls]
        rw [this, recv_calls_quiet new hq]
        simp; omega
      · rw [close_calls_append, hclose]
        have : close_calls (Event.recv w.file_descriptor 149 ((d.take 149).length : Int) :: new)
            = close_calls new := by simp [close_calls]
        rw [this, close_calls_quiet new hq]; rfl
      · rw [socket_calls_append, hsock]
        have : socket_calls (Event.recv w.file_descriptor 149 ((d.take 149).length : Int) :: new)
            = socket_calls new := by simp [socket_calls]
        rw [this, socket_calls_quiet new hq]; rfl
      · rw [connect_calls_append, hconn]
        have : connect_calls (Event.recv w.file_descriptor 149 ((d.take 149).length : Int) :: new)
            = connect_calls new := by simp [connect_calls]
        rw [this, connect_calls_quiet new hq]; rfl
      · intro fds
        rw [List.foldl_append, hopen, List.foldl_cons]
        simp only [open_step]
        exact open_step_quiet new hq fds
      · intro j hj lv
        rw [List.append_assoc, levels_after_append]
        exact hlev j hj _

/-- The calls of `connect_socket` when the candidates `pre` fail and `a`
connects. -/
theorem connected_events_obs (env : Env) (address : List Char) (port : Int)
    (pre : List addrinfo) (a : addrinfo)
    (hpre : ∀ x ∈ pre, x.socket_ret ≠ -1 ∧ x.connect_ret ≠ 0) (hs : a.socket_ret ≠ -1) :
    close_calls (connected_events env address port pre a) = pre.map (fun x => x.socket_ret) ∧
    ∀ fds, (connected_events env address port pre a).foldl open_step fds
      = a.socket_ret :: fds := by
  have hq := dns_events_quiet env address port
  unfold connected_events
  constructor
  · simp only [close_calls_append, close_calls_quiet _ hq, close_calls_failed]
    simp [close_calls, success_events]
  · intro fds
    simp only [List.foldl_append, open_step_quiet _ hq,
      open_step_failed _ (fun x hx => (hpre x hx).1)]
    simp [success_events, open_step, hs]

/-! ## Claims -/

/-- C1: after `gpio_write b`, whatever the levels and calls before, channel
`j` of the 20-channel map is on (`LOW`) exactly when `1 ≤ j ≤ 8` and bit
`8 - j` of `b` is set, and is off (`HIGH`) otherwise; the calls of
`gpio_write` are those of `clear_pins`, after which channel `j` is off,
followed by the writes for the set bits. -/
theorem gpio_write_lights_exactly_the_set_bits (lv : Nat → Level) (w : World) (b j : Nat)
    (hj : j < LEDs) :
    (levels_after lv (gpio_write b w).trace (pin j) = .LOW ↔
        (1 ≤ j ∧ j ≤ 8 ∧ b.testBit (8 - j) = true)) ∧
    (levels_after lv (gpio_write b w).trace (pin j) = .HIGH ↔
        ¬ (1 ≤ j ∧ j ≤ 8 ∧ b.testBit (8 - j) = true)) ∧
    ((gpio_write b w).trace = (clear_pins w).trace ++ bit_events b ∧
        levels_after lv (clear_pins w).trace (pin j) = .HIGH) :=
  ⟨(gpio_write_level_iff lv w b j hj).1, (gpio_write_level_iff lv w b j hj).2,
    gpio_write_clears_first lv w b j hj⟩

theorem gpio_write_lights_exactly_the_set_bits_witness :
    (8 < LEDs) ∧
    ((levels_after (fun _ => Level.LOW) (gpio_write 65 World.start).trace (pin 8) = .LOW ↔
        (1 ≤ 8 ∧ 8 ≤ 8 ∧ (65 : Nat).testBit (8 - 8) = true)) ∧
    (levels_after (fun _ => Level.LOW) (gpio_write 65 World.start).trace (pin 8) = .HIGH ↔
        ¬ (1 ≤ 8 ∧ 8 ≤ 8 ∧ (65 : Nat).testBit (8 - 8) = true)) ∧
    ((gpio_write 65 World.start).trace = (clear_pins World.start).trace ++ bit_events 65 ∧
        levels_after (fun _ => Level.LOW) (clear_pins World.start).trace (pin 8) = .HIGH)) :=
  ⟨by decide, gpio_write_lights_exactly_the_set_bits (fun _ => Level.LOW) World.start 65 8
    (by decide)⟩

/-- C2: the pattern left by `gpio_write b` decodes to `b` for every byte `b`,
so two different bytes leave different patterns, and when the flag is never
seen cleared the patterns shown during the delays of `gpio_write_string s`,
decoded in order, are the characters of `s`. -/
theorem gpio_write_patterns_decode_to_the_bytes (lv lv2 : Nat → Level) (w w2 : World)
    (b1 b2 : Nat) (hb1 : b1 < 256) (hb2 : b2 < 256)
    (running : Nat → Bool) (hrun : ∀ c, running c = true)
    (s : List Char) (hs : ∀ ch ∈ s, ch.toNat < 256) :
    decode (pattern (levels_after lv (gpio_write b1 w).trace)) = b1 ∧
    (b1 ≠ b2 → pattern (levels_after lv (gpio_write b1 w).trace)
                ≠ pattern (levels_after lv2 (gpio_write b2 w2).trace)) ∧
    (frames_from lv (gpio_write_string running s w).trace).map
        (fun p => Char.ofNat (decode p)) =
      (frames_from lv w.trace).map (fun p => Char.ofNat (decode p)) ++ s := by
  refine ⟨decode_gpio_write lv w b1 hb1, ?_, ?_⟩
  · intro hne heq
    apply hne
    rw [← decode_gpio_write lv w b1 hb1, ← decode_gpio_write lv2 w2 b2 hb2, heq]
  · have h := frames_gpio_write_string_from running hrun lv s hs 0
      (cout ("Writing this string: ".toList ++ s ++ "\n".toList) w)
    have hc : frames_from lv (cout ("Writing this string: ".toList ++ s ++ "\n".toList) w).trace
        = frames_from lv w.trace := by
      simp [cout, emit, frames_from_append, frames_from]
    rw [hc] at h
    have h2 := congrArg (List.map Char.ofNat) h
    simp only [List.map_map, List.map_append] at h2
    have hid : List.map (Char.ofNat ∘ Char.toNat) s = s := by
      have hfun : (Char.ofNat ∘ Char.toNat) = id := funext (fun ch => Char.ofNat_toNat ch)
      rw [hfun, List.map_id]
    rw [hid] at h2
    exact h2

theorem gpio_write_patterns_decode_to_the_bytes_witness :
    ((65 : Nat) < 256 ∧ (66 : Nat) < 256 ∧ (∀ c : Nat, (fun _ => true) c = true) ∧
      (∀ ch ∈ "Hi".toList, ch.toNat < 256)) ∧
    (decode (pattern (levels_after (fun _ => Level.HIGH) (gpio_write 65 World.start).trace)) = 65 ∧
    ((65 : Nat) ≠ 66 → pattern (levels_after (fun _ => Level.HIGH) (gpio_write 65 World.start).trace)
                ≠ pattern (levels_after (fun _ => Level.LOW) (gpio_write 66 World.start).trace)) ∧
    (frames_from (fun _ => Level.HIGH)
        (gpio_write_string (fun _ => true) "Hi".toList World.start).trace).map
        (fun p => Char.ofNat (decode p)) =
      (frames_from (fun _ => Level.HIGH) World.start.trace).map
        (fun p => Char.ofNat (decode p)) ++ "Hi".toList) :=
  ⟨⟨by decide, by decide, fun _ => rfl, by decide⟩,
    gpio_write_patterns_decode_to_the_bytes (fun _ => Level.HIGH) (fun _ => Level.LOW)
      World.start World.start 65 66 (by decide) (by decide) (fun _ => true) (fun _ => rfl)
      "Hi".toList (by decide)⟩

/-- C3: when the resolver succeeds and every socket is created,
`connect_socket` returns, and the `connect` calls it made (and the sockets it
created) are, in the resolver's order, those of the candidates up to and
including the first one whose `connect` answers 0, and no others. -/
theorem connect_socket_stops_at_first_success (env : Env) (address : List Char) (port : Int)
    (w : World) (hdns : env.getaddrinfo_ret = 0)
    (hsock : ∀ a ∈ env.server_info, a.socket_ret ≠ -1) :
    ∃ w', connect_socket env address port w = .done () w' ∧
      connect_calls w'.trace = connect_calls w.trace ++
        (through_first_success env.server_info).map addrinfo.attempt ∧
      socket_calls w'.trace = socket_calls w.trace ++
        (through_first_success env.server_info).map (fun a => (a.ai_family, a.socket_ret)) := by
  have hq := dns_events_quiet env address port
  have hsplit := split_first_success env.server_info
  have hl := (List.takeWhile_append_dropWhile (fun a : addrinfo => decide (a.connect_ret ≠ 0))
    env.server_info).symm
  have hpre : ∀ x ∈ env.server_info.takeWhile (fun a => decide (a.connect_ret ≠ 0)),
      x.socket_ret ≠ -1 ∧ x.connect_ret ≠ 0 :=
    fun x hx => ⟨hsock x (List.takeWhile_subset _ hx), hsplit.1 x hx⟩
  rcases hsplit.2 with hnil | ⟨a, post, hd, hc⟩
  · have hall : ∀ x ∈ env.server_info, x.socket_ret ≠ -1 ∧ x.connect_ret ≠ 0 := by
      rw [hnil, List.append_nil] at hl
      intro x hx
      rw [hl] at hx
      exact hpre x hx
    refine ⟨_, connect_socket_all_failed env address port w hdns hall, ?_, ?_⟩
    · have ht : through_first_success env.server_info = env.server_info := by
        unfold through_first_success
        rw [hnil, List.take_nil, List.append_nil]
        rw [hnil, List.append_nil] at hl
        exact hl.symm
      simp only [connect_calls_append, connect_calls_quiet _ hq, connect_calls_failed, ht]
      simp [connect_calls]
    · have ht : through_first_success env.server_info = env.server_info := by
        unfold through_first_success
        rw [hnil, List.take_nil, List.append_nil]
        rw [hnil, List.append_nil] at hl
        exact hl.symm
      simp only [socket_calls_append, socket_calls_quiet _ hq, socket_calls_failed, ht]
      simp [socket_calls]
  · rw [hd] at hl
    have hsa : a.socket_ret ≠ -1 := hsock a (by rw [hl]; simp)
    have ht : through_first_success env.server_info =
        env.server_info.takeWhile (fun a => decide (a.connect_ret ≠ 0)) ++ [a] := by
      unfold through_first_success
      rw [hd]; rfl
    refine ⟨_, connect_socket_first_success env address port w _ post a hdns hl hpre hsa hc,
      ?_, ?_⟩
    · simp only [connect_calls_append, connect_calls_quiet _ hq, connect_calls_failed, ht]
      simp [connect_calls, success_events, addrinfo.attempt]
    · simp only [socket_calls_append, socket_calls_quiet _ hq, socket_calls_failed, ht]
      simp [socket_calls, success_events]

theorem connect_socket_stops_at_first_success_witness :
    ((env_of 0 [cand_A, cand_B, cand_C]).getaddrinfo_ret = 0 ∧
      (∀ a ∈ (env_of 0 [cand_A, cand_B, cand_C]).server_info, a.socket_ret ≠ -1)) ∧
    ∃ w', connect_socket (env_of 0 [cand_A, cand_B, cand_C]) "example.org".toList 80
        World.start = .done () w' ∧
      connect_calls w'.trace = [cand_A.attempt, cand_B.attempt] ∧
      socket_calls w'.trace = [(2, 3), (10, 3)] := by
  refine ⟨⟨rfl, by decide⟩, ?_⟩
  obtain ⟨w', h1, h2, h3⟩ := connect_socket_stops_at_first_success
    (env_of 0 [cand_A, cand_B, cand_C]) "example.org".toList 80 World.start rfl (by decide)
  refine ⟨w', h1, ?_, ?_⟩
  · rw [h2]; decide
  · rw [h3]; decide

/-- C4: when the resolver succeeds and, for every candidate, the socket is
created and `connect` fails, `connect_socket` returns normally (no `exit`);
its calls are the resolver's, then for each candidate in order `socket`,
`connect`, `close`, then `freeaddrinfo`, and nothing that reports an error; no
descriptor is left open, and `file_descriptor` holds the descriptor of the
last candidate, which has been closed. -/
theorem connect_socket_all_fail_returns (env : Env) (address : List Char) (port : Int)
    (w : World) (hdns : env.getaddrinfo_ret = 0)
    (hall : ∀ a ∈ env.server_info, a.socket_ret ≠ -1 ∧ a.connect_ret ≠ 0) :
    ∃ w', connect_socket env address port w = .done () w' ∧
      w'.trace = w.trace ++ (dns_call_events env address port ++ dns_show_events env.server_info)
                  ++ env.server_info.flatMap failed_events ++ [.freeaddrinfo] ∧
      connect_calls w'.trace = connect_calls w.trace ++ env.server_info.map addrinfo.attempt ∧
      close_calls w'.trace = close_calls w.trace ++
        env.server_info.map (fun a => a.socket_ret) ∧
      open_fds w'.trace = open_fds w.trace ∧
      (∀ a, env.server_info.getLast? = some a →
        w'.file_descriptor = a.socket_ret ∧ close_calls w'.trace ≠ [] ∧
        (close_calls w'.trace).getLast? = some w'.file_descriptor) := by
  have hq := dns_events_quiet env address port
  refine ⟨_, connect_socket_all_failed env address port w hdns hall, rfl, ?_, ?_, ?_, ?_⟩
  · simp only [connect_calls_append, connect_calls_quiet _ hq, connect_calls_failed]
    simp [connect_calls]
  · simp only [close_calls_append, close_calls_quiet _ hq, close_calls_failed]
    simp [close_calls]
  · simp only [open_fds_append, List.foldl_append, open_step_quiet _ hq,
      open_step_failed _ (fun a ha => (hall a ha).1)]
    simp [open_step]
  · intro a ha
    simp only [close_calls_append, close_calls_quiet _ hq, close_calls_failed, ha]
    have hne : env.server_info ≠ [] := by
      intro h; rw [h] at ha; simp at ha
    refine ⟨by simp, by simp [hne], ?_⟩
    simp [close_calls, List.getLast?_append, List.getLast?_map, ha]

theorem connect_socket_all_fail_returns_witness :
    ((env_of 0 [cand_A, cand_A]).getaddrinfo_ret = 0 ∧
      (∀ a ∈ (env_of 0 [cand_A, cand_A]).server_info, a.socket_ret ≠ -1 ∧ a.connect_ret ≠ 0)) ∧
    ∃ w', connect_socket (env_of 0 [cand_A, cand_A]) "example.org".toList 80 World.start
        = .done () w' ∧
      connect_calls w'.trace = [cand_A.attempt, cand_A.attempt] ∧
      close_calls w'.trace = [3, 3] ∧
      open_fds w'.trace = [] ∧ w'.file_descriptor = 3 := by
  refine ⟨⟨rfl, by decide⟩, ?_⟩
  obtain ⟨w', h1, _, h3, h4, h5, h6⟩ := connect_socket_all_fail_returns
    (env_of 0 [cand_A, cand_A]) "example.org".toList 80 World.start rfl (by decide)
  refine ⟨w', h1, ?_, ?_, ?_, ?_⟩
  · rw [h3]; decide
  · rw [h4]; decide
  · rw [h5]; decide
  · exact (h6 cand_A (by decide)).1

/-- C6: when `getaddrinfo` reports a non-zero status, `dns_lookup` prints
"DNS Failed." and ends the process with status 1 right after that one call of
`getaddrinfo`; so do `connect_socket` and `main`, and in the whole run of
`main` no socket is created and no `connect` is made. -/
theorem dns_failure_is_fatal (env : Env) (address : List Char) (port : Int) (w : World)
    (number_of_lines : Int) (hdns : env.getaddrinfo_ret ≠ 0) :
    dns_lookup env address port w = .exit 1
      { w with trace := w.trace ++
          [.cout ("Using port# ".toList ++ (toString port).toList ++ "\n".toList),
           .getaddrinfo address (toString port).toList env.getaddrinfo_ret,
           .cout "DNS Failed.\n".toList] } ∧
    connect_socket env address port w = .exit 1
      { w with trace := w.trace ++
          [.cout ("Using port# ".toList ++ (toString port).toList ++ "\n".toList),
           .getaddrinfo address (toString port).toList env.getaddrinfo_ret,
           .cout "DNS Failed.\n".toList] } ∧
    main env address number_of_lines = .exit 1
      ⟨main_setup_events address ++
          [.cout "Using port# 80\n".toList,
           .getaddrinfo address "80".toList env.getaddrinfo_ret,
           .cout "DNS Failed.\n".toList], 0⟩ ∧
    socket_calls (main env address number_of_lines).world.trace = [] ∧
    connect_calls (main env address number_of_lines).world.trace = [] := by
  have hmain : main env address number_of_lines = .exit 1
      ⟨main_setup_events address ++
          [.cout "Using port# 80\n".toList,
           .getaddrinfo address "80".toList env.getaddrinfo_ret,
           .cout "DNS Failed.\n".toList], 0⟩ := by
    rw [main_eq, connect_socket_dns_failed env address 80 _ hdns]
    simp only [dns_call_events]
    rfl
  have hq := main_setup_events_quiet address
  refine ⟨?_, ?_, hmain, ?_, ?_⟩
  · rw [dns_lookup_failed env address port w hdns]; rfl
  · rw [connect_socket_dns_failed env address port w hdns]; rfl
  · rw [hmain]
    simp only [Run.world, socket_calls_append, socket_calls_quiet _ hq]
    simp [socket_calls]
  · rw [hmain]
    simp only [Run.world, connect_calls_append, connect_calls_quiet _ hq]
    simp [connect_calls]

theorem dns_failure_is_fatal_witness :
    ((env_of (-2) [cand_B]).getaddrinfo_ret ≠ 0) ∧
    (main (env_of (-2) [cand_B]) "nowhere.invalid".toList 3).status = some 1 ∧
    socket_calls (main (env_of (-2) [cand_B]) "nowhere.invalid".toList 3).world.trace = [] ∧
    connect_calls (main (env_of (-2) [cand_B]) "nowhere.invalid".toList 3).world.trace = [] := by
  have h := dns_failure_is_fatal (env_of (-2) [cand_B]) "nowhere.invalid".toList 80
    World.start 3 (by decide)
  refine ⟨by decide, ?_, h.2.2.2.1, h.2.2.2.2⟩
  rw [h.2.2.1]; rfl

/-- C7: when the resolver succeeds, the candidates before the `k`-th are
created and fail to connect, and `socket` answers -1 for the `k`-th,
`connect_socket` ends the process with status 1; the `connect` calls made are
those of the candidates before the `k`-th only, and the last socket asked for
is the `k`-th, whatever the later candidates would have answered. -/
theorem socket_creation_failure_is_fatal (env : Env) (address : List Char) (port : Int)
    (w : World) (pre post : List addrinfo) (a : addrinfo)
    (hdns : env.getaddrinfo_ret = 0) (hl : env.server_info = pre ++ a :: post)
    (hpre : ∀ x ∈ pre, x.socket_ret ≠ -1 ∧ x.connect_ret ≠ 0)
    (hs : a.socket_ret = -1) :
    ∃ w', connect_socket env address port w = .exit 1 w' ∧
      connect_calls w'.trace = connect_calls w.trace ++ pre.map addrinfo.attempt ∧
      socket_calls w'.trace = socket_calls w.trace ++
        (pre ++ [a]).map (fun x => (x.ai_family, x.socket_ret)) ∧
      w'.trace = w.trace ++ (dns_call_events env address port ++ dns_show_events env.server_info)
                  ++ pre.flatMap failed_events ++ no_socket_events a := by
  have hq := dns_events_quiet env address port
  refine ⟨_, connect_socket_no_socket env address port w pre post a hdns hl hpre hs, ?_, ?_, rfl⟩
  · simp only [connect_calls_append, connect_calls_quiet _ hq, connect_calls_failed]
    simp [connect_calls, no_socket_events]
  · simp only [socket_calls_append, socket_calls_quiet _ hq, socket_calls_failed]
    simp [socket_calls, no_socket_events]

theorem socket_creation_failure_is_fatal_witness :
    ((env_of 0 [cand_A, cand_X, cand_C]).getaddrinfo_ret = 0 ∧
      (env_of 0 [cand_A, cand_X, cand_C]).server_info = [cand_A] ++ cand_X :: [cand_C] ∧
      (∀ x ∈ [cand_A], x.socket_ret ≠ -1 ∧ x.connect_ret ≠ 0) ∧ cand_X.socket_ret = -1) ∧
    ∃ w', connect_socket (env_of 0 [cand_A, cand_X, cand_C]) "example.org".toList 80
        World.start = .exit 1 w' ∧
      connect_calls w'.trace = [cand_A.attempt] ∧
      socket_calls w'.trace = [(2, 3), (10, -1)] := by
  refine ⟨⟨rfl, rfl, by decide, rfl⟩, ?_⟩
  obtain ⟨w', h1, h2, h3, _⟩ := socket_creation_failure_is_fatal
    (env_of 0 [cand_A, cand_X, cand_C]) "example.org".toList 80 World.start
    [cand_A] [cand_C] cand_X rfl rfl (by decide) rfl
  refine ⟨w', h1, ?_, ?_⟩
  · rw [h2]; decide
  · rw [h3]; decide

/-- C5: in every run of `main`, if some `recv` reports a negative count then
the process ends with status 1 and the only call made after that `recv` is
the output of the diagnostic: no `gpio_write_string` (which would print and
drive pins), no further `recv`.  `read_socket` itself, on a failed receive,
prints "Error on Receive." and exits with status 1. -/
theorem failed_receive_is_fatal (env : Env) (target_address : List Char)
    (number_of_lines : Int) (w : World) (rest : List Event)
    (h : after_bad_recv (main env target_address number_of_lines).world.trace = some rest) :
    (main env target_address number_of_lines).status = some 1 ∧
    rest = [.cout "Error on Receive.\n".toList] ∧
    read_socket none w = .exit 1
      ⟨w.trace ++ [.recv w.file_descriptor 149 (-1), .cout "Error on Receive.\n".toList],
        w.file_descriptor⟩ := by
  rcases main_cases env target_address number_of_lines with hnone | ⟨hst, hab⟩
  · rw [hnone] at h
    exact absurd h (by simp)
  · rw [hab] at h
    exact ⟨hst, (Option.some.inj h).symm, read_socket_failed w⟩

set_option maxRecDepth 200000 in
theorem failed_receive_is_fatal_witness :
    after_bad_recv (main env_recv_fails "example.org".toList 3).world.trace
        = some [.cout "Error on Receive.\n".toList] ∧
    (main env_recv_fails "example.org".toList 3).status = some 1 := by
  have hh : after_bad_recv (main env_recv_fails "example.org".toList 3).world.trace
        = some [.cout "Error on Receive.\n".toList] := by decide
  exact ⟨hh, (failed_receive_is_fatal env_recv_fails "example.org".toList 3 World.start _ hh).1⟩

/-- C8: if the flag is seen set at the tests before bytes `0..k-1` of `s`
and, when `k < length s`, seen cleared at the test before byte `k`, then
`gpio_write_string s` renders exactly the first `k` bytes, one pattern per
delay and in order; on return the levels are those left by `gpio_write` of
byte `k-1` (the entry levels when `k = 0`): nothing is switched off at the end. -/
theorem gpio_write_string_stops_when_flag_cleared (lv : Nat → Level)
    (running : Nat → Bool) (s : List Char) (w : World) (k : Nat)
    (hk : k ≤ s.length) (hset : ∀ i, i < k → running i = true)
    (hclr : k < s.length → running k = false) :
    (gpio_write_string running s w).trace = w.trace ++
        ([.cout ("Writing this string: ".toList ++ s ++ "\n".toList)]
          ++ rendered 0 (s.take k)) ∧
    frames_from lv (gpio_write_string running s w).trace = frames_from lv w.trace ++
        (s.take k).map
          (fun ch => pattern (levels_after lv (gpio_write (ch.toNat % 256) w).trace)) ∧
    (k = 0 → levels_after lv (gpio_write_string running s w).trace
                = levels_after lv w.trace) ∧
    (∀ ch, (s.take k).getLast? = some ch →
        levels_after lv (gpio_write_string running s w).trace
          = levels_after lv (gpio_write (ch.toNat % 256) w).trace) := by
  have heq := gpio_write_string_eq running s w k hk hset hclr
  have hlv : ∀ p, levels_after lv (gpio_write_string running s w).trace p =
      levels_after (levels_after lv w.trace) (rendered 0 (s.take k)) p := by
    intro p
    rw [heq]
    simp only []
    rw [levels_after_append, levels_after_append]
    rfl
  refine ⟨by rw [heq], ?_, ?_, ?_⟩
  · rw [heq]
    simp only []
    rw [frames_from_append, frames_from_append, frames_from_rendered w lv]
    simp [frames_from]
  · intro hk0
    funext p
    rw [hlv p, hk0]
    simp [rendered, levels_after]
  · intro ch hch
    funext p
    rw [hlv p, levels_after_rendered, hch, levels_after_gpio_write]

theorem gpio_write_string_stops_when_flag_cleared_witness :
    ((1 ≤ "Hi".toList.length) ∧ (∀ i, i < 1 → (fun i => decide (i < 1)) i = true) ∧
      (1 < "Hi".toList.length → (fun i => decide (i < 1)) 1 = false)) ∧
    frames_from (fun _ => Level.HIGH)
        (gpio_write_string (fun i => decide (i < 1)) "Hi".toList World.start).trace =
      [pattern (levels_after (fun _ => Level.HIGH)
        (gpio_write ('H'.toNat % 256) World.start).trace)] ∧
    levels_after (fun _ => Level.HIGH)
        (gpio_write_string (fun i => decide (i < 1)) "Hi".toList World.start).trace
      = levels_after (fun _ => Level.HIGH) (gpio_write ('H'.toNat % 256) World.start).trace := by
  have h := gpio_write_string_stops_when_flag_cleared (fun _ => Level.HIGH)
    (fun i => decide (i < 1)) "Hi".toList World.start 1 (by decide)
    (fun i hi => by simpa using hi) (fun _ => by decide)
  refine ⟨⟨by decide, fun i hi => by simpa using hi, fun _ => by decide⟩, ?_, ?_⟩
  · rw [h.2.1]; rfl
  · exact h.2.2.2 'H' (by decide)

/-- C9: in the read loop of `main` with requested count `n`, when no receive
fails, the loop comes back and the number of `recv` calls it made is `n` if
the flag is seen set at the top of every iteration, is `k` if the flag is
first seen cleared at the top of iteration `k < n`, is 0 when `n ≤ 0`, and in
every case is at most `n` (at most 0 for a negative `n`). -/
theorem read_loop_performs_the_requested_reads (env : Env) (n : Int) (w : World)
    (hrecv : ∀ c, env.recv_data c ≠ none) :
    ∃ wl reads, main_loop env n.toNat 0 w = .done () wl ∧
      (recv_calls wl.trace).length = (recv_calls w.trace).length + reads ∧
      ((∀ c, c < n.toNat → env.running_main c = true) → (reads : Int) = max n 0) ∧
      (∀ k, k < n.toNat → (∀ c, c < k → env.running_main c = true) →
          env.running_main k = false → reads = k) ∧
      (n ≤ 0 → reads = 0) ∧
      reads ≤ n.toNat ∧ (0 ≤ n → (reads : Int) ≤ n) := by
  obtain ⟨k, hk, hset, hclr⟩ := exists_stop env.running_main n.toNat 0
  obtain ⟨new, hloop, hcount, _⟩ := main_loop_ok env hrecv n.toNat 0 w k hk hset hclr
  have hset2 : ∀ i, i < k → env.running_main i = true := by simpa using hset
  have hclr2 : k < n.toNat → env.running_main k = false := by simpa using hclr
  refine ⟨_, k, hloop, ?_, ?_, ?_, ?_, hk, ?_⟩
  · simp only []
    rw [recv_calls_append, List.length_append, hcount]
  · intro hall
    have hkn : k = n.toNat := by
      by_contra hne
      have hlt : k < n.toNat := by omega
      have h1 := hclr2 hlt
      rw [hall k hlt] at h1
      exact absurd h1 (by simp)
    rw [hkn]
    omega
  · intro k2 hk2 hset3 hclr3
    by_contra hne
    rcases Nat.lt_or_gt_of_ne hne with hlt | hgt
    · have h1 := hclr2 (by omega)
      rw [hset3 k hlt] at h1
      exact absurd h1 (by simp)
    · have h1 := hset2 k2 hgt
      rw [hclr3] at h1
      exact absurd h1 (by simp)
  · intro hn
    have : n.toNat = 0 := by omega
    omega
  · intro hn
    omega

theorem read_loop_performs_the_requested_reads_witness :
    (∀ c, env_interrupted.recv_data c ≠ none) ∧
    ∃ wl, main_loop env_interrupted (5 : Int).toNat 0 World.start = .done () wl ∧
      (recv_calls wl.trace).length = 2 := by
  have hrecv : ∀ c, env_interrupted.recv_data c ≠ none := by
    intro c; simp [env_interrupted, env_of]
  obtain ⟨wl, reads, h1, h2, _, h4, _⟩ :=
    read_loop_performs_the_requested_reads env_interrupted 5 World.start hrecv
  refine ⟨hrecv, wl, h1, ?_⟩
  have hr : reads = 2 := h4 2 (by decide) (by decide) (by decide)
  rw [h2, hr]
  rfl

/-- C10: when the resolver succeeds, the candidates before `a` fail to
connect, `a` connects, both sends and every receive succeed, `main` ends with
status 0 in the state `clear_pins (close_socket w4)`, `w4` being the state in
which the read loop ended: after the loop the calls are one `close` of the
connection's descriptor followed by the calls of one `clear_pins`.  The
connection was not closed before, no descriptor is left open, and all 20
channels are off. -/
theorem main_closes_and_clears_once (env : Env) (target_address : List Char) (n : Int)
    (lv : Nat → Level) (pre post : List addrinfo) (a : addrinfo)
    (hdns : env.getaddrinfo_ret = 0) (hl : env.server_info = pre ++ a :: post)
    (hpre : ∀ x ∈ pre, x.socket_ret ≠ -1 ∧ x.connect_ret ≠ 0)
    (hs : a.socket_ret ≠ -1) (hc : a.connect_ret = 0)
    (h0 : 0 ≤ env.send_ret 0) (h1 : 0 ≤ env.send_ret 1)
    (hrecv : ∀ c, env.recv_data c ≠ none) :
    ∃ w4 w5,
      main_loop env n.toNat 0
        ⟨main_setup_events target_address ++ connected_events env target_address 80 pre a
            ++ send_events env target_address a.socket_ret, a.socket_ret⟩ = .done () w4 ∧
      main env target_address n = .exit 0 w5 ∧
      w5 = clear_pins (close_socket w4) ∧
      w5.trace = w4.trace ++ (Event.close a.socket_ret :: clear_events) ∧
      close_calls w4.trace = pre.map (fun x => x.socket_ret) ∧
      close_calls w5.trace = pre.map (fun x => x.socket_ret) ++ [a.socket_ret] ∧
      open_fds w4.trace = [a.socket_ret] ∧ open_fds w5.trace = [] ∧
      (∀ j, j < LEDs → levels_after lv w5.trace (pin j) = .HIGH) := by
  obtain ⟨k, hk, hset, hclr⟩ := exists_stop env.running_main n.toNat 0
  obtain ⟨new, hloop, _, hclose, _, _, hopen, hlev⟩ := main_loop_ok env hrecv n.toNat 0
    ⟨main_setup_events target_address ++ connected_events env target_address 80 pre a
        ++ send_events env target_address a.socket_ret, a.socket_ret⟩ k hk hset hclr
  have hobs := connected_events_obs env target_address 80 pre a hpre hs
  have hsq := main_setup_events_quiet target_address
  have hmain : main env target_address n = .exit 0 (clear_pins (close_socket
      ⟨main_setup_events target_address ++ connected_events env target_address 80 pre a
        ++ send_events env target_address a.socket_ret ++ new, a.socket_ret⟩)) := by
    rw [main_eq, connect_socket_first_success env target_address 80 _ pre post a hdns hl hpre hs hc]
    simp only []
    rw [main_connected_eq env target_address n _ (by omega) (by omega)]
    have hw : (⟨main_setup_events target_address
          ++ (dns_call_events env target_address 80 ++ dns_show_events env.server_info)
          ++ pre.flatMap failed_events ++ success_events a ++ [Event.freeaddrinfo]
          ++ send_events env target_address a.socket_ret, a.socket_ret⟩ : World)
        = ⟨main_setup_events target_address ++ connected_events env target_address 80 pre a
            ++ send_events env target_address a.socket_ret, a.socket_ret⟩ := by
      simp [connected_events, List.append_assoc]
    simp only [hw, hloop]
  have hc4 : close_calls (main_setup_events target_address
      ++ connected_events env target_address 80 pre a
      ++ send_events env target_address a.socket_ret ++ new)
      = pre.map (fun x => x.socket_ret) := by
    simp only [close_calls_append, close_calls_quiet _ hsq, hobs.1, hclose]
    simp [close_calls, send_events]
  have ho4 : open_fds (main_setup_events target_address
      ++ connected_events env target_address 80 pre a
      ++ send_events env target_address a.socket_ret ++ new) = [a.socket_ret] := by
    simp only [open_fds, List.foldl_append, open_step_quiet _ hsq, hobs.2, hopen]
    simp [send_events, open_step]
  refine ⟨_, _, hloop, hmain, rfl, ?_, hc4, ?_, ho4, ?_, ?_⟩
  · rw [close_clear_eq]
  · rw [close_clear_eq]
    simp only []
    rw [close_calls_append, hc4]
    have : close_calls (Event.close a.socket_ret :: clear_events)
        = a.socket_ret :: close_calls clear_events := by simp [close_calls]
    rw [this, close_calls_quiet _ clear_events_quiet]
  · rw [close_clear_eq]
    simp only []
    rw [open_fds_append, ho4, List.foldl_cons]
    simp only [open_step, List.erase_cons_head]
    exact open_step_quiet _ clear_events_quiet []
  · intro j hj
    rw [close_clear_eq]
    simp only []
    rw [levels_after_append]
    have : Event.close a.socket_ret :: clear_events = [Event.close a.socket_ret] ++ clear_events :=
      rfl
    rw [this, levels_after_append]
    exact levels_after_clear _ j hj

theorem main_closes_and_clears_once_witness :
    (env_interrupted.getaddrinfo_ret = 0 ∧
      env_interrupted.server_info = [cand_A] ++ cand_B :: [] ∧
      (∀ x ∈ [cand_A], x.socket_ret ≠ -1 ∧ x.connect_ret ≠ 0) ∧
      cand_B.socket_ret ≠ -1 ∧ cand_B.connect_ret = 0 ∧
      0 ≤ env_interrupted.send_ret 0 ∧ 0 ≤ env_interrupted.send_ret 1 ∧
      (∀ c, env_interrupted.recv_data c ≠ none)) ∧
    ∃ w5, main env_interrupted "example.org".toList 5 = .exit 0 w5 ∧
      close_calls w5.trace = [3, 3] ∧ open_fds w5.trace = [] ∧
      (∀ j, j < LEDs → levels_after (fun _ => Level.LOW) w5.trace (pin j) = .HIGH) := by
  have hrecv : ∀ c, env_interrupted.recv_data c ≠ none := by
    intro c; simp [env_interrupted, env_of]
  obtain ⟨w4, w5, _, h2, _, _, _, h6, _, h8, h9⟩ :=
    main_closes_and_clears_once env_interrupted "example.org".toList 5 (fun _ => Level.LOW)
      [cand_A] [] cand_B rfl rfl (by decide) (by decide) rfl (by decide) (by decide) hrecv
  exact ⟨⟨rfl, rfl, by decide, by decide, rfl, by decide, by decide, hrecv⟩,
    w5, h2, h6, h8, h9⟩

/-! ## Lemmas for the later claims -/

theorem send_calls_append (a b : List Event) :
    send_calls (a ++ b) = send_calls a ++ send_calls b := by
  simp [send_calls, List.filterMap_append]

theorem send_calls_quiet (tr : List Event) (h : ∀ e ∈ tr, e.net = false) :
    send_calls tr = [] := by
  unfold send_calls
  rw [List.filterMap_eq_nil_iff]
  intro e he
  have := h e he
  cases e <;> simp_all [Event.net]

theorem failed_transfer_of_quiet (e : Event) (h : e.net = false) :
    e.failed_transfer = false := by
  cases e <;> simp_all [Event.net, Event.failed_transfer]

/-- Shape of every run of the read loop, whatever the receives answer: it
makes no `send`, no `close` and no `socket` call and keeps `file_descriptor`;
it comes back when no receive failed and exits with status 1 otherwise. -/
theorem main_loop_general (env : Env) (todo : Nat) :
    ∀ (c : Nat) (w : World), ∃ new,
      (main_loop env todo c w).world = ⟨w.trace ++ new, w.file_descriptor⟩ ∧
      send_calls new = [] ∧ close_calls new = [] ∧
      (∀ fds, new.foldl open_step fds = fds) ∧
      (((main_loop env todo c w).status = none ∧ ∀ e ∈ new, e.failed_transfer = false) ∨
       ((main_loop env todo c w).status = some 1 ∧ ∃ e ∈ new, e.failed_transfer = true)) := by
  induction todo with
  | zero =>
    intro c w
    exact ⟨[], by simp [main_loop, Run.world], rfl, rfl, fun _ => rfl,
      Or.inl ⟨rfl, by simp⟩⟩
  | succ todo ih =>
    intro c w
    cases hrun : env.running_main c with
    | false =>
      exact ⟨[], by simp [main_loop, hrun, Run.world], rfl, rfl, fun _ => rfl,
        Or.inl ⟨by simp [main_loop, hrun, Run.status], by simp⟩⟩
    | true =>
      cases hd : env.recv_data c with
      | none =>
        refine ⟨[.recv w.file_descriptor 149 (-1), .cout "Error on Receive.\n".toList], ?_,
          by simp [send_calls], by simp [close_calls], fun fds => by simp [open_step],
          Or.inr ⟨?_, ⟨.recv w.file_descriptor 149 (-1), by simp, by simp [Event.failed_transfer]⟩⟩⟩
        · simp [main_loop, hrun, hd, read_socket_failed, Run.world]
        · simp [main_loop, hrun, hd, read_socket_failed, Run.status]
      | some d =>
        obtain ⟨new, hstep, hq⟩ := main_loop_step env todo c w d hrun hd
        obtain ⟨new2, htr, hsend, hclose, hopen, hcases⟩ := ih (c + 1)
          ⟨w.trace ++ (Event.recv w.file_descriptor 149 ((d.take 149).length : Int) :: new),
            w.file_descriptor⟩
        have hnn : ¬ (((d.take 149).length : Int) < 0) := by omega
        refine ⟨(Event.recv w.file_descriptor 149 ((d.take 149).length : Int) :: new) ++ new2,
          ?_, ?_, ?_, ?_, ?_⟩
        · rw [hstep, htr, List.append_assoc]
        · rw [send_calls_append, hsend]
          have : send_calls (Event.recv w.file_descriptor 149 ((d.take 149).length : Int) :: new)
              = send_calls new := by simp [send_calls]
          rw [this, send_calls_quiet new hq]; rfl
        · rw [close_calls_append, hclose]
          have : close_calls (Event.recv w.file_descriptor 149 ((d.take 149).length : Int) :: new)
              = close_calls new := by simp [close_calls]
          rw [this, close_calls_quiet new hq]; rfl
        · intro fds
          rw [List.foldl_append, hopen, List.foldl_cons]
          simp only [open_step]
          exact open_step_quiet new hq fds
        · rw [hstep]
          rcases hcases with ⟨hst, hall⟩ | ⟨hst, e, he, hf⟩
          · refine Or.inl ⟨hst, ?_⟩
            intro e he
            rcases List.mem_append.1 he with he | he
            · rcases List.mem_cons.1 he with rfl | he
              · simp [Event.failed_transfer, hnn]
              · exact failed_transfer_of_quiet e (hq e he)
            · exact hall e he
          · exact Or.inr ⟨hst, e, List.mem_append_right _ he, hf⟩

theorem tidy_from_length (fds : List Int) (tr : List Event) (h : tidy_from fds tr = true) :
    fds.length ≤ 1 := by
  cases tr with
  | nil => simpa [tidy_from] using h
  | cons e tr =>
    simp only [tidy_from, Bool.and_eq_true, decide_eq_true_eq] at h
    exact h.1.1

theorem tidy_from_append (a b : List Event) :
    ∀ fds, tidy_from fds (a ++ b) = true ↔
      (tidy_from fds a = true ∧ tidy_from (a.foldl open_step fds) b = true) := by
  induction a with
  | nil =>
    intro fds
    constructor
    · intro h
      exact ⟨by simpa [tidy_from] using tidy_from_length fds b h, h⟩
    · intro h; exact h.2
  | cons e a ih =>
    intro fds
    have ih2 := ih (open_step fds e)
    simp only [List.cons_append, tidy_from, Bool.and_eq_true, List.foldl_cons, List.append_eq]
    rw [ih2]
    tauto

theorem tidy_from_quiet (tr : List Event) (h : ∀ e ∈ tr, e.net = false) :
    ∀ fds, fds.length ≤ 1 → tidy_from fds tr = true := by
  induction tr with
  | nil => intro fds hf; simpa [tidy_from] using hf
  | cons e tr ih =>
    intro fds hf
    have he := h e (List.mem_cons_self _ _)
    have ih := ih (fun x hx => h x (List.mem_cons_of_mem _ hx))
    cases e <;> simp_all [Event.net, tidy_from, open_step]

/-- The call-by-call check implies the property on every initial segment. -/
theorem tidy_from_sound (tr : List Event) :
    ∀ fds, tidy_from fds tr = true →
      ∀ i, ((tr.take i).foldl open_step fds).length ≤ 1 ∧
        ∀ family ret, tr[i]? = some (Event.socket family ret) →
          (tr.take i).foldl open_step fds = [] := by
  induction tr with
  | nil =>
    intro fds h i
    simp only [List.take_nil, List.foldl_nil]
    exact ⟨tidy_from_length fds [] h, fun _ _ hh => by simp at hh⟩
  | cons e tr ih =>
    intro fds h i
    have hlen := tidy_from_length fds _ h
    simp only [tidy_from, Bool.and_eq_true, decide_eq_true_eq] at h
    cases i with
    | zero =>
      simp only [List.take_zero, List.foldl_nil]
      refine ⟨hlen, ?_⟩
      intro family ret hh
      simp only [List.getElem?_cons_zero, Option.some.injEq] at hh
      subst hh
      simpa using h.1.2
    | succ i =>
      simp only [List.take_succ_cons, List.foldl_cons, List.getElem?_cons_succ]
      exact ih _ h.2 i

theorem one_at_a_time_of_tidy (tr : List Event) (h : tidy_from [] tr = true) :
    one_at_a_time tr := by
  intro i
  exact tidy_from_sound tr [] h i

/-- Every run of `connect_loop`: its calls keep at most one socket open, make
no `send`, and leave open exactly the socket of a successful `connect`. -/
theorem connect_loop_tidy (l : List addrinfo) :
    ∀ w : World, ∃ new, (connect_loop l w).world.trace = w.trace ++ new ∧
      tidy_from [] new = true ∧ send_calls new = [] ∧
      ((connect_loop l w).status = some 1 → open_fds new = []) ∧
      ((connect_loop l w).status = none →
        ((∃ c ∈ connect_calls new, c.2.2 = 0) →
            open_fds new = [(connect_loop l w).world.file_descriptor]) ∧
        ((∀ c ∈ connect_calls new, c.2.2 ≠ 0) → open_fds new = [])) ∧
      ((connect_loop l w).status = none ∨ (connect_loop l w).status = some 1) := by
  induction l with
  | nil =>
    intro w
    refine ⟨[], by simp [connect_loop, Run.world], rfl, rfl, fun _ => rfl, ?_, Or.inl rfl⟩
    intro _
    exact ⟨fun h => by simp [connect_calls] at h, fun _ => rfl⟩
  | cons a rest ih =>
    intro w
    by_cases hs : a.socket_ret = -1
    · rw [connect_loop_no_socket a rest hs]
      refine ⟨no_socket_events a, rfl, ?_, by simp [send_calls, no_socket_events], ?_, ?_,
        Or.inr rfl⟩
      · simp [no_socket_events, tidy_from, open_step, hs]
      · intro _
        simp [no_socket_events, open_fds, open_step, hs]
      · intro h
        simp [Run.status] at h
    · by_cases hc : a.connect_ret = 0
      · rw [connect_loop_success a rest hs hc]
        refine ⟨success_events a, rfl, ?_, by simp [send_calls, success_events], ?_, ?_,
          Or.inl rfl⟩
        · simp [success_events, tidy_from, open_step, hs]
        · intro h
          simp [Run.status] at h
        · intro _
          simp [success_events, open_fds, open_step, hs, connect_calls, hc, Run.world]
      · have h := connect_loop_failed [a] rest
          (fun x hx => by rw [List.mem_singleton] at hx; subst hx; exact ⟨hs, hc⟩) w
        rw [List.singleton_append] at h
        obtain ⟨new, hnew, htidy, hsend, hexit, hdone, hst⟩ := ih (after_failed [a] w)
        have hfold : ∀ fds, (failed_events a).foldl open_step fds = fds := by
          intro fds
          simp [failed_events, open_step, hs]
        have hcc : connect_calls (failed_events a ++ new) =
            (a.socket_ret, a.ai_addr, a.connect_ret) :: connect_calls new := by
          rw [connect_calls_append]
          simp [connect_calls, failed_events]
        have hopen : open_fds (failed_events a ++ new) = open_fds new := by
          rw [open_fds_append, open_fds]
          have := hfold []
          rw [this]
          rfl
        rw [h]
        refine ⟨failed_events a ++ new, ?_, ?_, ?_, ?_, ?_, hst⟩
        · rw [hnew]; simp [after_failed, List.append_assoc]
        · rw [tidy_from_append, hfold]
          exact ⟨by simp [failed_events, tidy_from, open_step, hs], htidy⟩
        · rw [send_calls_append, hsend]; simp [send_calls, failed_events]
        · intro hst1
          rw [hopen]; exact hexit hst1
        · intro hst0
          rw [hopen, hcc]
          constructor
          · rintro ⟨c, hcm, hc0⟩
            rcases List.mem_cons.1 hcm with rfl | hcm
            · exact absurd hc0 hc
            · exact (hdone hst0).1 ⟨c, hcm, hc0⟩
          · intro hall
            exact (hdone hst0).2 (fun c hcm => hall c (List.mem_cons_of_mem _ hcm))

/-- Every run of `connect_socket`, whatever the system answers. -/
theorem connect_socket_tidy (env : Env) (address : List Char) (port : Int) (w : World) :
    ∃ new, (connect_socket env address port w).world.trace = w.trace ++ new ∧
      tidy_from [] new = true ∧ send_calls new = [] ∧
      ((connect_socket env address port w).status = some 1 → open_fds new = []) ∧
      ((connect_socket env address port w).status = none →
        ((∃ c ∈ connect_calls new, c.2.2 = 0) →
            open_fds new = [(connect_socket env address port w).world.file_descriptor]) ∧
        ((∀ c ∈ connect_calls new, c.2.2 ≠ 0) → open_fds new = [])) ∧
      ((connect_socket env address port w).status = none ∨
        (connect_socket env address port w).status = some 1) := by
  by_cases hdns : env.getaddrinfo_ret = 0
  · have hdq := dns_events_quiet env address port
    obtain ⟨new, hnew, htidy, hsend, hexit, hdone, hst⟩ := connect_loop_tidy env.server_info
      { w with trace := w.trace ++ (dns_call_events env address port
                                      ++ dns_show_events env.server_info) }
    have hfold : ∀ fds, (dns_call_events env address port
        ++ dns_show_events env.server_info).foldl open_step fds = fds :=
      fun fds => open_step_quiet _ hdq fds
    unfold connect_socket
    rw [dns_lookup_ok env address port w hdns]
    simp only []
    cases hloop : connect_loop env.server_info
        { w with trace := w.trace ++ (dns_call_events env address port
                                      ++ dns_show_events env.server_info) } with
    | exit status w2 =>
      rw [hloop] at hnew hexit hst
      have hst1 : status = 1 := by
        rcases hst with h | h
        · simp [Run.status] at h
        · simpa [Run.status] using h
      subst hst1
      refine ⟨(dns_call_events env address port ++ dns_show_events env.server_info) ++ new,
        by simpa [Run.world, List.append_assoc] using hnew, ?_, ?_, ?_, ?_, Or.inr rfl⟩
      · rw [tidy_from_append, hfold]
        exact ⟨tidy_from_quiet _ hdq [] (by simp), htidy⟩
      · rw [send_calls_append, hsend, send_calls_quiet _ hdq]; rfl
      · intro _
        rw [open_fds_append, open_fds, hfold]
        exact hexit rfl
      · intro h
        simp [Run.status] at h
    | done u w2 =>
      rw [hloop] at hnew hdone
      simp only [Run.world] at hnew hdone
      have hcc : connect_calls ((dns_call_events env address port
          ++ dns_show_events env.server_info) ++ new ++ [Event.freeaddrinfo])
          = connect_calls new := by
        simp only [connect_calls_append, connect_calls_quiet _ hdq]
        simp [connect_calls]
      have hopen : open_fds ((dns_call_events env address port
          ++ dns_show_events env.server_info) ++ new ++ [Event.freeaddrinfo])
          = open_fds new := by
        simp only [open_fds, List.foldl_append, hfold]
        simp [open_step]
      refine ⟨(dns_call_events env address port ++ dns_show_events env.server_info) ++ new
          ++ [.freeaddrinfo], ?_, ?_, ?_, ?_, ?_, Or.inl rfl⟩
      · simp [Run.world, emit, hnew, List.append_assoc]
      · have hf2 : List.foldl open_step [] ((dns_call_events env address port
            ++ dns_show_events env.server_info) ++ new) = List.foldl open_step [] new := by
          rw [List.foldl_append, hfold]
        rw [tidy_from_append, tidy_from_append, hfold, hf2]
        refine ⟨⟨tidy_from_quiet _ hdq [] (by simp), htidy⟩, ?_⟩
        have hl := tidy_from_length _ _ ((tidy_from_append new [] []).1
          (by simpa using htidy)).2
        apply tidy_from_quiet
        · intro e he
          rw [List.mem_singleton] at he
          subst he; rfl
        · exact hl
      · simp only [send_calls_append, hsend, send_calls_quiet _ hdq]
        simp [send_calls]
      · intro h
        simp [Run.status] at h
      · intro _
        rw [hcc, hopen]
        simp only [Run.world, emit]
        exact hdone rfl
  · rw [connect_socket_dns_failed env address port w hdns]
    have hq : ∀ e ∈ dns_call_events env address port ++ [Event.cout "DNS Failed.\n".toList],
        e.net = false := by
      intro e he
      simp [dns_call_events] at he
      rcases he with rfl | rfl | rfl <;> rfl
    refine ⟨dns_call_events env address port ++ [Event.cout "DNS Failed.\n".toList], rfl,
      tidy_from_quiet _ hq [] (by simp), send_calls_quiet _ hq, ?_, ?_, Or.inr rfl⟩
    · intro _
      exact open_step_quiet _ hq []
    · intro h
      simp [Run.status] at h

/-- Every run of `main_connected`, whatever `send` and `recv` answer: either
nothing fails and it ends with status 0 after one `close` of the descriptor,
or a `send` or `recv` fails and it ends with status 1 without any `close`. -/
theorem main_connected_general (env : Env) (target_address : List Char)
    (number_of_lines : Int) (w : World) :
    ∃ new, (main_connected env target_address number_of_lines w).world.trace
        = w.trace ++ new ∧
      (0 ≤ env.send_ret 0 → send_calls new =
        [(w.file_descriptor, http_request target_address, env.send_ret 0),
         (w.file_descriptor, "\r\n".toList, env.send_ret 1)]) ∧
      (((main_connected env target_address number_of_lines w).status = some 0 ∧
          close_calls new = [w.file_descriptor] ∧
          (∀ fds, new.foldl open_step fds = fds.erase w.file_descriptor) ∧
          ∀ e ∈ new, e.failed_transfer = false) ∨
       ((main_connected env target_address number_of_lines w).status = some 1 ∧
          close_calls new = [] ∧ (∀ fds, new.foldl open_step fds = fds) ∧
          ∃ e ∈ new, e.failed_transfer = true)) := by
  by_cases h0 : env.send_ret 0 < 0
  · refine ⟨[.cout ("Sending HTTP request: ".toList ++ http_request target_address
        ++ "\n".toList), .send w.file_descriptor (http_request target_address) (env.send_ret 0),
        .cout "Error on Send.\n".toList], ?_, fun h => absurd h0 (by omega), Or.inr ⟨?_, ?_, ?_, ?_⟩⟩
    · unfold main_connected
      simp only [write_socket_failed _ _ _ h0]
      simp [Run.world, cout, emit, List.append_assoc]
    · unfold main_connected
      simp only [write_socket_failed _ _ _ h0]
      simp [Run.status]
    · simp [close_calls]
    · intro fds; simp [open_step]
    · exact ⟨.send w.file_descriptor (http_request target_address) (env.send_ret 0), by simp,
        by simp [Event.failed_transfer, h0]⟩
  · by_cases h1 : env.send_ret 1 < 0
    · refine ⟨[.cout ("Sending HTTP request: ".toList ++ http_request target_address
          ++ "\n".toList), .send w.file_descriptor (http_request target_address) (env.send_ret 0),
          .cout ("Sent ".toList ++ (toString (env.send_ret 0)).toList
              ++ " bytes to server.\n".toList),
          .send w.file_descriptor "\r\n".toList (env.send_ret 1),
          .cout "Error on Send.\n".toList], ?_, fun _ => by simp [send_calls],
          Or.inr ⟨?_, ?_, ?_, ?_⟩⟩
      · unfold main_connected
        simp only [write_socket_ok _ _ _ h0, write_socket_failed _ _ _ h1]
        simp [Run.world, cout, emit, List.append_assoc]
      · unfold main_connected
        simp only [write_socket_ok _ _ _ h0, write_socket_failed _ _ _ h1]
        simp [Run.status]
      · simp [close_calls]
      · intro fds; simp [open_step]
      · exact ⟨.send w.file_descriptor "\r\n".toList (env.send_ret 1), by simp,
          by simp [Event.failed_transfer, h1]⟩
    · rw [main_connected_eq env target_address number_of_lines w h0 h1]
      obtain ⟨new, hnew, hsend, hclose, hopen, hcases⟩ :=
        main_loop_general env number_of_lines.toNat 0
          ⟨w.trace ++ send_events env target_address w.file_descriptor, w.file_descriptor⟩
      have hse : send_calls (send_events env target_address w.file_descriptor) =
          [(w.file_descriptor, http_request target_address, env.send_ret 0),
           (w.file_descriptor, "\r\n".toList, env.send_ret 1)] := by
        simp [send_calls, send_events]
      have hsc : close_calls (send_events env target_address w.file_descriptor) = [] := by
        simp [close_calls, send_events]
      have hso : ∀ fds, (send_events env target_address w.file_descriptor).foldl open_step fds
          = fds := by
        intro fds; simp [send_events, open_step]
      have hsf : ∀ e ∈ send_events env target_address w.file_descriptor,
          e.failed_transfer = false := by
        intro e he
        simp [send_events] at he
        rcases he with rfl | rfl | rfl | rfl | rfl <;> simp [Event.failed_transfer, h0, h1]
      cases hloop : main_loop env number_of_lines.toNat 0
          ⟨w.trace ++ send_events env target_address w.file_descriptor, w.file_descriptor⟩ with
      | exit status w4 =>
        rw [hloop] at hnew hcases
        simp only [Run.world] at hnew
        rcases hcases with ⟨hst, _⟩ | ⟨hst, e, he, hf⟩
        · simp [Run.status] at hst
        · refine ⟨send_events env target_address w.file_descriptor ++ new, ?_, ?_,
            Or.inr ⟨hst, ?_, ?_, e, List.mem_append_right _ he, hf⟩⟩
          · simp [Run.world, hnew, List.append_assoc]
          · intro _; rw [send_calls_append, hsend, hse]; rfl
          · rw [close_calls_append, hclose, hsc]; rfl
          · intro fds; rw [List.foldl_append, hso, hopen]
      | done u w4 =>
        rw [hloop] at hnew hcases
        simp only [Run.world] at hnew
        rcases hcases with ⟨_, hall⟩ | ⟨hst, _⟩
        · refine ⟨send_events env target_address w.file_descriptor ++ new
              ++ (Event.close w.file_descriptor :: clear_events), ?_, ?_,
              Or.inl ⟨rfl, ?_, ?_, ?_⟩⟩
          · simp only [close_clear_eq, Run.world, hnew, List.append_assoc]
          · intro _
            simp only [send_calls_append, hsend, hse]
            have : send_calls (Event.close w.file_descriptor :: clear_events)
                = send_calls clear_events := by simp [send_calls]
            rw [this, send_calls_quiet _ clear_events_quiet]; rfl
          · simp only [close_calls_append, hclose, hsc]
            have : close_calls (Event.close w.file_descriptor :: clear_events)
                = w.file_descriptor :: close_calls clear_events := by simp [close_calls]
            rw [this, close_calls_quiet _ clear_events_quiet]; rfl
          · intro fds
            simp only [List.foldl_append, hso, hopen, List.foldl_cons, open_step]
            exact open_step_quiet _ clear_events_quiet _
          · intro e he
            simp only [List.mem_append, List.mem_cons] at he
            rcases he with (he | he) | rfl | he
            · exact hsf e he
            · exact hall e he
            · rfl
            · exact failed_transfer_of_quiet e (clear_events_quiet e he)
        · simp [Run.status] at hst

theorem modes_after_append (md : Nat → PinMode) (a b : List Event) :
    modes_after md (a ++ b) = modes_after (modes_after md a) b := by
  simp [modes_after, List.foldl_append]

theorem modes_after_same_value (v : PinMode) (evs : List Event)
    (h : ∀ e ∈ evs, ∀ q u, e = Event.pinMode q u → u = v) (md : Nat → PinMode) (p : Nat) :
    modes_after md evs p = if Event.pinMode p v ∈ evs then v else md p := by
  induction evs generalizing md with
  | nil => simp [modes_after]
  | cons e evs ih =>
    have ih2 := ih (fun e he => h e (List.mem_cons_of_mem _ he)) (apply_mode md e)
    simp only [modes_after, List.foldl_cons] at ih2 ⊢
    rw [ih2]
    by_cases hm : Event.pinMode p v ∈ evs
    · simp [hm]
    · cases e with
      | pinMode q u =>
        have hu := h (.pinMode q u) (List.mem_cons_self _ _) q u rfl
        subst hu
        by_cases hpq : p = q
        · subst hpq; simp [apply_mode]
        · simp [hm, apply_mode, hpq]
      | _ => simp [hm, apply_mode]

theorem mem_clear_events_mode (p : Nat) :
    Event.pinMode p .OUTPUT ∈ clear_events ↔ ∃ j, j < LEDs ∧ p = pin j := by
  unfold clear_events
  simp only [List.mem_flatMap, List.mem_range]
  constructor
  · rintro ⟨c, hc, hm⟩
    simp at hm
    exact ⟨c, hc, hm⟩
  · rintro ⟨c, hc, hp⟩
    exact ⟨c, hc, by simp [hp]⟩

theorem clear_events_output :
    ∀ e ∈ clear_events, ∀ q u, e = Event.pinMode q u → u = PinMode.OUTPUT := by
  intro e he q u hq
  unfold clear_events at he
  simp only [List.mem_flatMap, List.mem_range] at he
  obtain ⟨c, _, hm⟩ := he
  subst hq
  simp at hm
  exact hm.2

/-- Levels after the calls of `clear_pins`: `HIGH` on the pins of the map,
unchanged elsewhere. -/
theorem levels_after_clear_events (lv : Nat → Level) (p : Nat) :
    levels_after lv clear_events p =
      if ∃ j, j < LEDs ∧ p = pin j then .HIGH else lv p := by
  rw [levels_after_same_value .HIGH _ clear_events_high]
  simp only [mem_clear_events]

/-- Modes after the calls of `clear_pins`: `OUTPUT` on the pins of the map,
unchanged elsewhere. -/
theorem modes_after_clear_events (md : Nat → PinMode) (p : Nat) :
    modes_after md clear_events p =
      if ∃ j, j < LEDs ∧ p = pin j then .OUTPUT else md p := by
  rw [modes_after_same_value .OUTPUT _ clear_events_output]
  simp only [mem_clear_events_mode]

theorem connected_events_no_transfer (env : Env) (address : List Char) (port : Int)
    (pre : List addrinfo) (a : addrinfo) :
    ∀ e ∈ connected_events env address port pre a, e.failed_transfer = false := by
  intro e he
  unfold connected_events at he
  simp only [List.mem_append, List.mem_singleton, List.mem_flatMap] at he
  rcases he with ((he | ⟨x, _, he⟩) | he) | rfl
  · exact failed_transfer_of_quiet e
      (dns_events_quiet env address port e (List.mem_append.2 he))
  · simp [failed_events] at he
    rcases he with rfl | rfl | rfl | rfl | rfl <;> rfl
  · simp [success_events] at he
    rcases he with rfl | rfl | rfl | rfl | rfl <;> rfl
  · rfl

theorem delay_calls_append (a b : List Event) :
    delay_calls (a ++ b) = delay_calls a ++ delay_calls b := by
  simp [delay_calls, List.filterMap_append]

theorem delay_calls_no_delay (tr : List Event) (h : ∀ e ∈ tr, ∀ ms, e ≠ Event.delay ms) :
    delay_calls tr = [] := by
  unfold delay_calls
  rw [List.filterMap_eq_nil_iff]
  intro e he
  cases e with
  | delay ms => exact absurd rfl (h _ he ms)
  | _ => rfl

theorem delay_calls_render_events (c : Nat) (ch : Char) :
    delay_calls (render_events c ch) = [delaymils] := by
  unfold render_events
  rw [delay_calls_append, delay_calls_append, delay_calls_append,
    delay_calls_no_delay _ clear_events_no_delay,
    delay_calls_no_delay _ (bit_events_no_delay _)]
  simp [delay_calls]

theorem delay_calls_rendered (l : List Char) :
    ∀ c, delay_calls (rendered c l) = List.replicate l.length delaymils := by
  induction l with
  | nil => intro c; rfl
  | cons ch rest ih =>
    intro c
    simp only [rendered, delay_calls_append, delay_calls_render_events, ih (c + 1),
      List.length_cons, List.replicate_succ, List.singleton_append]

theorem sum_replicate_delay (k : Nat) : (List.replicate k delaymils).sum = 100 * k := by
  simp [List.sum_replicate, delaymils, Nat.mul_comm]

theorem count_mirror (f : Nat → Bool) :
    ((List.range LEDs).map (fun j => decide (1 ≤ j ∧ j ≤ 8) && f (8 - j))).count true
      = (List.range 8).countP f := by
  have hr : List.range LEDs = [0,1,2,3,4,5,6,7,8,9,10,11,12,13,14,15,16,17,18,19] := by decide
  have hr8 : List.range 8 = [0,1,2,3,4,5,6,7] := by decide
  rw [hr, hr8]
  simp only [List.map_cons, List.map_nil]
  simp only [List.countP_cons, List.countP_nil]
  norm_num
  generalize f 0 = b0
  generalize f 1 = b1
  generalize f 2 = b2
  generalize f 3 = b3
  generalize f 4 = b4
  generalize f 5 = b5
  generalize f 6 = b6
  generalize f 7 = b7
  revert b0 b1 b2 b3 b4 b5 b6 b7
  decide

/-- Number of channels on after `gpio_write b`: one for each set bit. -/
theorem count_on_after_gpio_write (lv : Nat → Level) (w : World) (b : Nat) :
    (pattern (levels_after lv (gpio_write b w).trace)).count true = set_bits b := by
  have hpat : pattern (levels_after lv (gpio_write b w).trace) =
      (List.range LEDs).map (fun j => decide (1 ≤ j ∧ j ≤ 8) && b.testBit (8 - j)) := by
    unfold pattern
    apply List.map_congr_left
    intro j hj
    have h := (gpio_write_level_iff lv w b j (List.mem_range.1 hj)).1
    by_cases hl : levels_after lv (gpio_write b w).trace (pin j) = .LOW
    · have h2 := h.1 hl
      simp [hl, h2.1, h2.2.1, h2.2.2]
    · have h2 : ¬ (1 ≤ j ∧ j ≤ 8 ∧ b.testBit (8 - j) = true) := fun hh => hl (h.2 hh)
      simp only [hl, decide_False]
      by_cases h18 : 1 ≤ j ∧ j ≤ 8
      · have : b.testBit (8 - j) = false := by
          cases hb : b.testBit (8 - j) with
          | false => rfl
          | true => exact absurd ⟨h18.1, h18.2, hb⟩ h2
        simp [this]
      · simp [h18]
  rw [hpat]
  exact count_mirror (fun c => b.testBit c)

theorem set_bits_le (b : Nat) : set_bits b ≤ 8 := by
  unfold set_bits
  have h := List.countP_le_length (fun c => b.testBit c) (l := List.range 8)
  simpa using h

/-! ## Claims, continued -/

/-- C11: in every run of `main` in which `connect_socket` comes back and the
first `send` does not fail, the `send` calls of the whole run are exactly two,
in this order: the text `"GET http://" ++ h ++ "/index.html HTTP/1.1\r\nhost:"
++ h ++ "\r\n\r\n"`, then `"\r\n"`, both on the stored descriptor; nothing
else is sent, whatever the second `send` and the receives answer. -/
theorem main_sends_request_then_blank_line (env : Env) (h : List Char) (n : Int)
    (hconn : (connect_socket env h 80 ⟨main_setup_events h, 0⟩).status = none)
    (h0 : 0 ≤ env.send_ret 0) :
    send_calls (main env h n).world.trace =
      [((connect_socket env h 80 ⟨main_setup_events h, 0⟩).world.file_descriptor,
          "GET http://".toList ++ h ++ "/index.html HTTP/1.1\r\nhost:".toList ++ h
            ++ "\r\n\r\n".toList, env.send_ret 0),
       ((connect_socket env h 80 ⟨main_setup_events h, 0⟩).world.file_descriptor,
          "\r\n".toList, env.send_ret 1)] := by
  obtain ⟨new, hnew, _, hsend, _⟩ := connect_socket_tidy env h 80 ⟨main_setup_events h, 0⟩
  have hreq : http_request h = "GET http://".toList ++ h
      ++ "/index.html HTTP/1.1\r\nhost:".toList ++ h ++ "\r\n\r\n".toList := by
    simp [http_request, List.append_assoc]
  rw [main_eq]
  cases hcs : connect_socket env h 80 ⟨main_setup_events h, 0⟩ with
  | exit status w10 =>
    rw [hcs] at hconn
    simp [Run.status] at hconn
  | done u w10 =>
    rw [hcs] at hnew
    simp only [Run.world] at hnew
    obtain ⟨new2, hnew2, hs2, _⟩ := main_connected_general env h n w10
    show send_calls (main_connected env h n w10).world.trace = _
    rw [hnew2, hnew]
    simp only [send_calls_append, hsend, hs2 h0,
      send_calls_quiet _ (main_setup_events_quiet h), hreq]
    rfl

theorem main_sends_request_then_blank_line_witness :
    ((connect_socket (env_of 0 [cand_A, cand_B]) "example.org".toList 80
        ⟨main_setup_events "example.org".toList, 0⟩).status = none ∧
      0 ≤ (env_of 0 [cand_A, cand_B]).send_ret 0) ∧
    send_calls (main (env_of 0 [cand_A, cand_B]) "example.org".toList 2).world.trace =
      [(3, "GET http://example.org/index.html HTTP/1.1\r\nhost:example.org\r\n\r\n".toList, 2),
       (3, "\r\n".toList, 2)] := by
  have hc : (connect_socket (env_of 0 [cand_A, cand_B]) "example.org".toList 80
        ⟨main_setup_events "example.org".toList, 0⟩).status = none := by
    rw [connect_socket_first_success (env_of 0 [cand_A, cand_B]) "example.org".toList 80 _
      [cand_A] [] cand_B rfl rfl (by decide) (by decide) rfl]
    rfl
  have hfd : (connect_socket (env_of 0 [cand_A, cand_B]) "example.org".toList 80
        ⟨main_setup_events "example.org".toList, 0⟩).world.file_descriptor = 3 := by
    rw [connect_socket_first_success (env_of 0 [cand_A, cand_B]) "example.org".toList 80 _
      [cand_A] [] cand_B rfl rfl (by decide) (by decide) rfl]
    rfl
  refine ⟨⟨hc, by decide⟩, ?_⟩
  rw [main_sends_request_then_blank_line (env_of 0 [cand_A, cand_B]) "example.org".toList 2
    hc (by decide), hfd]
  rfl

/-- C12 (what the code does at the failing input): `recv` delivers the three
bytes `'A'`, NUL, `'B'` and reports 3, but `read_socket` returns the one
character `"A"`: `string(from_server)` stops at the first zero byte. -/
theorem read_socket_drops_what_follows_a_zero_byte :
    recv_calls (read_socket (some ['A', Char.ofNat 0, 'B']) World.start).world.trace = [3] ∧
    (read_socket (some ['A', Char.ofNat 0, 'B']) World.start).value = some ['A'] ∧
    (read_socket (some ['A', Char.ofNat 0, 'B']) World.start).value
      ≠ some ['A', Char.ofNat 0, 'B'] := by
  refine ⟨by decide, by decide, by decide⟩

/-- C13: whatever the levels, modes and calls before, after `clear_pins`
every channel `j` of the map is an output driven `HIGH`; a GPIO `p` that is
not in the map keeps its level and mode and is named in no call of
`clear_pins`; and `clear_pins` twice leaves the levels and modes of
`clear_pins` once. -/
theorem clear_pins_switches_the_map_off (lv : Nat → Level) (md : Nat → PinMode) (w : World)
    (j : Nat) (hj : j < LEDs) (p : Nat) (hp : ∀ i, i < LEDs → p ≠ pin i) :
    (modes_after md (clear_pins w).trace (pin j) = .OUTPUT ∧
      levels_after lv (clear_pins w).trace (pin j) = .HIGH) ∧
    (levels_after lv (clear_pins w).trace p = levels_after lv w.trace p ∧
      modes_after md (clear_pins w).trace p = modes_after md w.trace p ∧
      (∀ m, Event.pinMode p m ∉ clear_events) ∧ (∀ v, Event.digitalWrite p v ∉ clear_events)) ∧
    (clear_pins w).trace = w.trace ++ clear_events ∧
    (levels_after lv (clear_pins (clear_pins w)).trace = levels_after lv (clear_pins w).trace ∧
      modes_after md (clear_pins (clear_pins w)).trace = modes_after md (clear_pins w).trace) := by
  have hin : ∃ i, i < LEDs ∧ pin j = pin i := ⟨j, hj, rfl⟩
  have hout : ¬ ∃ i, i < LEDs ∧ p = pin i := fun ⟨i, hi, hpi⟩ => hp i hi hpi
  have hmem : ∀ e ∈ clear_events, ∃ c, c < LEDs ∧
      (e = Event.pinMode (pin c) .OUTPUT ∨ e = Event.digitalWrite (pin c) .HIGH) := by
    intro e he
    unfold clear_events at he
    simp only [List.mem_flatMap, List.mem_range] at he
    obtain ⟨c, hc, hm⟩ := he
    simp at hm
    exact ⟨c, hc, hm⟩
  refine ⟨⟨?_, ?_⟩, ⟨?_, ?_, ?_, ?_⟩, ?_, ?_, ?_⟩
  · rw [clear_pins_eq]; simp only []
    rw [modes_after_append, modes_after_clear_events, if_pos hin]
  · rw [clear_pins_eq]; simp only []
    rw [levels_after_append, levels_after_clear_events, if_pos hin]
  · rw [clear_pins_eq]; simp only []
    rw [levels_after_append, levels_after_clear_events, if_neg hout]
  · rw [clear_pins_eq]; simp only []
    rw [modes_after_append, modes_after_clear_events, if_neg hout]
  · intro m hm
    obtain ⟨c, hc, h1 | h1⟩ := hmem _ hm
    · simp only [Event.pinMode.injEq] at h1
      exact hp c hc h1.1
    · simp at h1
  · intro v hv
    obtain ⟨c, hc, h1 | h1⟩ := hmem _ hv
    · simp at h1
    · simp only [Event.digitalWrite.injEq] at h1
      exact hp c hc h1.1
  · rw [clear_pins_eq]
  · funext q
    rw [clear_pins_eq, clear_pins_eq]; simp only []
    rw [levels_after_append, levels_after_append, levels_after_clear_events,
      levels_after_clear_events]
    by_cases hq : ∃ i, i < LEDs ∧ q = pin i <;> simp [hq]
  · funext q
    rw [clear_pins_eq, clear_pins_eq]; simp only []
    rw [modes_after_append, modes_after_append, modes_after_clear_events,
      modes_after_clear_events]
    by_cases hq : ∃ i, i < LEDs ∧ q = pin i <;> simp [hq]

theorem clear_pins_switches_the_map_off_witness :
    ((0 < LEDs) ∧ (∀ i, i < LEDs → 6 ≠ pin i)) ∧
    (modes_after (fun _ => PinMode.INPUT) (clear_pins World.start).trace (pin 0) = .OUTPUT ∧
      levels_after (fun _ => Level.LOW) (clear_pins World.start).trace (pin 0) = .HIGH) ∧
    levels_after (fun _ => Level.LOW) (clear_pins World.start).trace 6 = .LOW := by
  have hp : ∀ i, i < LEDs → 6 ≠ pin i := by decide
  have h := clear_pins_switches_the_map_off (fun _ => Level.LOW) (fun _ => PinMode.INPUT)
    World.start 0 (by decide) 6 hp
  exact ⟨⟨by decide, hp⟩, h.1, h.2.1.1⟩

/-- C14: in every run of `connect_socket`, whatever the system answers, at
every point of its calls at most one of the sockets it created is open, and
each `socket` call is made when none is (the socket of a failed candidate was
closed before); when it comes back exactly the socket of the successful
`connect` is open, and none if no `connect` succeeded; when it ends the
process none is open. -/
theorem connect_socket_keeps_at_most_one_socket_open (env : Env) (address : List Char)
    (port : Int) (w : World) :
    ∃ new, (connect_socket env address port w).world.trace = w.trace ++ new ∧
      one_at_a_time new ∧
      ((connect_socket env address port w).status = none →
        ((∃ c ∈ connect_calls new, c.2.2 = 0) →
            open_fds new = [(connect_socket env address port w).world.file_descriptor]) ∧
        ((∀ c ∈ connect_calls new, c.2.2 ≠ 0) → open_fds new = [])) ∧
      ((connect_socket env address port w).status = some 1 → open_fds new = []) := by
  obtain ⟨new, hnew, htidy, _, hexit, hdone, _⟩ := connect_socket_tidy env address port w
  exact ⟨new, hnew, one_at_a_time_of_tidy new htidy, hdone, hexit⟩

theorem connect_socket_keeps_at_most_one_socket_open_witness :
    ∃ new, (connect_socket (env_of 0 [cand_A, cand_B, cand_C]) "example.org".toList 80
        World.start).world.trace = World.start.trace ++ new ∧
      one_at_a_time new ∧ open_fds new = [3] := by
  obtain ⟨new, h1, h2, h3, _⟩ := connect_socket_keeps_at_most_one_socket_open
    (env_of 0 [cand_A, cand_B, cand_C]) "example.org".toList 80 World.start
  have hst : (connect_socket (env_of 0 [cand_A, cand_B, cand_C]) "example.org".toList 80
      World.start).status = none := by decide
  have hnew : new = (connect_socket (env_of 0 [cand_A, cand_B, cand_C]) "example.org".toList 80
      World.start).world.trace := by
    rw [h1]; rfl
  refine ⟨new, h1, h2, ?_⟩
  have h4 := (h3 hst).1 (by
    rw [hnew]
    exact ⟨(3, 2, 0), by decide, rfl⟩)
  rw [h4]
  decide

set_option maxRecDepth 200000 in
/-- C15 (counterexample): a run that connects to `cand_B`, receives once, and
whose second `recv` fails: the process ends with status 1 and no `close` was
ever called, so the connection was not closed by the program. -/
theorem connection_left_open_on_failed_receive :
    connect_calls (main env_recv_fails "example.org".toList 3).world.trace
        = [cand_B.attempt] ∧
    (main env_recv_fails "example.org".toList 3).status = some 1 ∧
    close_calls (main env_recv_fails "example.org".toList 3).world.trace = [] ∧
    open_fds (main env_recv_fails "example.org".toList 3).world.trace = [3] := by
  refine ⟨by decide, by decide, by decide, by decide⟩

/-- C15 (amended): in every run of `main` in which the candidates before `a`
fail to connect and `a` connects, either no `send` or `recv` fails, the
process ends with status 0 and the connection's descriptor was closed exactly
once, by the `close` after the read loop, leaving none open; or a `send` or
`recv` reported a negative result, the process ends with status 1 and the
connection was never closed by the program. -/
theorem main_closes_connection_only_when_nothing_fails (env : Env)
    (target_address : List Char) (n : Int) (pre post : List addrinfo) (a : addrinfo)
    (hdns : env.getaddrinfo_ret = 0) (hl : env.server_info = pre ++ a :: post)
    (hpre : ∀ x ∈ pre, x.socket_ret ≠ -1 ∧ x.connect_ret ≠ 0)
    (hs : a.socket_ret ≠ -1) (hc : a.connect_ret = 0) :
    ((main env target_address n).status = some 0 ∧
      close_calls (main env target_address n).world.trace
        = pre.map (fun x => x.socket_ret) ++ [a.socket_ret] ∧
      open_fds (main env target_address n).world.trace = [] ∧
      ∀ e ∈ (main env target_address n).world.trace, e.failed_transfer = false) ∨
    ((main env target_address n).status = some 1 ∧
      close_calls (main env target_address n).world.trace
        = pre.map (fun x => x.socket_ret) ∧
      open_fds (main env target_address n).world.trace = [a.socket_ret] ∧
      ∃ e ∈ (main env target_address n).world.trace, e.failed_transfer = true) := by
  have hobs := connected_events_obs env target_address 80 pre a hpre hs
  have hsq := main_setup_events_quiet target_address
  have hw : (⟨main_setup_events target_address
        ++ (dns_call_events env target_address 80 ++ dns_show_events env.server_info)
        ++ pre.flatMap failed_events ++ success_events a ++ [Event.freeaddrinfo],
          a.socket_ret⟩ : World)
      = ⟨main_setup_events target_address ++ connected_events env target_address 80 pre a,
          a.socket_ret⟩ := by
    simp [connected_events, List.append_assoc]
  have hmain : main env target_address n = main_connected env target_address n
      ⟨main_setup_events target_address ++ connected_events env target_address 80 pre a,
        a.socket_ret⟩ := by
    rw [main_eq, connect_socket_first_success env target_address 80 _ pre post a hdns hl hpre hs hc]
    simp only []
    rw [hw]
  obtain ⟨new, hnew, _, hcases⟩ := main_connected_general env target_address n
    ⟨main_setup_events target_address ++ connected_events env target_address 80 pre a,
      a.socket_ret⟩
  rw [hmain, hnew]
  simp only [close_calls_append, close_calls_quiet _ hsq, hobs.1, open_fds, List.foldl_append,
    open_step_quiet _ hsq, hobs.2, List.nil_append]
  rcases hcases with ⟨hst, hclose, hopen, hall⟩ | ⟨hst, hclose, hopen, hex⟩
  · refine Or.inl ⟨hst, by rw [hclose], by rw [hopen]; simp, ?_⟩
    intro e he
    simp only [List.mem_append] at he
    rcases he with (he | he) | he
    · exact failed_transfer_of_quiet e (hsq e he)
    · exact connected_events_no_transfer env target_address 80 pre a e he
    · exact hall e he
  · refine Or.inr ⟨hst, by rw [hclose]; simp, by rw [hopen], ?_⟩
    obtain ⟨e, he, hf⟩ := hex
    exact ⟨e, List.mem_append_right _ he, hf⟩

theorem main_closes_connection_only_when_nothing_fails_witness :
    ((env_of 0 [cand_A, cand_B]).getaddrinfo_ret = 0 ∧
      (env_of 0 [cand_A, cand_B]).server_info = [cand_A] ++ cand_B :: [] ∧
      (∀ x ∈ [cand_A], x.socket_ret ≠ -1 ∧ x.connect_ret ≠ 0) ∧
      cand_B.socket_ret ≠ -1 ∧ cand_B.connect_ret = 0) ∧
    (((main (env_of 0 [cand_A, cand_B]) "example.org".toList 1).status = some 0 ∧
      close_calls (main (env_of 0 [cand_A, cand_B]) "example.org".toList 1).world.trace
        = [cand_A].map (fun x => x.socket_ret) ++ [cand_B.socket_ret] ∧
      open_fds (main (env_of 0 [cand_A, cand_B]) "example.org".toList 1).world.trace = [] ∧
      ∀ e ∈ (main (env_of 0 [cand_A, cand_B]) "example.org".toList 1).world.trace,
        e.failed_transfer = false) ∨
    ((main (env_of 0 [cand_A, cand_B]) "example.org".toList 1).status = some 1 ∧
      close_calls (main (env_of 0 [cand_A, cand_B]) "example.org".toList 1).world.trace
        = [cand_A].map (fun x => x.socket_ret) ∧
      open_fds (main (env_of 0 [cand_A, cand_B]) "example.org".toList 1).world.trace
        = [cand_B.socket_ret] ∧
      ∃ e ∈ (main (env_of 0 [cand_A, cand_B]) "example.org".toList 1).world.trace,
        e.failed_transfer = true)) :=
  ⟨⟨rfl, rfl, by decide, by decide, rfl⟩,
    main_closes_connection_only_when_nothing_fails (env_of 0 [cand_A, cand_B])
      "example.org".toList 1 [cand_A] [] cand_B rfl rfl (by decide) (by decide) rfl⟩

/-- C16: when the flag is seen set before bytes `0..k-1` of `s` and cleared
before byte `k` (if `k < length s`), `gpio_write_string s` calls `delay`
exactly `k` times, each with `delaymils = 100`, once at the end of the calls
for each rendered byte; the total is `100 * k`, and `k = length s` when the
flag is never seen cleared. -/
theorem gpio_write_string_delays_once_per_byte (running : Nat → Bool) (s : List Char)
    (w : World) (k : Nat) (hk : k ≤ s.length) (hset : ∀ i, i < k → running i = true)
    (hclr : k < s.length → running k = false) :
    delay_calls (gpio_write_string running s w).trace
        = delay_calls w.trace ++ List.replicate k 100 ∧
    (List.replicate k 100).sum = 100 * k ∧
    (gpio_write_string running s w).trace = w.trace ++
        ([.cout ("Writing this string: ".toList ++ s ++ "\n".toList)]
          ++ rendered 0 (s.take k)) ∧
    (∀ c ch, (render_events c ch).getLast? = some (Event.delay 100) ∧
        delay_calls (render_events c ch) = [100]) ∧
    ((∀ c, running c = true) → k = s.length) := by
  have heq := gpio_write_string_eq running s w k hk hset hclr
  refine ⟨?_, sum_replicate_delay k, by rw [heq], ?_, ?_⟩
  · rw [heq]
    simp only []
    rw [delay_calls_append, delay_calls_append, delay_calls_rendered]
    have hlen : (s.take k).length = k := by simp [hk]
    rw [hlen]
    simp [delay_calls, delaymils]
  · intro c ch
    refine ⟨?_, delay_calls_render_events c ch⟩
    unfold render_events
    rw [List.getLast?_append]
    simp [delaymils]
  · intro hall
    by_contra hne
    have hlt : k < s.length := by omega
    have h1 := hclr hlt
    rw [hall k] at h1
    exact absurd h1 (by simp)

theorem gpio_write_string_delays_once_per_byte_witness :
    ((2 ≤ "Hi".toList.length) ∧ (∀ i, i < 2 → (fun _ => true) i = true) ∧
      (2 < "Hi".toList.length → (fun _ => true) 2 = false)) ∧
    delay_calls (gpio_write_string (fun _ => true) "Hi".toList World.start).trace
        = [100, 100] ∧
    (List.replicate 2 100).sum = 100 * 2 := by
  have h := gpio_write_string_delays_once_per_byte (fun _ => true) "Hi".toList World.start 2
    (by decide) (fun _ _ => rfl) (fun hh => absurd hh (by decide))
  exact ⟨⟨by decide, fun _ _ => rfl, fun hh => absurd hh (by decide)⟩, by simpa using h.1, h.2.1⟩

/-- C17 (counterexample): `gpio_write 1` turns on the channel at map index 8,
which is not among the indices 12 through 19. -/
theorem gpio_write_lights_index_8 :
    levels_after (fun _ => Level.HIGH) (gpio_write 1 World.start).trace (pin 8) = .LOW ∧
      ¬ (12 ≤ 8 ∧ 8 ≤ 19) := by
  decide

/-- C17 (amended): for every byte, the channels `gpio_write` turns on are all
at indices 1 through 8 of the 20-slot map (the indices `8 - c` of `pins[8-c]`
for `c` in 0..7); no channel at any other map index is turned on, and every
`LOW` write of the bit loop names such a pin. -/
theorem gpio_write_lights_only_indices_1_to_8 (lv : Nat → Level) (w : World) (b j : Nat)
    (hj : j < LEDs) (hon : levels_after lv (gpio_write b w).trace (pin j) = .LOW) :
    (1 ≤ j ∧ j ≤ 8) ∧
    (gpio_write b w).trace = (clear_pins w).trace ++ bit_events b ∧
    ∀ e ∈ bit_events b, ∃ c, c < 8 ∧ e = Event.digitalWrite (pin (8 - c)) .LOW := by
  have h := (gpio_write_level_iff lv w b j hj).1.1 hon
  refine ⟨⟨h.1, h.2.1⟩, (gpio_write_clears_first lv w b j hj).1, ?_⟩
  intro e he
  obtain ⟨q, rfl⟩ := bit_events_lows b e he
  obtain ⟨c, hc, _, hq⟩ := (mem_bit_events b q).1 he
  exact ⟨c, hc, by rw [hq]⟩

theorem gpio_write_lights_only_indices_1_to_8_witness :
    ((8 < LEDs) ∧
      levels_after (fun _ => Level.HIGH) (gpio_write 1 World.start).trace (pin 8) = .LOW) ∧
    (1 ≤ 8 ∧ 8 ≤ 8) :=
  ⟨⟨by decide, by decide⟩,
    (gpio_write_lights_only_indices_1_to_8 (fun _ => Level.HIGH) World.start 1 8
      (by decide) (by decide)).1⟩

/-- C18 (counterexample): `gpio_write 3` leaves two channels on. -/
theorem gpio_write_3_lights_two_channels :
    (pattern (levels_after (fun _ => Level.HIGH) (gpio_write 3 World.start).trace)).count true
      = 2 := by
  decide

/-- C18 (amended): for every byte value `b`, one call of `gpio_write` leaves
exactly as many channels on as `b` has set bits among bits 0..7, hence at most
eight; each step of the bit loop makes at most one write, and all 20 channels
were forced off by `clear_pins` before any bit is set. -/
theorem gpio_write_lights_one_channel_per_set_bit (lv : Nat → Level) (w : World) (b : Nat) :
    (pattern (levels_after lv (gpio_write b w).trace)).count true = set_bits b ∧
    set_bits b ≤ 8 ∧
    (∀ (w1 : World) (c : Nat),
      (gpio_write_step b w1 c).trace = w1.trace ∨
      (gpio_write_step b w1 c).trace = w1.trace ++ [Event.digitalWrite (pin (8 - c)) .LOW]) ∧
    (gpio_write b w).trace = (clear_pins w).trace ++ bit_events b ∧
    (∀ j, j < LEDs → levels_after lv (clear_pins w).trace (pin j) = .HIGH) := by
  refine ⟨count_on_after_gpio_write lv w b, set_bits_le b, ?_,
    (gpio_write_clears_first lv w b 0 (by decide)).1,
    fun j hj => (gpio_write_clears_first lv w b j hj).2⟩
  intro w1 c
  unfold gpio_write_step
  by_cases hm : b &&& ((2 ^ c) % 256) ≠ 0
  · right; simp [hm, digitalWrite, emit]
  · left; simp [hm]

end Socket

namespace DisplayPost

theorem starts_with_iff (s needle : List Char) :
    starts_with s needle = true ↔ ∃ t, s = needle ++ t := by
  induction needle generalizing s with
  | nil => simp [starts_with]
  | cons y needle ih =>
    cases s with
    | nil => simp [starts_with]
    | cons x s =>
      simp only [starts_with, Bool.and_eq_true, beq_iff_eq, ih, List.cons_append,
        List.cons.injEq]
      constructor
      · rintro ⟨rfl, t, rfl⟩; exact ⟨t, rfl, rfl⟩
      · rintro ⟨t, rfl, rfl⟩; exact ⟨rfl, t, rfl⟩

/-- Where `find` answers when `needle` stands in `s` after `pre` and nowhere
earlier. -/
theorem find_first (needle : List Char) (pre post s : List Char)
    (hs : s = pre ++ needle ++ post)
    (hfirst : ∀ pre2 post2, s = pre2 ++ needle ++ post2 → pre.length ≤ pre2.length) :
    find s needle = some pre.length := by
  induction pre generalizing s with
  | nil =>
    have hst : starts_with s needle = true :=
      (starts_with_iff s needle).2 ⟨post, by simpa using hs⟩
    cases s with
    | nil => simp [find, hst]
    | cons x s => simp [find, hst]
  | cons x pre ih =>
    subst hs
    have hnot : starts_with (x :: pre ++ needle ++ post) needle = false := by
      cases h : starts_with (x :: pre ++ needle ++ post) needle with
      | false => rfl
      | true =>
        obtain ⟨t, ht⟩ := (starts_with_iff _ _).1 h
        have := hfirst [] t (by simpa using ht)
        simp at this
    have ih2 := ih (pre ++ needle ++ post) rfl (by
      intro pre2 post2 h2
      have := hfirst (x :: pre2) post2 (by simp [h2])
      simpa using this)
    simp only [List.cons_append, List.append_assoc] at hnot ih2 ⊢
    simp [find, hnot, ih2]

theorem find_none_iff (needle s : List Char) :
    find s needle = none ↔ ¬ ∃ pre post, s = pre ++ needle ++ post := by
  induction s with
  | nil =>
    constructor
    · intro h
      rintro ⟨pre, post, hpp⟩
      have hn : needle = [] := by
        have := congrArg List.length hpp
        simp at this
        exact List.eq_nil_of_length_eq_zero (by omega)
      subst hn
      simp [find, starts_with] at h
    · intro h
      cases needle with
      | nil => exact absurd ⟨[], [], rfl⟩ h
      | cons y needle => simp [find, starts_with]
  | cons x s ih =>
    constructor
    · intro h
      rintro ⟨pre, post, hpp⟩
      cases hst : starts_with (x :: s) needle with
      | true => simp [find, hst] at h
      | false =>
        simp only [find, hst, Bool.false_eq_true, if_false, Option.map_eq_none'] at h
        cases pre with
        | nil =>
          have := (starts_with_iff (x :: s) needle).2 ⟨post, by simpa using hpp⟩
          rw [hst] at this
          exact absurd this (by simp)
        | cons z pre =>
          simp only [List.cons_append, List.cons.injEq] at hpp
          exact (ih.1 h) ⟨pre, post, hpp.2⟩
    · intro h
      have hst : starts_with (x :: s) needle = false := by
        cases hh : starts_with (x :: s) needle with
        | false => rfl
        | true =>
          obtain ⟨t, ht⟩ := (starts_with_iff _ _).1 hh
          exact absurd ⟨[], t, by simpa using ht⟩ h
      simp only [find, hst, Bool.false_eq_true, if_false, Option.map_eq_none']
      apply ih.2
      rintro ⟨pre, post, hpp⟩
      exact h ⟨x :: pre, post, by simp [hpp]⟩

theorem plus_to_space_eq (t : List Char) : plus_to_space t = spaces_for_plus t := by
  induction t with
  | nil => rfl
  | cons ch rest ih =>
    unfold spaces_for_plus at ih ⊢
    simp only [plus_to_space, List.map_cons, ih]

theorem plus_loop_result (t : List Char) :
    (plus_to_space (t ++ [Char.ofNat 0])).dropLast = spaces_for_plus t := by
  rw [plus_to_space_eq]
  unfold spaces_for_plus
  rw [List.map_append]
  simp

/-- C19: when `f ++ "="` stands in `s` after `pre`, followed by `post`, and
nowhere earlier, `parse_cgi s f` is `pre ++ post` with every `'+'` turned into
a space; when `f` does not occur in `s`, it is `s` with every `'+'` turned
into a space.  Other characters and the order are kept. -/
theorem parse_cgi_removes_field_and_plus (s f : List Char) :
    (∀ pre post, s = pre ++ (f ++ "=".toList) ++ post →
      (∀ pre2 post2, s = pre2 ++ (f ++ "=".toList) ++ post2 → pre.length ≤ pre2.length) →
      parse_cgi s f = some (spaces_for_plus (pre ++ post))) ∧
    ((¬ ∃ pre post, s = pre ++ f ++ post) → parse_cgi s f = some (spaces_for_plus s)) ∧
    (∀ t, spaces_for_plus t = t.map (fun ch => if ch = '+' then ' ' else ch)) := by
  refine ⟨?_, ?_, fun _ => rfl⟩
  · intro pre post hs hfirst
    have hfound : find s f ≠ none := by
      intro hn
      exact (find_none_iff f s).1 hn ⟨pre, "=".toList ++ post, by simp [hs, List.append_assoc]⟩
    have hpos := find_first (f ++ "=".toList) pre post s hs hfirst
    unfold parse_cgi
    simp only [hfound, ne_eq, not_false_eq_true, if_true, hpos, replace_with_nothing]
    have hlen : ¬ pre.length > s.length := by
      rw [hs]; simp
    have htake : s.take pre.length ++ s.drop (pre.length + (f.length + 1)) = pre ++ post := by
      rw [hs]
      have h1 : (pre ++ (f ++ "=".toList) ++ post).take pre.length = pre := by
        rw [List.append_assoc, List.take_left']
        rfl
      have h2 : (pre ++ (f ++ "=".toList) ++ post).drop (pre.length + (f.length + 1)) = post := by
        have hl : (pre ++ (f ++ "=".toList)).length = pre.length + (f.length + 1) := by simp
        rw [← hl, List.drop_left']
        rfl
      rw [h1, h2]
    simp only [hlen, if_false, htake, plus_loop_result]
  · intro hno
    have hn := (find_none_iff f s).2 hno
    unfold parse_cgi
    simp [hn, plus_loop_result]

theorem parse_cgi_removes_field_and_plus_witness :
    parse_cgi "in_text=hello+world".toList "in_text".toList = some "hello world".toList := by
  have h := (parse_cgi_removes_field_and_plus "in_text=hello+world".toList "in_text".toList).1
    [] "hello+world".toList (by decide) (fun _ _ _ => Nat.zero_le _)
  rw [h]
  decide

end DisplayPost

namespace TicTac

theorem bool_add_eq_or (x y : Bool) : bool_add x y = (x || y) := by
  cases x <;> cases y <;> rfl

theorem check_across_iff (b : Board) (row : Int) (p : Char) :
    check_across b row p = true ↔ (b row 0 = p ∧ b row 1 = p ∧ b row 2 = p) := by
  unfold check_across
  simp only [check_across_loop]
  by_cases h0 : b row 0 = p <;> by_cases h1 : b row 1 = p <;> by_cases h2 : b row 2 = p <;>
    simp [h0, h1, h2]

theorem check_vert_iff (b : Board) (col : Int) (p : Char) :
    check_vert b col p = true ↔ (b 0 col = p ∧ b 1 col = p ∧ b 2 col = p) := by
  unfold check_vert
  simp only [check_vert_loop]
  by_cases h0 : b 0 col = p <;> by_cases h1 : b 1 col = p <;> by_cases h2 : b 2 col = p <;>
    simp [h0, h1, h2]

theorem check_diag_down_iff (b : Board) (p : Char) :
    check_diag b false p = true ↔ (b 0 0 = p ∧ b 1 1 = p ∧ b 2 2 = p) := by
  unfold check_diag
  simp only [check_diag_down_loop]
  by_cases h0 : b 0 0 = p <;> by_cases h1 : b 1 1 = p <;> by_cases h2 : b 2 2 = p <;>
    simp [h0, h1, h2]

theorem check_diag_up_iff (b : Board) (p : Char) :
    check_diag b true p = true ↔ (b 2 0 = p ∧ b 1 1 = p ∧ b 0 2 = p) := by
  unfold check_diag
  simp only [check_diag_up_loop]
  by_cases h0 : b 2 0 = p <;> by_cases h1 : b 1 1 = p <;> by_cases h2 : b 0 2 = p <;>
    simp [h0, h1, h2]

/-- C20: `win_check p` returns true exactly when one of the 8 lines (the
rows 0..2, the columns 0..2, the main diagonal, the anti-diagonal) has its
three cells equal to `p`; `won+=x` on `bool` is the logical or; the board is
left as it was. -/
theorem win_check_true_iff_a_line_is_full (b : Board) (p : Char) :
    ((win_check b p).won = true ↔
      ((b 0 0 = p ∧ b 0 1 = p ∧ b 0 2 = p) ∨ (b 1 0 = p ∧ b 1 1 = p ∧ b 1 2 = p) ∨
       (b 2 0 = p ∧ b 2 1 = p ∧ b 2 2 = p) ∨
       (b 0 0 = p ∧ b 1 0 = p ∧ b 2 0 = p) ∨ (b 0 1 = p ∧ b 1 1 = p ∧ b 2 1 = p) ∨
       (b 0 2 = p ∧ b 1 2 = p ∧ b 2 2 = p) ∨
       (b 0 0 = p ∧ b 1 1 = p ∧ b 2 2 = p) ∨ (b 2 0 = p ∧ b 1 1 = p ∧ b 0 2 = p))) ∧
    (∀ x y, bool_add x y = (x || y)) ∧
    (win_check b p).board = b := by
  have key : ∀ A0 V0 A1 V1 A2 V2 D U : Prop,
      ((((((((A0 ∨ V0) ∨ A1) ∨ V1) ∨ A2) ∨ V2) ∨ D) ∨ U) ↔
        (A0 ∨ A1 ∨ A2 ∨ V0 ∨ V1 ∨ V2 ∨ D ∨ U)) := by
    intro A0 V0 A1 V1 A2 V2 D U
    tauto
  have e1 : (0 : Int) + 1 = 1 := rfl
  have e2 : (1 : Int) + 1 = 2 := rfl
  have h : (win_check b p).won =
      (((((((check_across b 0 p || check_vert b 0 p) || check_across b 1 p) || check_vert b 1 p)
        || check_across b 2 p) || check_vert b 2 p) || check_diag b false p)
        || check_diag b true p) := by
    simp only [win_check, win_check_loop, bool_add_eq_or, Bool.false_or, e1, e2]
  refine ⟨?_, bool_add_eq_or, rfl⟩
  rw [h]
  simp only [Bool.or_eq_true, check_across_iff, check_vert_iff, check_diag_down_iff,
    check_diag_up_iff]
  exact key _ _ _ _ _ _ _ _

theorem win_check_true_iff_a_line_is_full_witness :
    (win_check board_middle_row 'X').won = true ∧
      (win_check board_middle_row 'X').board = board_middle_row :=
  ⟨(win_check_true_iff_a_line_is_full board_middle_row 'X').1.2
      (Or.inr (Or.inl ⟨by decide, by decide, by decide⟩)),
    (win_check_true_iff_a_line_is_full board_middle_row 'X').2.2⟩

end TicTac

namespace Larson

/-! ## The Larson scanners -/

/-- While the flag is set for `n` tests and then clear, `scan_loop` makes
the calls of `n` passes, the first without the low-to-high sweep when
`localstart_low` is false, and returns. -/
theorem scan_loop_eq (running : Nat → Bool) (localzero localLEDs : Int) (n : Nat) :
    ∀ (fuel k : Nat) (localstart_low : Bool),
      (∀ j, j < n → running (k + j) = true) → running (k + n) = false → n < fuel →
      scan_loop running localzero localLEDs fuel k localstart_low =
        ((List.range n).flatMap (fun j =>
            (if j = 0 ∧ localstart_low = false then [] else up_sweep localzero localLEDs)
              ++ down_sweep localzero localLEDs), true) := by
  induction n with
  | zero =>
    intro fuel k lsl _ hstop hfuel
    obtain ⟨f, rfl⟩ : ∃ f, fuel = f + 1 := ⟨fuel - 1, by omega⟩
    simp only [Nat.add_zero] at hstop
    simp [scan_loop, hstop]
  | succ n ih =>
    intro fuel k lsl hrun hstop hfuel
    obtain ⟨f, rfl⟩ : ∃ f, fuel = f + 1 := ⟨fuel - 1, by omega⟩
    have h0 : running k = true := by simpa using hrun 0 (by omega)
    have ih2 := ih f (k + 1) true
      (fun j hj => by have := hrun (j + 1) (by omega); rwa [show k + 1 + j = k + (j + 1) by omega])
      (by rwa [show k + 1 + n = k + (n + 1) by omega]) (by omega)
    simp only [scan_loop, h0, Bool.not_true, Bool.false_eq_true, if_false, ih2]
    rw [List.range_succ_eq_map, List.flatMap_cons, List.flatMap_map]
    cases lsl <;> simp [Function.comp_def]

/-- Every subscript used by the low-to-high sweep is one of the instance's
own: `localzero ≤ i < localLEDs`. -/
theorem up_sweep_loop_subscripts (localzero localLEDs : Int) :
    ∀ (fuel : Nat) (c : Int), localzero ≤ c →
      ∀ i ∈ subscripts (up_sweep_loop localzero localLEDs fuel c),
        localzero ≤ i ∧ i < localLEDs := by
  intro fuel
  induction fuel with
  | zero => intro c _ i hi; simp [up_sweep_loop, subscripts] at hi
  | succ f ih =>
    intro c hc i hi
    unfold up_sweep_loop at hi
    by_cases h1 : c < localLEDs
    · by_cases h2 : c > localzero
      · simp only [h1, h2, if_true, subscripts, List.filterMap_append, List.filterMap_cons,
          List.filterMap_nil, List.mem_append, List.mem_cons,
          List.cons_append, List.nil_append, List.not_mem_nil, or_false] at hi
        rcases hi with hi | hi | hi
        · omega
        · omega
        · exact ih (c + 1) (by omega) i hi
      · simp only [h1, h2, if_true, if_false, subscripts, List.filterMap_append,
          List.filterMap_cons, List.filterMap_nil, List.mem_append, List.mem_cons,
          List.cons_append, List.nil_append, List.append_nil, List.not_mem_nil, or_false] at hi
        rcases hi with hi | hi
        · omega
        · exact ih (c + 1) (by omega) i hi
    · simp [h1, subscripts] at hi

/-- Every subscript used by the high-to-low sweep lies in
`localzero ≤ i ≤ localLEDs`: the upper bound is not strict. -/
theorem down_sweep_loop_subscripts (localzero localLEDs : Int) :
    ∀ (fuel : Nat) (c : Int), c < localLEDs →
      ∀ i ∈ subscripts (down_sweep_loop localzero localLEDs fuel c),
        localzero ≤ i ∧ i ≤ localLEDs := by
  intro fuel
  induction fuel with
  | zero => intro c _ i hi; simp [down_sweep_loop, subscripts] at hi
  | succ f ih =>
    intro c hc i hi
    unfold down_sweep_loop at hi
    by_cases h1 : c ≥ localzero
    · simp only [h1, hc, if_true, subscripts, List.filterMap_append, List.filterMap_cons,
        List.filterMap_nil, List.mem_append, List.mem_cons,
        List.cons_append, List.nil_append, List.not_mem_nil, or_false] at hi
      rcases hi with hi | hi | hi
      · omega
      · omega
      · exact ih (c - 1) (by omega) i hi
    · simp [h1, subscripts] at hi

/-- Every subscript used by `scan_loop` lies in `localzero ≤ i ≤ localLEDs`. -/
theorem scan_loop_subscripts (running : Nat → Bool) (localzero localLEDs : Int) :
    ∀ (fuel k : Nat) (localstart_low : Bool),
      ∀ i ∈ subscripts (scan_loop running localzero localLEDs fuel k localstart_low).1,
        localzero ≤ i ∧ i ≤ localLEDs := by
  intro fuel
  induction fuel with
  | zero => intro k lsl i hi; simp [scan_loop, subscripts] at hi
  | succ f ih =>
    intro k lsl i hi
    unfold scan_loop at hi
    by_cases hr : running k = true
    · simp only [hr, Bool.not_true, Bool.false_eq_true, if_false] at hi
      unfold subscripts at hi
      rw [List.filterMap_append, List.filterMap_append] at hi
      rcases List.mem_append.1 hi with hi | hi
      · rcases List.mem_append.1 hi with hi | hi
        · cases lsl
          · simp at hi
          · have := up_sweep_loop_subscripts localzero localLEDs _ localzero (le_refl _) i
              (by simpa [up_sweep, subscripts] using hi)
            omega
        · exact down_sweep_loop_subscripts localzero localLEDs _ (localLEDs - 1) (by omega) i
            (by simpa [down_sweep, subscripts] using hi)
      · exact ih (k + 1) true i hi
    · simp [hr, subscripts] at hi

/-- Every subscript used by `scan` of the multiprocess demo lies between
`localzero` and `localLEDs`, both included. -/
theorem scan_subscripts (low_order_LEDs start_low : Bool) (running : Nat → Bool) (fuel : Nat) :
    ∀ i ∈ subscripts (scan low_order_LEDs start_low running fuel).1,
      localzero_of low_order_LEDs ≤ i ∧ i ≤ localLEDs_of low_order_LEDs :=
  scan_loop_subscripts running _ _ fuel 0 start_low

end Larson
namespace Larson

/-! ## Claims on the Larson scanners -/

/-- C23 (fails): the instance of `scan` for the low half (`localzero = 0`,
`localLEDs = 10`) does not keep its writes below `localLEDs`.  Its
high-to-low sweep begins `digitalWrite(pins[9],LOW)`, `delay(40)`,
`digitalWrite(pins[10],HIGH)`: the guard `if (c<localLEDs)` holds for every
`c` of the loop, so the first step switches the LED with index 10, the
lowest LED of the other eye.  The same calls are made by `scan` of the
thread demos. -/
theorem scan_low_half_switches_index_10 :
    (scan true false (fun k => decide (k = 0)) 2).1.take 3 =
        [Call.write 9 .LOW, Call.delay 40, Call.write 10 .HIGH] ∧
      Call.write 10 .HIGH ∈ (scan true false (fun k => decide (k = 0)) 2).1 ∧
      Call.write 10 .HIGH ∈ (scan true true (fun k => decide (k = 0)) 2).1 ∧
      Call.write 10 .HIGH ∈ (scan_thread true false (fun _ => some false) 2).1 ∧
      localzero_of true = 0 ∧ localLEDs_of true = 10 ∧
      localzero_of false = 10 := by
  decide

/-- C24: in a run of `scan` of the multiprocess demo in which the flag
`running` is set at the first `n` tests and clear at the next, the function
returns after exactly `n` passes, pass `k` making the calls `pass_calls k`:
with `start_low = false` pass 0 is the high-to-low sweep alone and every
later pass is the low-to-high sweep followed by the high-to-low sweep; with
`start_low = true` every pass, pass 0 included, is both sweeps in that
order.  The low-to-high sweep starts at `localzero`, the high-to-low sweep
at `localLEDs - 1`. -/
theorem scan_start_low_affects_only_first_pass (low_order_LEDs start_low : Bool)
    (running : Nat → Bool) (n fuel : Nat)
    (hrun : ∀ j, j < n → running j = true) (hstop : running n = false) (hfuel : n < fuel) :
    scan low_order_LEDs start_low running fuel =
        ((List.range n).flatMap (pass_calls low_order_LEDs start_low), true) ∧
      pass_calls low_order_LEDs false 0 =
        down_sweep (localzero_of low_order_LEDs) (localLEDs_of low_order_LEDs) ∧
      (∀ k, 0 < k → pass_calls low_order_LEDs false k =
        up_sweep (localzero_of low_order_LEDs) (localLEDs_of low_order_LEDs)
          ++ down_sweep (localzero_of low_order_LEDs) (localLEDs_of low_order_LEDs)) ∧
      (∀ k, pass_calls low_order_LEDs true k =
        up_sweep (localzero_of low_order_LEDs) (localLEDs_of low_order_LEDs)
          ++ down_sweep (localzero_of low_order_LEDs) (localLEDs_of low_order_LEDs)) ∧
      (up_sweep (localzero_of low_order_LEDs) (localLEDs_of low_order_LEDs)).head? =
        some (Call.write (localzero_of low_order_LEDs) .LOW) ∧
      (down_sweep (localzero_of low_order_LEDs) (localLEDs_of low_order_LEDs)).head? =
        some (Call.write (localLEDs_of low_order_LEDs - 1) .LOW) := by
  refine ⟨?_, ?_, ?_, ?_, ?_, ?_⟩
  · unfold scan
    rw [scan_loop_eq running _ _ n fuel 0 start_low
      (fun j hj => by simpa using hrun j hj) (by simpa using hstop) hfuel]
    rfl
  · simp [pass_calls]
  · intro k hk
    have : k ≠ 0 := by omega
    simp [pass_calls, this]
  · intro k
    simp [pass_calls]
  · cases low_order_LEDs <;> decide
  · cases low_order_LEDs <;> decide

theorem scan_start_low_affects_only_first_pass_witness :
    (∀ j, j < 2 → (fun k => decide (k < 2)) j = true) ∧
      (fun k => decide (k < 2)) 2 = false ∧ 2 < 3 ∧
      scan true false (fun k => decide (k < 2)) 3 =
        (down_sweep 0 10 ++ (up_sweep 0 10 ++ down_sweep 0 10), true) :=
  ⟨by decide, by decide, by decide,
    ((scan_start_low_affects_only_first_pass true false (fun k => decide (k < 2)) 2 3
      (by decide) (by decide) (by decide)).1).trans (by decide)⟩

/-- C27 (fails): the high-to-low sweep uses the subscript 20 on the
20-element array `pins`.  In `main` of the two button demos and in the
instance of `scan` for the high half (`localLEDs = 20`) the sweep begins
`digitalWrite(pins[19],LOW)`, `delay(40)`, `digitalWrite(pins[20],HIGH)`:
the guard `if (c<LEDs)` holds for every `c` of the loop, and `pins[20]` is
not an element of the array. -/
theorem down_sweep_reads_pins_at_20 :
    (down_sweep 0 LEDs).take 3 = [Call.write 19 .LOW, Call.delay 40, Call.write 20 .HIGH] ∧
      (20 : Int) ∈ subscripts button_pass ∧
      (down_sweep (localzero_of false) (localLEDs_of false)).take 3 =
        [Call.write 19 .LOW, Call.delay 40, Call.write 20 .HIGH] ∧
      (20 : Int) ∈ subscripts (scan false true (fun k => decide (k = 0)) 2).1 ∧
      (20 : Int) ∈ subscripts (scan_thread false true (fun _ => some false) 2).1 ∧
      pins.length = 20 ∧ pins_at 19 = some 5 ∧ pins_at 20 = none := by
  decide

end Larson
namespace Button

/-! ## The interrupt handler of the button demo -/

/-- C22: with `millis1` and `millis2` the readings of the 32-bit
millisecond counter by the two calls of `millis()` (both are `now` when the
counter does not tick in between) and `elapsed = (millis1 - last) mod 2^32`,
`button_ISR` stores the second reading in `last_time_interrupt_fired`
whether or not the press is counted, and `button_presses` goes up by exactly
1 if `elapsed > 100` and is unchanged otherwise, in particular when
`elapsed = 100`; the counter being an `int` below its largest value. -/
theorem button_ISR_counts_iff_elapsed_exceeds_100 (millis1 millis2 : Int) (s : State)
    (h1 : 0 ≤ millis2) (h2 : millis2 < 4294967296)
    (hlow : -2147483648 ≤ s.button_presses) (hhigh : s.button_presses < 2147483647) :
    (button_ISR millis1 millis2 s).last_time_interrupt_fired = millis2 ∧
      ((button_ISR millis1 millis2 s).button_presses = s.button_presses + 1 ↔
        (millis1 - s.last_time_interrupt_fired) % 4294967296 > 100) ∧
      ((button_ISR millis1 millis2 s).button_presses = s.button_presses ↔
        ¬ (millis1 - s.last_time_interrupt_fired) % 4294967296 > 100) ∧
      ((millis1 - s.last_time_interrupt_fired) % 4294967296 = 100 →
        (button_ISR millis1 millis2 s).button_presses = s.button_presses) := by
  have hm : to_uint32 millis2 = millis2 := by
    unfold to_uint32
    exact Int.emod_eq_of_lt h1 h2
  have hp : to_int32 (s.button_presses + 1) = s.button_presses + 1 := by
    unfold to_int32
    rw [Int.emod_eq_of_lt (by omega) (by omega)]
    omega
  by_cases h : (millis1 - s.last_time_interrupt_fired) % 4294967296 > 100
  · have hb : (button_ISR millis1 millis2 s).button_presses = s.button_presses + 1 := by
      simp only [button_ISR, to_uint32, button_debounce_delay, h, if_true]
      exact hp
    have hl : (button_ISR millis1 millis2 s).last_time_interrupt_fired = millis2 := by
      simp only [button_ISR, to_uint32, button_debounce_delay, h, if_true]
      exact hm
    refine ⟨hl, ⟨fun _ => h, fun _ => hb⟩, ⟨fun e => ?_, fun e => absurd h e⟩, fun e => ?_⟩
    · rw [hb] at e; omega
    · omega
  · have hb : (button_ISR millis1 millis2 s).button_presses = s.button_presses := by
      simp only [button_ISR, to_uint32, button_debounce_delay, h, if_false]
    have hl : (button_ISR millis1 millis2 s).last_time_interrupt_fired = millis2 := by
      simp only [button_ISR, to_uint32, button_debounce_delay, h, if_false]
      exact hm
    refine ⟨hl, ⟨fun e => ?_, fun e => absurd e h⟩, ⟨fun _ => h, fun _ => hb⟩, fun _ => hb⟩
    rw [hb] at e; omega

theorem button_ISR_counts_iff_elapsed_exceeds_100_witness :
    (0 : Int) ≤ 50 ∧ (50 : Int) < 4294967296 ∧
      (-2147483648 : Int) ≤ (State.mk 7 4294967246 []).button_presses ∧
      (State.mk 7 4294967246 []).button_presses < 2147483647 ∧
      (button_ISR 50 50 (State.mk 7 4294967246 [])).last_time_interrupt_fired = 50 ∧
      (button_ISR 50 50 (State.mk 7 4294967246 [])).button_presses = 7 ∧
      (button_ISR 51 51 (State.mk 7 4294967246 [])).button_presses = 8 :=
  ⟨by decide, by decide, by decide, by decide,
    (button_ISR_counts_iff_elapsed_exceeds_100 50 50 (State.mk 7 4294967246 [])
      (by decide) (by decide) (by decide) (by decide)).1,
    (button_ISR_counts_iff_elapsed_exceeds_100 50 50 (State.mk 7 4294967246 [])
      (by decide) (by decide) (by decide) (by decide)).2.2.2 (by decide),
    ((button_ISR_counts_iff_elapsed_exceeds_100 51 51 (State.mk 7 4294967246 [])
      (by decide) (by decide) (by decide) (by decide)).2.1).2 (by decide)⟩

end Button
namespace TicTac

/-! ## Moves and the game loop -/

/-- The board, the flags and the pairs left do not depend on what was
printed before. -/
theorem player_move_loop_out (player : Char) (inputs : List (Int × Int)) :
    ∀ (b : Board) (out : List (List Char)),
      (player_move_loop player inputs b out).board = (player_move_loop player inputs b []).board ∧
      (player_move_loop player inputs b out).valid = (player_move_loop player inputs b []).valid ∧
      (player_move_loop player inputs b out).rest = (player_move_loop player inputs b []).rest ∧
      (player_move_loop player inputs b out).out_of_bounds =
        (player_move_loop player inputs b []).out_of_bounds ∧
      (player_move_loop player inputs b out).printed =
        out ++ (player_move_loop player inputs b []).printed := by
  induction inputs with
  | nil => intro b out; simp [player_move_loop]
  | cons rc rest ih =>
    intro b out
    obtain ⟨row, col⟩ := rc
    cases hread : read_board b row col with
    | none => simp [player_move_loop, hread]
    | some cell =>
      by_cases h : cell = Char.ofNat 0 ∧ row < 3 ∧ col < 3
      · simp [player_move_loop, hread, h]
      · have h1 := ih b (out ++ ["Row: ".toList, "Column: ".toList] ++
          ["Invalid Coordinates. Please try again.\n".toList])
        have h2 := ih b ([] ++ ["Row: ".toList, "Column: ".toList] ++
          ["Invalid Coordinates. Please try again.\n".toList])
        simp only [player_move_loop, hread, h, if_false]
        refine ⟨h1.1.trans h2.1.symm, h1.2.1.trans h2.2.1.symm, h1.2.2.1.trans h2.2.2.1.symm,
          h1.2.2.2.1.trans h2.2.2.2.1.symm, ?_⟩
        rw [h1.2.2.2.2, h2.2.2.2.2]
        simp

/-- What the loop of `player_move` does with a list of pairs: either it does
not return and the board is as it was, or some pair of the list passed the
test, the byte it addresses being one of the nine and empty, and was
written, the pairs after it being left unread. -/
theorem player_move_loop_spec (player : Char) (inputs : List (Int × Int)) :
    ∀ (b : Board) (out : List (List Char)),
      ((player_move_loop player inputs b out).valid = false ∧
        (player_move_loop player inputs b out).board = b) ∨
      (∃ pre row col,
        inputs = pre ++ (row, col) :: (player_move_loop player inputs b out).rest ∧
        read_board b row col = some (Char.ofNat 0) ∧ row < 3 ∧ col < 3 ∧
        (player_move_loop player inputs b out).valid = true ∧
        (player_move_loop player inputs b out).out_of_bounds = false ∧
        (player_move_loop player inputs b out).board = write_board b row col player) := by
  induction inputs with
  | nil => intro b out; left; simp [player_move_loop]
  | cons rc rest ih =>
    intro b out
    obtain ⟨row, col⟩ := rc
    cases hread : read_board b row col with
    | none => left; simp [player_move_loop, hread]
    | some cell =>
      by_cases h : cell = Char.ofNat 0 ∧ row < 3 ∧ col < 3
      · right
        refine ⟨[], row, col, ?_, ?_, h.2.1, h.2.2, ?_, ?_, ?_⟩
        · simp [player_move_loop, hread, h]
        · rw [hread, h.1]
        · simp [player_move_loop, hread, h]
        · simp [player_move_loop, hread, h]
        · simp [player_move_loop, hread, h]
      · simp only [player_move_loop, hread, h, if_false]
        rcases ih b (out ++ ["Row: ".toList, "Column: ".toList] ++
          ["Invalid Coordinates. Please try again.\n".toList]) with h1 | ⟨pre, r, c, h1, h3⟩
        · left
          exact h1
        · right
          refine ⟨(row, col) :: pre, r, c, ?_, h3⟩
          rw [List.cons_append, ← h1]

/-- A pair with both entries in 0..2 addresses the cell it names. -/
theorem read_write_in_range (b : Board) (row col : Int)
    (h1 : 0 ≤ row) (h2 : row < 3) (h3 : 0 ≤ col) (h4 : col < 3) :
    read_board b row col = some (b row col) ∧
      ∀ player, write_board b row col player = set_cell b row col player := by
  have e1 : (3 * row + col) / 3 = row := by omega
  have e2 : (3 * row + col) % 3 = col := by omega
  have e3 : 0 ≤ 3 * row + col ∧ 3 * row + col < 9 := by omega
  refine ⟨?_, ?_⟩
  · simp only [read_board, cell_offset, e1, e2, e3, and_self, if_true]
  · intro player
    simp only [write_board, cell_offset, e1, e2]

/-- A byte of the array that reads as a value is one of the nine cells. -/
theorem read_board_cell (b : Board) (row col : Int) (ch : Char)
    (h : read_board b row col = some ch) :
    0 ≤ cell_offset row col / 3 ∧ cell_offset row col / 3 < 3 ∧
      0 ≤ cell_offset row col % 3 ∧ cell_offset row col % 3 < 3 ∧
      b (cell_offset row col / 3) (cell_offset row col % 3) = ch := by
  unfold read_board at h
  by_cases hb : 0 ≤ cell_offset row col ∧ cell_offset row col < 9
  · simp only [hb, and_self, if_true, Option.some.injEq] at h
    refine ⟨by omega, by omega, by omega, by omega, h⟩
  · simp [hb] at h

/-- With every pair typed having both entries in 0..2, `player_move` does
what its doc comment says: the first pair naming an empty cell is taken, that
cell is set to the mark and no other, and the pairs before it, naming cells
that hold a mark, are refused with the board left as it was. -/
theorem player_move_in_range (b : Board) (player : Char) (row col : Int)
    (rest : List (Int × Int))
    (h1 : 0 ≤ row) (h2 : row < 3) (h3 : 0 ≤ col) (h4 : col < 3) :
    (b row col = Char.ofNat 0 →
      (player_move b player ((row, col) :: rest)).valid = true ∧
      (player_move b player ((row, col) :: rest)).out_of_bounds = false ∧
      (player_move b player ((row, col) :: rest)).rest = rest ∧
      (player_move b player ((row, col) :: rest)).board = set_cell b row col player) ∧
    (b row col ≠ Char.ofNat 0 →
      player_move b player ((row, col) :: rest) =
        player_move_loop player rest b
          (["Player ".toList ++ [player] ++ ", it's your move.\n".toList,
            "Enter Coordinates\n".toList] ++ ["Row: ".toList, "Column: ".toList] ++
            ["Invalid Coordinates. Please try again.\n".toList])) := by
  have hr := read_write_in_range b row col h1 h2 h3 h4
  refine ⟨?_, ?_⟩
  · intro he
    simp only [player_move, player_move_loop, hr.1, he, h2, h4, and_self, if_true, hr.2]
  · intro he
    simp only [player_move, player_move_loop, hr.1, he, false_and, if_false]

/-- Whatever is typed, a cell that holds a mark keeps it as long as
`player_move` stays inside the array. -/
theorem player_move_keeps_marks (b : Board) (player : Char) (inputs : List (Int × Int))
    (r c : Int) (h : b r c ≠ Char.ofNat 0) :
    (player_move b player inputs).board r c = b r c := by
  rcases player_move_loop_spec player inputs b
      ["Player ".toList ++ [player] ++ ", it's your move.\n".toList,
        "Enter Coordinates\n".toList] with h1 | ⟨pre, row, col, _, h3, _, _, _, _, h7⟩
  · have : (player_move b player inputs).board = b := h1.2
    rw [this]
  · have hb : (player_move b player inputs).board = write_board b row col player := h7
    rw [hb]
    have hc := read_board_cell b row col _ h3
    have hne : ¬ (r = cell_offset row col / 3 ∧ c = cell_offset row col % 3) := by
      rintro ⟨rfl, rfl⟩
      exact h hc.2.2.2.2
    simp [write_board, set_cell, hne]

/-- Writing a mark into a cell that does not hold `ch` changes the number of
`ch` on a list of cells by the number of times the cell is listed, when the
mark is `ch`, and not at all otherwise. -/
theorem countP_set_cell (b : Board) (row col : Int) (p ch : Char) (hb : b row col ≠ ch)
    (l : List (Int × Int)) :
    l.countP (fun rc => set_cell b row col p rc.1 rc.2 == ch) =
      l.countP (fun rc => b rc.1 rc.2 == ch) + (if p = ch then l.count (row, col) else 0) := by
  induction l with
  | nil => simp
  | cons x l ih =>
    obtain ⟨r, c⟩ := x
    rw [List.countP_cons, List.countP_cons, ih, List.count_cons]
    by_cases e : r = row ∧ c = col
    · obtain ⟨rfl, rfl⟩ := e
      by_cases hp : p = ch
      · simp [set_cell, hp, hb]; omega
      · simp [set_cell, hp, hb]
    · have e2 : ¬ ((r, c) = (row, col)) := by
        intro h; exact e (by simpa using h)
      have e3 : ((r, c) == (row, col)) = false := by simpa using e2
      simp only [set_cell, e, if_false, e3, Bool.false_eq_true]
      by_cases hp : p = ch <;> simp [hp]
      omega

/-- A pair with entries 0..2 is listed exactly once among the nine cells. -/
theorem count_cells (row col : Int) (h1 : 0 ≤ row) (h2 : row < 3) (h3 : 0 ≤ col) (h4 : col < 3) :
    cells.count (row, col) = 1 := by
  interval_cases row <;> interval_cases col <;> decide

/-- The number of marks `ch` after a mark `p` is written into an empty cell
of the board. -/
theorem count_marks_set_cell (b : Board) (row col : Int) (p ch : Char)
    (hempty : b row col = Char.ofNat 0) (hch : ch ≠ Char.ofNat 0)
    (h1 : 0 ≤ row) (h2 : row < 3) (h3 : 0 ≤ col) (h4 : col < 3) :
    count_marks (set_cell b row col p) ch = count_marks b ch + (if p = ch then 1 else 0) := by
  unfold count_marks
  rw [countP_set_cell b row col p ch (by rw [hempty]; exact fun h => hch h.symm),
    count_cells row col h1 h2 h3 h4]

/-- One pass of the loop of `main` keeps `turn_invariant`, and leaves
pairs that were already in the input. -/
theorem main_iteration_invariant (g g1 : Game)
    (hin : ∀ rc ∈ g.inputs, 0 ≤ rc.1 ∧ 0 ≤ rc.2)
    (hinv : turn_invariant g) (h : main_iteration g = some g1) :
    turn_invariant g1 ∧ ∀ rc ∈ g1.inputs, 0 ≤ rc.1 ∧ 0 ≤ rc.2 := by
  unfold main_iteration at h
  rcases player_move_loop_spec g.player g.inputs g.board
      ["Player ".toList ++ [g.player] ++ ", it's your move.\n".toList,
        "Enter Coordinates\n".toList] with h1 | ⟨pre, row, col, h1, h3, h4, h5, h6, _, h7⟩
  · have hv : (player_move g.board g.player g.inputs).valid = false := h1.1
    simp [hv] at h
  · have hv : (player_move g.board g.player g.inputs).valid = true := h6
    have hr : g.inputs = pre ++ (row, col) :: (player_move g.board g.player g.inputs).rest := h1
    simp only [hv, if_true, Option.some.injEq] at h
    have hmem : (row, col) ∈ g.inputs := by rw [hr]; simp
    have hnn := hin (row, col) hmem
    have hrw := read_write_in_range g.board row col hnn.1 h4 hnn.2 h5
    have hempty : g.board row col = Char.ofNat 0 := by
      have := h3
      rw [hrw.1] at this
      exact Option.some.inj this
    have hb : (player_move g.board g.player g.inputs).board =
        set_cell g.board row col g.player := by
      have : (player_move g.board g.player g.inputs).board =
          write_board g.board row col g.player := h7
      rw [this, hrw.2]
    have hX : (Char.ofNat 0) ≠ 'X' := by decide
    have hO : (Char.ofNat 0) ≠ 'O' := by decide
    have cX := count_marks_set_cell g.board row col g.player 'X' hempty (Ne.symm hX)
      hnn.1 h4 hnn.2 h5
    have cO := count_marks_set_cell g.board row col g.player 'O' hempty (Ne.symm hO)
      hnn.1 h4 hnn.2 h5
    have hboard : g1.board = set_cell g.board row col g.player := by rw [← h]; exact hb
    have hplayer : g1.player = if g.player = 'X' then 'O' else 'X' := by rw [← h]
    have hinputs : g1.inputs = (player_move g.board g.player g.inputs).rest := by rw [← h]
    refine ⟨?_, ?_⟩
    · unfold turn_invariant
      rw [hboard, hplayer, cX, cO]
      rcases hinv with ⟨hp, hc⟩ | ⟨hp, hc⟩
      · right
        rw [hp]
        refine ⟨by decide, ?_⟩
        rw [if_pos rfl, if_neg (by decide)]
        omega
      · left
        rw [hp]
        refine ⟨by decide, ?_⟩
        rw [if_pos rfl, if_neg (by decide)]
        omega
    · intro rc hrc
      apply hin rc
      rw [hr]
      rw [hinputs] at hrc
      simp only [List.mem_append, List.mem_cons]
      exact Or.inr (Or.inr hrc)

/-- Every state of the loop of `main` satisfies `turn_invariant`. -/
theorem main_loop_invariant (fuel : Nat) :
    ∀ g : Game, (∀ rc ∈ g.inputs, 0 ≤ rc.1 ∧ 0 ≤ rc.2) → turn_invariant g →
      turn_invariant (main_loop fuel g) := by
  induction fuel with
  | zero => intro g _ h; exact h
  | succ n ih =>
    intro g hin hinv
    unfold main_loop
    by_cases hw : g.we_have_a_winner = true
    · simp [hw, hinv]
    · simp only [hw, Bool.not_false, Bool.not_eq_true] at *
      cases hm : main_iteration g with
      | none => simpa [hw] using hinv
      | some g1 =>
        have := main_iteration_invariant g g1 hin hinv hm
        simpa [hw] using ih g1 this.2 this.1

/-- The empty board holds no mark. -/
theorem count_marks_empty (ch : Char) (hch : ch ≠ Char.ofNat 0) :
    count_marks empty_board ch = 0 := by
  have : (Char.ofNat 0 == ch) = false := by simpa using Ne.symm hch
  simp [count_marks, empty_board, cells, this]

end TicTac
namespace TicTac

/-! ## Claims on the moves -/

/-- C21 (fails): `player_move` subscripts `board_data` with the numbers as
typed before it compares them with 3, and never compares them with 0.  On
the empty board the pair row 1, column -1 is taken and the mark lands in the
cell of row 0, column 2, the byte that `board_data[1][-1]` addresses, so a
cell other than the one named is changed; with that cell held by `O` the same
pair is refused.  The pair row 1000000000, column 0 is neither taken nor
refused: the read of `board_data[1000000000][0]` is outside the nine bytes
of the array, after `Row: ` and `Column: ` and before anything else is
printed, and the next pair is never asked for. -/
theorem player_move_subscripts_before_the_range_test :
    (player_move empty_board 'X' [(1, -1)]).valid = true ∧
      (player_move empty_board 'X' [(1, -1)]).out_of_bounds = false ∧
      cells.map (fun rc => (player_move empty_board 'X' [(1, -1)]).board rc.1 rc.2) =
        [Char.ofNat 0, Char.ofNat 0, 'X', Char.ofNat 0, Char.ofNat 0, Char.ofNat 0,
          Char.ofNat 0, Char.ofNat 0, Char.ofNat 0] ∧
      cell_offset 1 (-1) = cell_offset 0 2 ∧
      (player_move (set_cell empty_board 0 2 'O') 'X' [(1, -1)]).valid = false ∧
      (player_move (set_cell empty_board 0 2 'O') 'X' [(1, -1)]).board 0 2 = 'O' ∧
      (player_move empty_board 'X' [(1000000000, 0), (1, 1)]).out_of_bounds = true ∧
      (player_move empty_board 'X' [(1000000000, 0), (1, 1)]).valid = false ∧
      (player_move empty_board 'X' [(1000000000, 0), (1, 1)]).rest = [(1, 1)] ∧
      (player_move empty_board 'X' [(1000000000, 0), (1, 1)]).printed =
        ["Player X, it's your move.\n".toList, "Enter Coordinates\n".toList,
          "Row: ".toList, "Column: ".toList] ∧
      read_board empty_board 1000000000 0 = none := by
  refine ⟨by decide, by decide, by decide, by decide, by decide, by decide, by decide,
    by decide, by decide, by decide, by decide⟩

/-- C25: `main` starts with the empty board and player `X`, and in every
state of its loop, the pairs typed having no negative entry (so that every
pair that is taken names one of the nine cells), the number of `X` on the
board is the number of `O` or one more, the player to move is `X` exactly
when the two numbers are equal and `O` exactly when there is one `X` more;
a pass of the loop hands the move to the other player. -/
theorem X_moves_first_and_players_alternate (inputs : List (Int × Int)) (fuel : Nat)
    (hin : ∀ rc ∈ inputs, 0 ≤ rc.1 ∧ 0 ≤ rc.2) :
    (Game.start inputs).player = 'X' ∧ (Game.start inputs).board = empty_board ∧
      (count_marks (main_loop fuel (Game.start inputs)).board 'X' =
          count_marks (main_loop fuel (Game.start inputs)).board 'O' ∨
        count_marks (main_loop fuel (Game.start inputs)).board 'X' =
          count_marks (main_loop fuel (Game.start inputs)).board 'O' + 1) ∧
      ((main_loop fuel (Game.start inputs)).player = 'X' ↔
        count_marks (main_loop fuel (Game.start inputs)).board 'X' =
          count_marks (main_loop fuel (Game.start inputs)).board 'O') ∧
      ((main_loop fuel (Game.start inputs)).player = 'O' ↔
        count_marks (main_loop fuel (Game.start inputs)).board 'X' =
          count_marks (main_loop fuel (Game.start inputs)).board 'O' + 1) ∧
      (∀ g g1, main_iteration g = some g1 →
        g1.player = (if g.player = 'X' then 'O' else 'X')) := by
  have h0 : turn_invariant (Game.start inputs) := by
    left
    refine ⟨rfl, ?_⟩
    show count_marks empty_board 'X' = count_marks empty_board 'O'
    rw [count_marks_empty 'X' (by decide), count_marks_empty 'O' (by decide)]
  have hinv := main_loop_invariant fuel (Game.start inputs) hin h0
  have hXO : ('X' : Char) ≠ 'O' := by decide
  refine ⟨rfl, rfl, ?_, ?_, ?_, ?_⟩
  · rcases hinv with ⟨_, hc⟩ | ⟨_, hc⟩
    · exact Or.inl hc
    · exact Or.inr hc
  · rcases hinv with ⟨hp, hc⟩ | ⟨hp, hc⟩
    · exact ⟨fun _ => hc, fun _ => hp⟩
    · refine ⟨fun e => ?_, fun e => ?_⟩
      · rw [hp] at e; exact absurd e.symm hXO
      · omega
  · rcases hinv with ⟨hp, hc⟩ | ⟨hp, hc⟩
    · refine ⟨fun e => ?_, fun e => ?_⟩
      · rw [hp] at e; exact absurd e hXO
      · omega
    · exact ⟨fun _ => hc, fun _ => hp⟩
  · intro g g1 h
    unfold main_iteration at h
    by_cases hv : (player_move g.board g.player g.inputs).valid = true
    · simp only [hv, if_true, Option.some.injEq] at h
      rw [← h]
    · simp [hv] at h

set_option maxRecDepth 100000 in
theorem X_moves_first_and_players_alternate_witness :
    (∀ rc ∈ sample_inputs, 0 ≤ rc.1 ∧ 0 ≤ rc.2) ∧
      (main_loop 3 (Game.start sample_inputs)).player = 'O' ∧
      count_marks (main_loop 3 (Game.start sample_inputs)).board 'X' = 2 ∧
      count_marks (main_loop 3 (Game.start sample_inputs)).board 'O' = 1 ∧
      (main_loop 3 (Game.start sample_inputs)).inputs = [] ∧
      ((main_loop 3 (Game.start sample_inputs)).player = 'O' ↔
        count_marks (main_loop 3 (Game.start sample_inputs)).board 'X' =
          count_marks (main_loop 3 (Game.start sample_inputs)).board 'O' + 1) :=
  ⟨by decide, by decide, by decide, by decide, by decide,
    (X_moves_first_and_players_alternate sample_inputs 3 (by decide)).2.2.2.2.1⟩

end TicTac
namespace DisplayPost

/-! ## The program on a field name without its equals sign -/

/-- C26: when `s` contains `f` but not `f ++ "="`, the first `find` of
`parse_cgi` succeeds, the second returns `npos`, `replace` at `npos` throws
`std::out_of_range` and `parse_cgi s f` returns no string.  `main` calls
`parse_cgi` with the field `in_text` and catches nothing: on such a line the
run ends by the abort, after the set-up calls and the first `clear_pins`,
with nothing printed and nothing displayed. -/
theorem parse_cgi_throws_when_field_has_no_equals (s f : List Char) (running : Nat → Bool)
    (hf : ∃ pre post, s = pre ++ f ++ post)
    (hno : ¬ ∃ pre post, s = pre ++ (f ++ "=".toList) ++ post) :
    find s f ≠ none ∧ find s (f ++ "=".toList) = none ∧
      replace_with_nothing s (find s (f ++ "=".toList)) (f.length + 1) = none ∧
      parse_cgi s f = none ∧
      (f = "in_text".toList →
        main running s = Outcome.aborted
          ⟨[Socket.Event.wiringPiSetup, Socket.Event.signal] ++ Socket.clear_events, 0⟩ ∧
        (∀ e ∈ [Socket.Event.wiringPiSetup, Socket.Event.signal] ++ Socket.clear_events,
          (∀ t, e ≠ Socket.Event.cout t) ∧ (∀ ms, e ≠ Socket.Event.delay ms) ∧
            (∀ p, e ≠ Socket.Event.digitalWrite p .LOW))) := by
  have h1 : find s f ≠ none := by
    intro h
    exact (find_none_iff f s).1 h hf
  have h2 : find s (f ++ "=".toList) = none := (find_none_iff _ s).2 hno
  have h3 : replace_with_nothing s (find s (f ++ "=".toList)) (f.length + 1) = none := by
    rw [h2]; rfl
  have h4 : parse_cgi s f = none := by
    simp only [parse_cgi, h1, ne_eq, not_false_eq_true, if_true, h3]
  refine ⟨h1, h2, h3, h4, ?_⟩
  intro hfe
  subst hfe
  refine ⟨?_, ?_⟩
  · simp only [main, h4, Socket.clear_pins_eq]
    rfl
  · intro e he
    rcases List.mem_append.1 he with he | he
    · simp only [List.mem_cons, List.mem_singleton, List.not_mem_nil, or_false] at he
      rcases he with rfl | rfl <;> simp
    · unfold Socket.clear_events at he
      simp only [List.mem_flatMap, List.mem_range] at he
      obtain ⟨c, _, hm⟩ := he
      simp at hm
      rcases hm with rfl | rfl <;> simp

theorem parse_cgi_throws_when_field_has_no_equals_witness :
    (∃ pre post, "in_text".toList = pre ++ "in_text".toList ++ post) ∧
      (¬ ∃ pre post, "in_text".toList = pre ++ ("in_text".toList ++ "=".toList) ++ post) ∧
      parse_cgi "in_text".toList "in_text".toList = none ∧
      main (fun _ => true) "in_text".toList = Outcome.aborted
        ⟨[Socket.Event.wiringPiSetup, Socket.Event.signal] ++ Socket.clear_events, 0⟩ :=
  have hf : ∃ pre post, "in_text".toList = pre ++ "in_text".toList ++ post :=
    ⟨[], [], by simp⟩
  have hno : ¬ ∃ pre post, "in_text".toList = pre ++ ("in_text".toList ++ "=".toList) ++ post := by
    rintro ⟨pre, post, h⟩
    have := congrArg List.length h
    simp at this
    omega
  ⟨hf, hno,
    (parse_cgi_throws_when_field_has_no_equals "in_text".toList "in_text".toList
      (fun _ => true) hf hno).2.2.2.1,
    ((parse_cgi_throws_when_field_has_no_equals "in_text".toList "in_text".toList
      (fun _ => true) hf hno).2.2.2.2 rfl).1⟩

end DisplayPost
